import Mathlib

/-!
Dog-park directory (`script.js`): the data fusion and filtering pipeline.

A shallow embedding of the decision logic of `src/script.js`:
`isWithinBrisbane`, `normalizeParkName`, `extractCoordinates`, `extractFacilities`,
`extractParkData`, `processParkData` and `getFilteredParks`, followed by the properties
proved about them.

Modelling conventions.

* A JavaScript value is a `JsVal`.  The property list of an object is its list of own
  enumerable properties in `Object.keys` order; property lookup takes the first entry
  with the requested key.
* A JavaScript number is a `JsNum`: `NaN`, an infinity, or a finite number, which is
  identified with the rational number it denotes.  Decimal literals of the source denote
  their decimal value.
* A JavaScript string is a Lean `String`; the regular expressions of the source (none has
  the `u` flag) are run over its list of characters.
* Built-in functions whose behaviour depends on Unicode tables or on number formatting are
  collected in `Builtins` and every function of the embedding takes them as a parameter.
* A thrown `TypeError` is the `Except.error` result.
-/

namespace ParkMap

/-! ## JavaScript values -/

/-- A JavaScript number: `NaN`, plus or minus `Infinity`, or a finite value. -/
inductive JsNum where
  | nan
  | fin (q : ℚ)
  | inf (neg : Bool)
deriving DecidableEq

/-- A JavaScript value as produced by `JSON.parse`, together with `undefined`. -/
inductive JsVal where
  | undefined
  | null
  | bool (b : Bool)
  | num (n : JsNum)
  | str (s : String)
  | arr (xs : List JsVal)
  | obj (props : List (String × JsVal))

/-- Built-in functions of the host that the embedding does not define. -/
structure Builtins where
  /-- The method `String.prototype.toLowerCase`. -/
  toLowerCase : String → String
  /-- The function `parseFloat` on a string argument. -/
  parseFloatStr : String → JsNum
  /-- The abstract operation `Number::toString` (radix 10). -/
  numToString : JsNum → String

/-- The comparison `a >= b` of two numbers; false as soon as one is `NaN`. -/
def JsNum.ge : JsNum → JsNum → Bool
  | .nan, _ => false
  | _, .nan => false
  | .fin a, .fin b => decide (b ≤ a)
  | .fin _, .inf neg => neg
  | .inf neg, .fin _ => !neg
  | .inf a, .inf b => !a || b

/-- The comparison `a <= b` of two numbers; false as soon as one is `NaN`. -/
def JsNum.le (a b : JsNum) : Bool := JsNum.ge b a

/-- The abstract operation `ToBoolean`. -/
def truthy : JsVal → Bool
  | .undefined => false
  | .null => false
  | .bool b => b
  | .num .nan => false
  | .num (.fin q) => decide (q ≠ 0)
  | .num (.inf _) => true
  | .str s => decide (s ≠ "")
  | .arr _ => true
  | .obj _ => true

/-- The expression `a || b`. -/
def jsOr (a b : JsVal) : JsVal := if truthy a then a else b

/-- First entry of a property list with the given key, `undefined` when there is none. -/
def lookupProp (k : String) : List (String × JsVal) → JsVal
  | [] => .undefined
  | (k', v) :: rest => if k' = k then v else lookupProp k rest

/-- The element `xs[i]` of an array, `undefined` out of range. -/
def arrIndex : List JsVal → Nat → JsVal
  | [], _ => .undefined
  | x :: _, 0 => x
  | _ :: xs, i + 1 => arrIndex xs i

/-- The index denoted by a property key that is a canonical array index below `n`. -/
def keyIndex (k : String) (n : Nat) : Option Nat :=
  (List.range n).find? (fun i => toString i = k)

/-- Property read `v[k]` (equivalently `v.k`) on a value other than `null` and `undefined`.
Arrays and strings answer their indices and `length`; no other property that the program
reads exists on the prototypes, so every other read gives `undefined`. -/
def JsVal.get (v : JsVal) (k : String) : JsVal :=
  match v with
  | .obj ps => lookupProp k ps
  | .arr xs =>
    if k = "length" then .num (.fin xs.length)
    else match keyIndex k xs.length with
      | some i => arrIndex xs i
      | none => .undefined
  | .str s =>
    if k = "length" then .num (.fin s.length)
    else match keyIndex k s.length with
      | some i => .str (String.mk (s.data.drop i |>.take 1))
      | none => .undefined
  | _ => .undefined

/-- Whether a property read on the value throws a `TypeError`. -/
def isNullish : JsVal → Bool
  | .undefined => true
  | .null => true
  | _ => false

/-- The function `Object.keys`. -/
def objectKeys : JsVal → List String
  | .obj ps => ps.map Prod.fst
  | .arr xs => (List.range xs.length).map toString
  | .str s => (List.range s.length).map toString
  | _ => []

/-- The test `typeof v === 'object'`. -/
def isObjectType : JsVal → Bool
  | .null => true
  | .arr _ => true
  | .obj _ => true
  | _ => false

/-- The method `Array.isArray`. -/
def isArray : JsVal → Bool
  | .arr _ => true
  | _ => false

/-- The test `v === undefined`. -/
def isUndefined : JsVal → Bool
  | .undefined => true
  | _ => false

/-- The test `v === s` against a string literal. -/
def eqStr (v : JsVal) (s : String) : Bool :=
  match v with
  | .str t => decide (t = s)
  | _ => false

mutual
/-- The abstract operation `ToString`, for the values on which it returns: an object that
has an own property `toString` makes it throw in the host, and is outside the embedding. -/
def toStr (B : Builtins) : JsVal → String
  | .undefined => "undefined"
  | .null => "null"
  | .bool b => if b then "true" else "false"
  | .num n => B.numToString n
  | .str s => s
  | .arr xs => joinStr B "," xs
  | .obj _ => "[object Object]"
/-- The method `Array.prototype.join`: `null` and `undefined` elements give the empty
string. -/
def joinStr (B : Builtins) (sep : String) : List JsVal → String
  | [] => ""
  | [x] => if isNullish x then "" else toStr B x
  | x :: y :: rest =>
    (if isNullish x then "" else toStr B x) ++ sep ++ joinStr B sep (y :: rest)
end

/-- The function `parseFloat`: the argument is converted to a string, of which the longest
numeric prefix is read.  For a number the conversion and the reading cancel out. -/
def parseFloat (B : Builtins) (v : JsVal) : JsNum :=
  match v with
  | .num n => n
  | _ => B.parseFloatStr (toStr B v)

/-! ## Strings and regular expressions -/

/-- The class `\w` (no `u` or `i` flag): `[A-Za-z0-9_]`. -/
def isWordChar (c : Char) : Bool :=
  ('a' ≤ c && c ≤ 'z') || ('A' ≤ c && c ≤ 'Z') || ('0' ≤ c && c ≤ '9') || c == '_'

/-- The class `\s`, which is also the set of characters removed by `trim`: the white
space and line terminator code points of ECMAScript. -/
def isSpaceChar (c : Char) : Bool :=
  let n := c.toNat
  (9 ≤ n && n ≤ 13) || n == 32 || n == 160 || n == 5760 || (8192 ≤ n && n ≤ 8202)
    || n == 8232 || n == 8233 || n == 8239 || n == 8287 || n == 12288 || n == 65279

/-- The class of the punctuation pass of `normalizeParkName`, written in the source as
`[.,/#!$%\^&*;:{}=_` followed by an apostrophe, a backquote and `~()]`. -/
def isPunctChar (c : Char) : Bool :=
  ['.', ',', '/', '#', '!', '$', '%', '^', '&', '*', ';', ':', '{', '}', '=', '_', Char.ofNat 39,
    Char.ofNat 96, '~', '(', ')'].contains c

/-- Whether `sub` occurs in the list of characters. -/
def hasInfix (sub : List Char) : List Char → Bool
  | [] => sub.isEmpty
  | c :: cs => sub.isPrefixOf (c :: cs) || hasInfix sub cs

/-- The method `String.prototype.includes`. -/
def includes (s sub : String) : Bool := hasInfix sub.data s.data

/-- The method `String.prototype.trim` on a list of characters. -/
def trimChars (s : List Char) : List Char :=
  ((s.dropWhile isSpaceChar).reverse.dropWhile isSpaceChar).reverse

/-- The method `String.prototype.trim`. -/
def trim (s : String) : String := String.mk (trimChars s.data)

/-- One attempt of a regular expression at a position: given the character before the
position (if any) and the text from the position on, the length of the match. -/
abbrev Matcher := Option Char → List Char → Option Nat

/-- The method `s.replace(re, '')` for a global regular expression whose matches are not
empty.  The text is read from left to right; at each position where the expression matches
the match is dropped and reading resumes after it.  `prev` is the character before the
position in the text that is read, `skip` the number of characters of the current match
still to drop. -/
def deleteMatches (m : Matcher) : Option Char → Nat → List Char → List Char
  | _, _, [] => []
  | _, skip + 1, c :: cs => deleteMatches m (some c) skip cs
  | prev, 0, c :: cs =>
    match m prev (c :: cs) with
    | some (k + 1) => deleteMatches m (some c) k cs
    | _ => c :: deleteMatches m (some c) 0 cs

/-- A literal piece of a pattern: the text left after it. -/
def lit (w : String) (t : List Char) : Option (List Char) :=
  if w.data.isPrefixOf t then some (t.drop w.data.length) else none

/-- The piece `[- ]?` followed by the rest `k` of the pattern: the optional character is
taken first, and given up when the rest fails after it. -/
def optSep (k : List Char → Option (List Char)) (t : List Char) : Option (List Char) :=
  match t with
  | c :: r =>
    if c == '-' || c == ' ' then
      match k r with
      | some rest => some rest
      | none => k t
    else k t
  | [] => k t

/-- Length consumed by a pattern that leaves `rest` of the text `t`. -/
def consumed (t : List Char) (rest : Option (List Char)) : Option Nat :=
  rest.map (fun r => t.length - r.length)

/-- The expression `/off[- ]?leash/`. -/
def reOffLeash : Matcher := fun _ t =>
  consumed t ((lit "off" t).bind (optSep (lit "leash")))

/-- The expression `/dog[- ]?off[- ]?leash/`. -/
def reDogOffLeash : Matcher := fun _ t =>
  consumed t ((lit "dog" t).bind (optSep (fun r => (lit "off" r).bind (optSep (lit "leash")))))

/-- The assertion `\b` between two neighbouring characters (absent at an end of the text). -/
def wordBoundary (before after : Option Char) : Bool :=
  before.any isWordChar != after.any isWordChar

/-- The expression `/\bw\b/` for a literal word `w`. -/
def reWholeWord (w : String) : Matcher := fun prev t =>
  if wordBoundary prev t.head? && w.data.isPrefixOf t
      && wordBoundary w.data.getLast? (t.drop w.data.length).head? then
    some w.data.length
  else none

/-- The pass `s.replace(/[...]/g, ' ')` of the punctuation class. -/
def replacePunct (s : List Char) : List Char :=
  s.map (fun c => if isPunctChar c then ' ' else c)

/-- The pass `s.replace(/\s+/g, ' ')`: each maximal run of white space becomes one space.
`inRun` tells that the previous character belongs to a run already replaced. -/
def collapseSpaces : Bool → List Char → List Char
  | _, [] => []
  | inRun, c :: cs =>
    if isSpaceChar c then
      if inRun then collapseSpaces true cs else ' ' :: collapseSpaces true cs
    else c :: collapseSpaces false cs

/-- The character before the text that follows `a`, when the character before `a` is
`prev`. -/
def prevAfter (prev : Option Char) (a : List Char) : Option Char :=
  match a.getLast? with
  | some c => some c
  | none => prev

/-- The method `re.test(s)` for a regular expression whose matches are not empty: whether
the expression matches at some position of the text.  `prev` is the character before the
text. -/
def hasMatch (m : Matcher) : Option Char → List Char → Bool
  | _, [] => false
  | prev, c :: cs => (m prev (c :: cs)).isSome || hasMatch m (some c) cs

/-- The passes of `normalizeParkName` after `toLowerCase`, on a list of characters. -/
def normalizeChars (s : List Char) : List Char :=
  let s := deleteMatches reOffLeash none 0 s
  let s := deleteMatches reDogOffLeash none 0 s
  let s := deleteMatches (reWholeWord "area") none 0 s
  let s := deleteMatches (reWholeWord "park") none 0 s
  let s := deleteMatches (reWholeWord "reserve") none 0 s
  let s := replacePunct s
  trimChars (collapseSpaces false s)

/-- The helper `normalizeParkName` of `processParkData`. -/
def normalizeParkName (B : Builtins) (name : JsVal) : String :=
  match name with
  | .str n =>
    if n = "" then ""
    else String.mk (normalizeChars (B.toLowerCase n).data)
  | _ => ""

/-- Lower-casing of the letters `A` to `Z`; the other characters are kept. -/
def asciiLowerChar (c : Char) : Char :=
  if 'A' ≤ c && c ≤ 'Z' then Char.ofNat (c.toNat + 32) else c

/-- Decimal digits of a natural number read from a list of digit characters. -/
def readDigits (ds : List Char) : Nat :=
  ds.foldl (fun acc d => 10 * acc + (d.toNat - 48)) 0

/-- A reading of `parseFloat` on strings made of an optional sign, digits and an optional
fraction (after optional leading white space); `NaN` when no digit is found. -/
def parseDecimal (s : String) : JsNum :=
  let t := s.data.dropWhile isSpaceChar
  let neg := t.head? == some '-'
  let t := if t.head? == some '-' || t.head? == some '+' then t.drop 1 else t
  let ip := t.takeWhile Char.isDigit
  let r := t.dropWhile Char.isDigit
  let fp := if r.head? == some '.' then (r.drop 1).takeWhile Char.isDigit else []
  if ip.isEmpty && fp.isEmpty then .nan
  else
    let q := mkRat (readDigits (ip ++ fp)) (10 ^ fp.length)
    .fin (if neg then -q else q)

/-- The digits after the decimal point of `r / d` (with `r < d`), at most `fuel` of them. -/
def fracDigits : Nat → Nat → Nat → List Char
  | 0, _, _ => []
  | fuel + 1, r, d =>
    if r = 0 then []
    else Char.ofNat (48 + 10 * r / d) :: fracDigits fuel (10 * r % d) d

/-- The decimal notation of a rational number: sign, integer part and up to twenty digits
after the point. -/
def decimalString (q : ℚ) : String :=
  let n := q.num.natAbs
  let fp := fracDigits 20 (n % q.den) q.den
  (if q.num < 0 then "-" else "") ++ toString (n / q.den)
    ++ (if fp.isEmpty then "" else "." ++ String.mk fp)

/-- Builtins used to run the embedding on concrete inputs: they agree with the host on
strings of ASCII characters, on plain decimal numerals (sign, digits, fraction) and on
numbers of ordinary size with a short decimal notation. -/
def refBuiltins : Builtins where
  toLowerCase := fun s => String.mk (s.data.map asciiLowerChar)
  parseFloatStr := parseDecimal
  numToString := fun n =>
    match n with
    | .nan => "NaN"
    | .inf neg => if neg then "-Infinity" else "Infinity"
    | .fin q => decimalString q

/-! ## Parks and filters -/

/-- The park object built by `extractParkData` (and the literals of `loadSampleData`).
`spread` holds the own properties of the raw item copied by `...item`; the named fields
are the properties written after the spread, which shadow it. -/
structure Park where
  type : String
  isOffLeash : Bool
  name : JsVal
  /-- The array `[lng, lat]`. -/
  coordinates : JsNum × JsNum
  suburb : JsVal
  address : JsVal
  facilities : List String
  restrictions : JsVal
  hours : JsVal
  area : JsVal
  description : JsVal
  spread : List (String × JsVal)

/-- The object `currentFilters`: each flag is a boolean or absent (`{}` initially). -/
structure FilterSet where
  nightLighting : Option Bool
  fenced : Option Bool
  offLeash : Option Bool
  smallDogEnclosure : Option Bool
  agility : Option Bool
  waterFountain : Option Bool

/-- Truthiness of a flag of `currentFilters`. -/
def flagOn : Option Bool → Bool
  | some b => b
  | none => false

/-- The test `flag === true`. -/
def flagIsTrue : Option Bool → Bool
  | some true => true
  | _ => false

/-- The callback given to `allParks.filter` in `getFilteredParks`. -/
def passesFilters (currentFilters : FilterSet) (park : Park) : Bool :=
  if flagOn currentFilters.nightLighting && !park.facilities.contains "Night Lighting" then false
  else if flagOn currentFilters.fenced && !park.facilities.contains "Fencing" then false
  else if flagIsTrue currentFilters.offLeash && !park.isOffLeash then false
  else if flagOn currentFilters.smallDogEnclosure
      && !park.facilities.contains "SMALL DOG ENCLOSURE" then false
  else if flagOn currentFilters.agility
      && !park.facilities.contains "DOG AGILITY EQUIPMENT" then false
  else if flagOn currentFilters.waterFountain && !park.facilities.contains "Water Fountain" then false
  else true

/-- The function `getFilteredParks`, with the globals `allParks` and `currentFilters` as
arguments. -/
def getFilteredParks (allParks : List Park) (currentFilters : FilterSet) : List Park :=
  if allParks.length = 0 then []
  else allParks.filter (passesFilters currentFilters)

/-! ## Field extraction -/

/-- The constant `BRISBANE_BOUNDS.south`, -27.7. -/
def BRISBANE_BOUNDS.south : ℚ := mkRat (-277) 10
/-- The constant `BRISBANE_BOUNDS.north`, -27.2. -/
def BRISBANE_BOUNDS.north : ℚ := mkRat (-272) 10
/-- The constant `BRISBANE_BOUNDS.west`, 152.8. -/
def BRISBANE_BOUNDS.west : ℚ := mkRat 1528 10
/-- The constant `BRISBANE_BOUNDS.east`, 153.3. -/
def BRISBANE_BOUNDS.east : ℚ := mkRat 1533 10

/-- The function `isWithinBrisbane`. -/
def isWithinBrisbane (lat lng : JsNum) : Bool :=
  lat.ge (.fin BRISBANE_BOUNDS.south) && lat.le (.fin BRISBANE_BOUNDS.north) &&
    lng.ge (.fin BRISBANE_BOUNDS.west) && lng.le (.fin BRISBANE_BOUNDS.east)

/-- The test `Array.isArray(v) && v.length >= 2`. -/
def isPair (v : JsVal) : Bool :=
  match v with
  | .arr xs => decide (2 ≤ xs.length)
  | _ => false

/-- The loop of `extractCoordinates` over `possibleCoordFields`. -/
def scanCoordFields (fields : JsVal) : List String → Option JsVal
  | [] => none
  | fieldName :: rest =>
    if truthy (fields.get fieldName) && isPair (fields.get fieldName) then
      some (fields.get fieldName)
    else scanCoordFields fields rest

/-- The function `extractCoordinates`; `none` is the result `null`. -/
def extractCoordinates (B : Builtins) (fields : JsVal) : Option JsVal :=
  if !truthy fields then none
  else if truthy (fields.get "geopoint") && isPair (fields.get "geopoint") then
    some (.arr [.num (parseFloat B ((fields.get "geopoint").get "1")),
      .num (parseFloat B ((fields.get "geopoint").get "0"))])
  else if truthy (fields.get "geo_shape")
      && (eqStr ((fields.get "geo_shape").get "type") "Point"
        && truthy ((fields.get "geo_shape").get "coordinates")) then
    some ((fields.get "geo_shape").get "coordinates")
  else if truthy (fields.get "geometry")
      && (eqStr ((fields.get "geometry").get "type") "Point"
        && truthy ((fields.get "geometry").get "coordinates")) then
    some ((fields.get "geometry").get "coordinates")
  else if truthy (fields.get "location")
      && truthy ((fields.get "location").get "coordinates") then
    some ((fields.get "location").get "coordinates")
  else if truthy (fields.get "lat") && truthy (fields.get "long") then
    some (.arr [.num (parseFloat B (fields.get "long")), .num (parseFloat B (fields.get "lat"))])
  else if truthy (fields.get "latitude") && truthy (fields.get "longitude") then
    some (.arr [.num (parseFloat B (fields.get "longitude")),
      .num (parseFloat B (fields.get "latitude"))])
  else if truthy (fields.get "lat") && truthy (fields.get "lng") then
    some (.arr [.num (parseFloat B (fields.get "lng")), .num (parseFloat B (fields.get "lat"))])
  else scanCoordFields fields ["coordinates", "coord", "position", "geo", "point"]

/-- The object `facilityMappings`, as `Object.entries` lists it. -/
def facilityMappings : List (String × String) :=
  [("toilet", "Toilets"), ("parking", "Parking"), ("playground", "Playground"),
   ("bbq", "BBQ"), ("shelter", "Shelter"), ("seating", "Seating"),
   ("water", "Water Fountain"), ("lighting", "Night Lighting"),
   ("exercise", "Exercise Equipment"), ("path", "Walking Paths"),
   ("picnic", "Picnic Area"), ("sport", "Sports Facilities")]

/-- The test `value === true || value === 1`. -/
def isTrueOrOne (v : JsVal) : Bool :=
  match v with
  | .bool b => b
  | .num (.fin q) => decide (q = 1)
  | _ => false

/-- The body of the inner callback of the key scan of `extractFacilities`, for one entry
of `facilityMappings`. -/
def scanKeyword (value : JsVal) (lowerKey lowerValue : String) (facilities : List String)
    (entry : String × String) : List String :=
  if includes lowerKey entry.1 || includes lowerValue entry.1 then
    if eqStr value "yes" || eqStr value "true" || eqStr value "1" || isTrueOrOne value
        || includes lowerValue "yes" || includes lowerKey entry.1 then
      facilities ++ [entry.2]
    else facilities
  else facilities

/-- The body of the callback of `fieldKeys.forEach` in `extractFacilities`. -/
def scanField (B : Builtins) (fields : JsVal) (facilities : List String) (key : String) :
    List String :=
  let value := fields.get key
  let lowerKey := B.toLowerCase key
  let lowerValue := match value with
    | .str s => B.toLowerCase s
    | _ => ""
  facilityMappings.foldl (scanKeyword value lowerKey lowerValue) facilities

/-- The body of the callback of `textFields.forEach` in `extractFacilities`. -/
def scanTextField (B : Builtins) (fields : JsVal) (facilities : List String)
    (fieldName : String) : List String :=
  if truthy (fields.get fieldName) then
    let text := match fields.get fieldName with
      | .str s => B.toLowerCase s
      | .arr xs => B.toLowerCase (joinStr B " " xs)
      | _ => ""
    if text ≠ "" then
      facilityMappings.foldl
        (fun acc entry => if includes text entry.1 then acc ++ [entry.2] else acc) facilities
    else facilities
  else facilities

/-- The expression `[...new Set(facilities)]`: the elements in order of first occurrence. -/
def spreadSet (facilities : List String) : List String :=
  facilities.foldl (fun set x => if set.contains x then set else set ++ [x]) []

/-- The function `extractFacilities`. -/
def extractFacilities (B : Builtins) (fields : JsVal) : List String :=
  if !truthy fields || !isObjectType fields then []
  else
    let facilities := ["Dog Friendly"]
    let facilities := (objectKeys fields).foldl (scanField B fields) facilities
    let facilities :=
      ["description", "facilities", "amenities", "features", "park_name_list"].foldl
        (scanTextField B fields) facilities
    spreadSet facilities

/-- The helper `isYes` of `extractParkData`. -/
def isYes (B : Builtins) (v : JsVal) : Bool :=
  if isTrueOrOne v then true
  else match v with
    | .str t =>
      let s := B.toLowerCase (trim t)
      decide (s = "y") || decide (s = "yes") || decide (s = "true") || decide (s = "1")
    | _ => false

/-- The own enumerable properties copied by the spread `...item`. -/
def ownProps (item : JsVal) : List (String × JsVal) :=
  (objectKeys item).map (fun k => (k, item.get k))

/-- The field bag chosen by `extractParkData`: `item.record.fields`, else `item.fields`,
else the item itself. -/
def fieldBag (item : JsVal) : JsVal :=
  if truthy (item.get "record") && truthy ((item.get "record").get "fields") then
    (item.get "record").get "fields"
  else if truthy (item.get "fields") then item.get "fields"
  else item

/-- The pushes of `extractParkData` onto `parkData.facilities` for the mapped fields of `f`. -/
def augmentFacilities (B : Builtins) (f : JsVal) (facilities : List String) : List String :=
  let facilities :=
    if isYes B (f.get "LIGHTING") || isYes B (f.get "lighting") then
      facilities ++ ["Night Lighting"]
    else facilities
  let fencingVal := if !isUndefined (f.get "FENCING") then f.get "FENCING" else f.get "fencing"
  let facilities :=
    match fencingVal with
    | .str t =>
      if B.toLowerCase (trim t) = "fully fenced" then facilities ++ ["Fencing"] else facilities
    | _ => facilities
  let facilities :=
    if isYes B (f.get "SMALL_DOG_ENCLOSURE") || isYes B (f.get "small_dog_enclosure") then
      facilities ++ ["SMALL DOG ENCLOSURE"]
    else facilities
  if isYes B (f.get "DOG_AGILITY_EQUIPMENT") || isYes B (f.get "dog_agility_equipment") then
    facilities ++ ["DOG AGILITY EQUIPMENT"]
  else facilities

/-- The function `extractParkData`.  The result is `error` when the function throws (the
read `item.record` on `null` or `undefined`), `ok none` when it returns `null`, and
`ok (some park)` when it returns a park.  The conversions to text on the way (`parseFloat`,
the template literals, `join`) are taken to return, see `toStr`. -/
def extractParkData (B : Builtins) (item : JsVal) (index : Nat) (type : String)
    (isOffLeash : Bool) : Except String (Option Park) :=
  if isNullish item then .error "TypeError"
  else
    let fields := fieldBag item
    match extractCoordinates B fields with
    | none => .ok none
    | some coordinates =>
      let lng := parseFloat B (coordinates.get "0")
      let lat := parseFloat B (coordinates.get "1")
      if !isWithinBrisbane lat lng then .ok none
      else
        let name := jsOr (fields.get "park_name") (jsOr (fields.get "name")
          (jsOr (fields.get "facility_name") (jsOr (fields.get "site_name")
            (jsOr (fields.get "title") (.str (type ++ " " ++ toString (index + 1)))))))
        let f := if truthy fields then fields else .obj []
        .ok (some
          { type := type
            isOffLeash := isOffLeash
            name := name
            coordinates := (lng, lat)
            suburb := jsOr (fields.get "suburb") (jsOr (fields.get "locality")
              (jsOr (fields.get "district") (.str "")))
            address := jsOr (fields.get "address") (jsOr (fields.get "street_address")
              (jsOr (fields.get "full_address") (.str "")))
            facilities := augmentFacilities B f (extractFacilities B fields)
            restrictions := jsOr (fields.get "restrictions") (jsOr (fields.get "rules") (.str ""))
            hours := jsOr (fields.get "hours") (jsOr (fields.get "opening_hours")
              (jsOr (fields.get "operating_hours") (.str "")))
            area := jsOr (fields.get "area") (.str "")
            description := jsOr (fields.get "description") (.str "")
            spread := ownProps item })

/-! ## Fusion -/

/-- The value `rawName` read from an item of `waterFountains` (the item is not `null`
or `undefined`). -/
def fountainRawName (item : JsVal) : JsVal :=
  let fields :=
    if truthy (item.get "record") && truthy ((item.get "record").get "fields") then
      (item.get "record").get "fields"
    else jsOr (item.get "fields") item
  jsOr (fields.get "park_name") (jsOr (fields.get "name")
    (jsOr (fields.get "site_name") (jsOr (fields.get "facility_name") (fields.get "title"))))

/-- The body of the callback of `waterFountains.forEach`: the set after one item, or
`error` when the read `item.record` throws. -/
def addFountainName (B : Builtins) (fountainParkNames : List String) (item : JsVal) :
    Except String (List String) :=
  if isNullish item then .error "TypeError"
  else
    let norm := normalizeParkName B (fountainRawName item)
    if norm ≠ "" then
      .ok (if fountainParkNames.contains norm then fountainParkNames
        else fountainParkNames ++ [norm])
    else .ok fountainParkNames

/-- The loop `waterFountains.forEach` building the set `fountainParkNames`. -/
def collectFountainNames (B : Builtins) : List String → List JsVal → Except String (List String)
  | set, [] => .ok set
  | set, item :: rest =>
    match addFountainName B set item with
    | .error e => .error e
    | .ok set' => collectFountainNames B set' rest

/-- The set `fountainParkNames` of `processParkData`: empty unless `waterFountains` is an
array. -/
def fountainNames (B : Builtins) (waterFountains : JsVal) : Except String (List String) :=
  match waterFountains with
  | .arr items => collectFountainNames B [] items
  | _ => .ok []

/-- The tagging step of the two loops of `processParkData`: the park after the
conditional push of the tag. -/
def tagWaterFountain (B : Builtins) (fountainParkNames : List String) (parkData : Park) :
    Park :=
  let nameKey := normalizeParkName B (jsOr parkData.name (.str ""))
  if nameKey ≠ "" && fountainParkNames.contains nameKey
      && !parkData.facilities.contains "Water Fountain" then
    { parkData with facilities := parkData.facilities ++ ["Water Fountain"] }
  else parkData

/-- State of a run of `processParkData`: the global `allParks`, and whether the run was
ended by a thrown error. -/
structure FusionResult where
  allParks : List Park
  threw : Bool

/-- One of the two loops `parks.forEach` and `offLeashAreas.forEach` of `processParkData`,
from position `index` on, with the current `allParks`. -/
def processRecords (B : Builtins) (fountainParkNames : List String) (type : String)
    (isOffLeash : Bool) : Nat → List JsVal → List Park → FusionResult
  | _, [], allParks => { allParks := allParks, threw := false }
  | index, item :: rest, allParks =>
    match extractParkData B item index type isOffLeash with
    | .error _ => { allParks := allParks, threw := true }
    | .ok none => processRecords B fountainParkNames type isOffLeash (index + 1) rest allParks
    | .ok (some parkData) =>
      processRecords B fountainParkNames type isOffLeash (index + 1) rest
        (allParks ++ [tagWaterFountain B fountainParkNames parkData])

/-- The function `processParkData` on two arrays `parks` and `offLeashAreas` and a value
`waterFountains`: the global `allParks` it leaves behind. -/
def processParkData (B : Builtins) (parks offLeashAreas : List JsVal) (waterFountains : JsVal) :
    FusionResult :=
  match fountainNames B waterFountains with
  | .error _ => { allParks := [], threw := true }
  | .ok names =>
    let r := processRecords B names "regular" false 0 parks []
    if r.threw then r
    else processRecords B names "off-leash" true 0 offLeashAreas r.allParks

/-! ## Notions of the specification -/

/-- The parks that `extractParkData` returns for the records of a dataset, in source
order; each record is given its position in the dataset. -/
def accepted (B : Builtins) (type : String) (isOffLeash : Bool) (items : List JsVal) :
    List Park :=
  items.enum.filterMap
    (fun ix => (extractParkData B ix.2 ix.1 type isOffLeash).toOption.join)

/-- The join condition in the words of the specification: the normalized name of the park
is not empty, it is the normalized name of some record of the water-fountain dataset, and
the park does not carry the tag yet. -/
def joinsFountain (B : Builtins) (waterFountains : List JsVal) (p : Park) : Prop :=
  normalizeParkName B p.name ≠ "" ∧
  (∃ item ∈ waterFountains,
    normalizeParkName B (fountainRawName item) = normalizeParkName B p.name) ∧
  "Water Fountain" ∉ p.facilities

instance (B : Builtins) (waterFountains : List JsVal) (p : Park) :
    Decidable (joinsFountain B waterFountains p) := by
  unfold joinsFountain
  infer_instance

/-- The fused park in the words of the specification: the tag `Water Fountain` is appended
when the join condition holds, and nothing changes otherwise. -/
def fusedPark (B : Builtins) (waterFountains : List JsVal) (p : Park) : Park :=
  { p with facilities :=
      if joinsFountain B waterFountains p then p.facilities ++ ["Water Fountain"]
      else p.facilities }

/-- The filter contract in the words of the specification: a flag is active when it is
set to true, and a park satisfies an active flag when it carries the required tag (for
`offLeash`: when it is an off-leash park). -/
def satisfiesActiveFlags (f : FilterSet) (p : Park) : Prop :=
  (f.nightLighting = some true → "Night Lighting" ∈ p.facilities) ∧
  (f.fenced = some true → "Fencing" ∈ p.facilities) ∧
  (f.offLeash = some true → p.isOffLeash = true) ∧
  (f.smallDogEnclosure = some true → "SMALL DOG ENCLOSURE" ∈ p.facilities) ∧
  (f.agility = some true → "DOG AGILITY EQUIPMENT" ∈ p.facilities) ∧
  (f.waterFountain = some true → "Water Fountain" ∈ p.facilities)

instance (f : FilterSet) (p : Park) : Decidable (satisfiesActiveFlags f p) := by
  unfold satisfiesActiveFlags
  infer_instance

/-- No flag of the filter set is active: each one is false or absent. -/
def noActiveFlag (f : FilterSet) : Prop :=
  f.nightLighting ≠ some true ∧ f.fenced ≠ some true ∧ f.offLeash ≠ some true ∧
  f.smallDogEnclosure ≠ some true ∧ f.agility ≠ some true ∧ f.waterFountain ≠ some true

/-- An off-leash park with two tags, used to exercise the filter. -/
def demoPark : Park :=
  { type := "off-leash", isOffLeash := true, name := .str "Demo",
    coordinates := (.fin 153, .fin (-27)), suburb := .str "", address := .str "",
    facilities := ["Dog Friendly", "Fencing"], restrictions := .str "", hours := .str "",
    area := .str "", description := .str "", spread := [] }

/-! ## Concrete records -/

/-- A parks record inside the region whose lighting flag is affirmed. -/
def litRecord : JsVal :=
  .obj [("name", .str "Riverside Park"),
    ("geopoint", .arr [.num (.fin (mkRat (-275) 10)), .num (.fin 153)]),
    ("LIGHTING", .str "Y")]

/-- A parks record named `Riverside Park`, inside the region. -/
def riversideRecord : JsVal :=
  .obj [("name", .str "Riverside Park"), ("latitude", .num (.fin (mkRat (-275) 10))),
    ("longitude", .num (.fin 153))]

/-- A water-fountain record named `RIVERSIDE PARK!!`. -/
def riversideFountain : JsVal :=
  .obj [("record", .obj [("fields", .obj [("park_name", .str "RIVERSIDE PARK!!")])])]

/-- The park that `processParkData` builds from `riversideRecord` when the fountain
dataset is `[riversideFountain]`. -/
def riversidePark : Park :=
  { type := "regular", isOffLeash := false, name := .str "Riverside Park",
    coordinates := (.fin 153, .fin (mkRat (-275) 10)), suburb := .str "", address := .str "",
    facilities := ["Dog Friendly", "Water Fountain"], restrictions := .str "",
    hours := .str "", area := .str "", description := .str "",
    spread := [("name", .str "Riverside Park"), ("latitude", .num (.fin (mkRat (-275) 10))),
      ("longitude", .num (.fin 153))] }

/-- A record at latitude -33, south of the region. -/
def sydneyRecord : JsVal :=
  .obj [("name", .str "Hyde Park"), ("lat", .num (.fin (-33))), ("long", .num (.fin 151))]

/-- A record on the south-west corner of the region. -/
def cornerRecord : JsVal :=
  .obj [("geometry", .obj [("type", .str "Point"),
    ("coordinates", .arr [.num (.fin (mkRat 1528 10)), .num (.fin (mkRat (-277) 10))])])]

/-! ## Sample data and loading -/

/-- The array assigned to `allParks` by `loadSampleData`. -/
def loadSampleData : List Park :=
  [ { type := "regular", isOffLeash := false, name := .str "South Bank Parklands",
      coordinates := (.fin (mkRat 1530251 10000), .fin (mkRat (-274748) 10000)),
      suburb := .str "South Brisbane", address := .str "Grey Street, South Brisbane QLD 4101",
      facilities := ["Toilets", "Parking", "Water Fountain", "Seating"],
      restrictions := .undefined, hours := .undefined, area := .undefined,
      description := .undefined, spread := [] },
    { type := "off-leash", isOffLeash := true, name := .str "New Farm Park Off-Leash Area",
      coordinates := (.fin (mkRat 1530515 10000), .fin (mkRat (-274689) 10000)),
      suburb := .str "New Farm", address := .str "Brunswick Street, New Farm QLD 4005",
      facilities := ["Toilets", "Parking", "Water Fountain"],
      restrictions := .undefined, hours := .undefined, area := .undefined,
      description := .undefined, spread := [] },
    { type := "regular", isOffLeash := false, name := .str "Roma Street Parkland",
      coordinates := (.fin (mkRat 1530186 10000), .fin (mkRat (-274634) 10000)),
      suburb := .str "Brisbane City",
      address := .str "1 Parkland Boulevard, Brisbane City QLD 4000",
      facilities := ["Toilets", "Parking", "Playground", "BBQ"],
      restrictions := .undefined, hours := .undefined, area := .undefined,
      description := .undefined, spread := [] },
    { type := "off-leash", isOffLeash := true, name := .str "Kangaroo Point Cliffs Park",
      coordinates := (.fin (mkRat 1530351 10000), .fin (mkRat (-274798) 10000)),
      suburb := .str "Kangaroo Point", address := .str "River Terrace, Kangaroo Point QLD 4169",
      facilities := ["Parking", "Seating"],
      restrictions := .undefined, hours := .undefined, area := .undefined,
      description := .undefined, spread := [] },
    { type := "regular", isOffLeash := false, name := .str "City Botanic Gardens",
      coordinates := (.fin (mkRat 1530298 10000), .fin (mkRat (-274738) 10000)),
      suburb := .str "Brisbane City", address := .str "Alice Street, Brisbane City QLD 4000",
      facilities := ["Toilets", "Water Fountain", "Seating"],
      restrictions := .undefined, hours := .undefined, area := .undefined,
      description := .undefined, spread := [] } ]

/-- The function `loadParkData`, from the three fetched datasets on: the global `allParks`
it leaves behind.  An error thrown by `processParkData` is caught and the sample data is
loaded; so it is when the fused collection is empty. -/
def loadParkData (B : Builtins) (parkData offLeashData : List JsVal)
    (waterFountainData : JsVal) : List Park :=
  let r := processParkData B parkData offLeashData waterFountainData
  if r.threw then loadSampleData
  else if r.allParks.length > 0 then r.allParks
  else loadSampleData

/-- A parks record named `Park`, inside the region. -/
def parkNamedPark : JsVal :=
  .obj [("name", .str "Park"), ("lat", .num (.fin (mkRat (-275) 10))),
    ("lng", .num (.fin 153))]

/-- A water-fountain record named `Park`. -/
def fountainNamedPark : JsVal := .obj [("name", .str "Park")]

/-- An off-leash record inside the region, without a name. -/
def namelessRecord : JsVal :=
  .obj [("record", .obj [("fields",
    .obj [("geopoint", .arr [.num (.fin (mkRat (-273) 10)), .num (.fin 153)])])])]

/-- A field bag with a `geopoint` pair and contradicting `latitude`, `longitude` and
GeoJSON members. -/
def mixedFields : JsVal :=
  .obj [("latitude", .num (.fin 10)), ("longitude", .num (.fin 20)),
    ("geometry", .obj [("type", .str "Point"),
      ("coordinates", .arr [.num (.fin 30), .num (.fin 40)])]),
    ("geopoint", .arr [.num (.fin (mkRat (-275) 10)), .num (.fin 153)])]

/-- The `coordinates` member of a GeoJSON polygon: one ring of four positions. -/
def polygonRing : JsVal :=
  .arr [.arr [.arr [.num (.fin 153), .num (.fin (mkRat (-275) 10))],
    .arr [.num (.fin (mkRat 1531 10)), .num (.fin (mkRat (-275) 10))],
    .arr [.num (.fin (mkRat 1531 10)), .num (.fin (mkRat (-274) 10))],
    .arr [.num (.fin 153), .num (.fin (mkRat (-275) 10))]]]

/-- A record whose member `shape` is a polygon and which also has `lat` and `long`. -/
def polygonRecord (shape : String) : JsVal :=
  .obj [("name", .str "Oval"),
    (shape, .obj [("type", .str "Polygon"), ("coordinates", polygonRing)]),
    ("lat", .num (.fin (mkRat (-275) 10))), ("long", .num (.fin 153))]

/-! ## Ranking -/

/-- The operation `-x` on numbers. -/
def JsNum.neg : JsNum → JsNum
  | .nan => .nan
  | .fin q => .fin (-q)
  | .inf neg => .inf (!neg)

/-- The operation `x + y` on numbers (the sign of a zero is not modelled). -/
def JsNum.add : JsNum → JsNum → JsNum
  | .nan, _ => .nan
  | _, .nan => .nan
  | .fin a, .fin b => .fin (a + b)
  | .fin _, .inf neg => .inf neg
  | .inf neg, .fin _ => .inf neg
  | .inf a, .inf b => if a = b then .inf a else .nan

/-- The operation `x - y` on numbers. -/
def JsNum.sub (x y : JsNum) : JsNum := JsNum.add x (JsNum.neg y)

/-- The operation `x * y` on numbers. -/
def JsNum.mul : JsNum → JsNum → JsNum
  | .nan, _ => .nan
  | _, .nan => .nan
  | .fin a, .fin b => .fin (a * b)
  | .fin a, .inf neg => if a = 0 then .nan else .inf (xor neg (decide (a < 0)))
  | .inf neg, .fin b => if b = 0 then .nan else .inf (xor neg (decide (b < 0)))
  | .inf a, .inf b => .inf (xor a b)

/-- The operation `x / y` on numbers; a zero divisor is taken as `+0`. -/
def JsNum.div : JsNum → JsNum → JsNum
  | .nan, _ => .nan
  | _, .nan => .nan
  | .fin a, .fin b =>
    if b = 0 then (if a = 0 then .nan else .inf (decide (a < 0))) else .fin (a / b)
  | .fin _, .inf _ => .fin 0
  | .inf neg, .fin b => .inf (xor neg (decide (b < 0)))
  | .inf _, .inf _ => .nan

instance : Add JsNum := ⟨JsNum.add⟩
instance : Sub JsNum := ⟨JsNum.sub⟩
instance : Mul JsNum := ⟨JsNum.mul⟩
instance : Div JsNum := ⟨JsNum.div⟩
instance (n : Nat) : OfNat JsNum n := ⟨.fin n⟩

/-- The function `Number.isFinite` on a number. -/
def JsNum.isFinite : JsNum → Bool
  | .fin _ => true
  | _ => false

/-- The test `x > 0`, which is how `sort` reads the result of its comparator; false for
`NaN`. -/
def JsNum.isPositive : JsNum → Bool
  | .nan => false
  | .fin q => decide (0 < q)
  | .inf neg => !neg

/-- The properties and functions of `Math` used by `calculateDistance`. -/
structure MathFns where
  PI : JsNum
  sin : JsNum → JsNum
  cos : JsNum → JsNum
  sqrt : JsNum → JsNum
  atan2 : JsNum → JsNum → JsNum

/-- A position `{ lat, lng }`. -/
structure LatLng where
  lat : JsNum
  lng : JsNum

/-- The method `Number.prototype.toFixed` with one digit: the sign, then the multiple of
one tenth nearest to the magnitude (the larger one on a tie). -/
def toFixed1 (B : Builtins) (x : JsNum) : String :=
  match x with
  | .nan => "NaN"
  | .inf neg => if neg then "-Infinity" else "Infinity"
  | .fin q =>
    if 10 ^ 21 ≤ |q| then B.numToString x
    else
      let n := (20 * q.num.natAbs + q.den) / (2 * q.den)
      (if q < 0 then "-" else "") ++ toString (n / 10) ++ "." ++ toString (n % 10)

/-- The value `R * c` of `calculateDistance`, before `toFixed`. -/
def haversineKm (M : MathFns) (pos1 pos2 : LatLng) : JsNum :=
  let R : JsNum := 6371
  let dLat := (pos2.lat - pos1.lat) * M.PI / 180
  let dLng := (pos2.lng - pos1.lng) * M.PI / 180
  let a := M.sin (dLat / 2) * M.sin (dLat / 2) +
    M.cos (pos1.lat * M.PI / 180) * M.cos (pos2.lat * M.PI / 180) *
      M.sin (dLng / 2) * M.sin (dLng / 2)
  let c := 2 * M.atan2 (M.sqrt a) (M.sqrt (1 - a))
  R * c

/-- The function `calculateDistance`. -/
def calculateDistance (M : MathFns) (B : Builtins) (pos1 pos2 : LatLng) : String :=
  toFixed1 B (haversineKm M pos1 pos2)

/-- An element of the array returned by `getNearestParks`: a park and the property
`distance` written by `getNearestParks` (absent when it wrote none), which shadows a
property of that name copied from the raw item. -/
structure RankedPark where
  park : Park
  distance : Option JsNum

/-- The object `parkLocation` that the callback of `parks.map` in `getNearestParks` builds
from `park.coordinates`. -/
def parkLocation (park : Park) : LatLng :=
  { lat := park.coordinates.2, lng := park.coordinates.1 }

/-- The value `parseFloat(distance)` that the callback of `parks.map` in `getNearestParks`
stores for a park. -/
def distanceTo (M : MathFns) (B : Builtins) (userLocation : LatLng) (park : Park) : JsNum :=
  parseFloat B (.str (calculateDistance M B userLocation (parkLocation park)))

/-- The read `a.distance` on an element of `parksWithDistance`, as a number. -/
def RankedPark.key (a : RankedPark) : JsNum :=
  match a.distance with
  | some d => d
  | none => .nan

/-- Insertion of `x` in front of a sorted tail: `x` moves behind the elements `y` for which
the comparator `(a, b) => a.distance - b.distance` is positive at `(x, y)`. -/
def insertByDistance (x : RankedPark) : List RankedPark → List RankedPark
  | [] => [x]
  | y :: ys =>
    if (x.key - y.key).isPositive then y :: insertByDistance x ys
    else x :: y :: ys

/-- The method `sort((a, b) => a.distance - b.distance)`: a stable sort (each element is
inserted in front of the sorted rest, behind the elements it must follow).  While the
comparator is consistent (no key is `NaN`, or every key is) this is the order the language
prescribes; with `NaN` among other keys the order is left to the engine. -/
def sortByDistance : List RankedPark → List RankedPark
  | [] => []
  | x :: xs => insertByDistance x (sortByDistance xs)

/-- The function `getNearestParks`, with the global `userLocation` as an argument (`none`
is `null`); `limit` is a natural number. -/
def getNearestParks (M : MathFns) (B : Builtins) (userLocation : Option LatLng)
    (parks : List Park) (limit : Nat) : List RankedPark :=
  match userLocation with
  | none => (parks.take limit).map (fun park => { park := park, distance := none })
  | some loc =>
    if parks.length = 0 then
      (parks.take limit).map (fun park => { park := park, distance := none })
    else
      let parksWithDistance :=
        parks.map (fun park => { park := park, distance := some (distanceTo M B loc park) })
      (sortByDistance parksWithDistance).take limit

/-- The arrays that exist while `getNearestParks` runs: its argument `parks` and the local
`parksWithDistance` (empty before `map` has built it). -/
structure RankingArrays where
  parks : List Park
  parksWithDistance : List RankedPark

/-- The function `getNearestParks` with its arrays as explicit state, the returned array
next to the final state: `slice` and `map` build a new array and leave the one they are
called on as it is, `sort` reorders the array it is called on, which is
`parksWithDistance`; the callback of `map` copies `park` into a new object. -/
def getNearestParksRun (M : MathFns) (B : Builtins) (userLocation : Option LatLng)
    (parks : List Park) (limit : Nat) : RankingArrays × List RankedPark :=
  let s0 : RankingArrays := { parks := parks, parksWithDistance := [] }
  match userLocation with
  | none => (s0, (s0.parks.take limit).map (fun park => { park := park, distance := none }))
  | some loc =>
    if s0.parks.length = 0 then
      (s0, (s0.parks.take limit).map (fun park => { park := park, distance := none }))
    else
      let s1 : RankingArrays :=
        { s0 with
          parksWithDistance :=
            s0.parks.map
              (fun park => { park := park, distance := some (distanceTo M B loc park) }) }
      let s2 : RankingArrays :=
        { s1 with parksWithDistance := sortByDistance s1.parksWithDistance }
      (s2, s2.parksWithDistance.take limit)

/-- The read `park.distance` in `createParkCardHTML`. -/
def RankedPark.distanceProp (a : RankedPark) : JsVal :=
  match a.distance with
  | some d => .num d
  | none => lookupProp "distance" a.park.spread

/-- The text about the distance in the card built by `createParkCardHTML`; `error` when
`park.distance.toFixed` is not a function. -/
def distanceLine (B : Builtins) (a : RankedPark) : Except String String :=
  match a.distanceProp with
  | .undefined => .ok "Distance unknown"
  | .num d =>
    if toFixed1 B d ≠ "N/A" then .ok (toFixed1 B d ++ " km away") else .ok "Distance unknown"
  | _ => .error "TypeError"

/-! ### A reference `Math` -/

/-- Newton's iteration for the integer square root of `n`, from a guess above it. -/
def natSqrtLoop : Nat → Nat → Nat → Nat
  | 0, _, x => x
  | fuel + 1, n, x =>
    let y := (x + n / x) / 2
    if y < x then natSqrtLoop fuel n y else x

/-- The integer square root (for numbers below `2 ^ 400`). -/
def natSqrt (n : Nat) : Nat := if n = 0 then 0 else natSqrtLoop 400 n n

/-- A rational number cut to 30 decimals. -/
def trunc30 (q : ℚ) : ℚ := mkRat (q.num * 10 ^ 30 / q.den) (10 ^ 30)

/-- The square root of a rational number that is not negative, to 30 decimals. -/
def sqrtQ (q : ℚ) : ℚ := mkRat (natSqrt ((q.num * 10 ^ 60 / q.den).toNat)) (10 ^ 30)

/-- The value of pi to 30 decimals. -/
def piQ : ℚ := mkRat 3141592653589793238462643383279 (10 ^ 30)

/-- The first `n` terms of the sine series (from `k = 1`, `t = x`) or of the cosine series
(from `k = 0`, `t = 1`), `t` being the current term. -/
def sinSeries : Nat → Nat → ℚ → ℚ → ℚ
  | 0, _, _, _ => 0
  | n + 1, k, x, t => t + sinSeries n (k + 2) x (-(t * x * x) / ((k + 1) * (k + 2)))

/-- The angle brought back between minus pi and pi. -/
def reduceAngle (x : ℚ) : ℚ :=
  let turns := x / (2 * piQ) + 1 / 2
  x - 2 * piQ * (turns.num / turns.den : Int)

/-- The sine of a rational number, to about 25 decimals. -/
def sinQ (x : ℚ) : ℚ :=
  let r := trunc30 (reduceAngle x)
  trunc30 (sinSeries 16 1 r r)

/-- The cosine of a rational number, to about 25 decimals. -/
def cosQ (x : ℚ) : ℚ :=
  let r := trunc30 (reduceAngle x)
  trunc30 (sinSeries 16 0 r 1)

/-- The first `n` terms of the arc tangent series, `t` being the current odd power. -/
def atanSeries : Nat → Nat → ℚ → ℚ → ℚ
  | 0, _, _, _ => 0
  | n + 1, k, x, t => t / (2 * k + 1) + atanSeries n (k + 1) x (-(t * x * x))

/-- The tangent of half the angle whose tangent is `t`. -/
def halfTangent (t : ℚ) : ℚ := trunc30 (t / (1 + sqrtQ (1 + t * t)))

/-- The arc tangent of a rational number of magnitude at most 1. -/
def atanSmall (t : ℚ) : ℚ :=
  let u := halfTangent (halfTangent t)
  4 * trunc30 (atanSeries 24 0 u u)

/-- The arc tangent of a rational number, to about 25 decimals. -/
def atanQ (t : ℚ) : ℚ :=
  if 1 < |t| then (if 0 < t then piQ / 2 else -(piQ / 2)) - atanSmall (1 / t)
  else atanSmall t

/-- The function `atan2` on rational numbers. -/
def atan2Q (y x : ℚ) : ℚ :=
  if 0 < x then atanQ (y / x)
  else if x < 0 then (if 0 ≤ y then atanQ (y / x) + piQ else atanQ (y / x) - piQ)
  else if 0 < y then piQ / 2
  else if y < 0 then -(piQ / 2)
  else 0

/-- A `Math` used to run the embedding on concrete inputs: series on exact rational
numbers, cut to 30 decimals. -/
def refMath : MathFns where
  PI := .fin (mkRat 3141592653589793 (10 ^ 15))
  sin := fun x =>
    match x with
    | .fin q => .fin (sinQ q)
    | _ => .nan
  cos := fun x =>
    match x with
    | .fin q => .fin (cosQ q)
    | _ => .nan
  sqrt := fun x =>
    match x with
    | .nan => .nan
    | .fin q => if q < 0 then .nan else .fin (sqrtQ q)
    | .inf neg => if neg then .nan else .inf false
  atan2 := fun y x =>
    match y, x with
    | .nan, _ => .nan
    | _, .nan => .nan
    | .fin a, .fin b => .fin (atan2Q a b)
    | .fin a, .inf neg => if neg then (if a < 0 then .fin (-piQ) else .fin piQ) else .fin 0
    | .inf neg, .fin _ => if neg then .fin (-(piQ / 2)) else .fin (piQ / 2)
    | .inf a, .inf b =>
      .fin ((if a then -1 else 1) * (if b then 3 * piQ / 4 else piQ / 4))

/-- The reference point used by the program when geolocation is not available. -/
def brisbaneCentre : LatLng :=
  { lat := .fin (mkRat (-274698) 10000), lng := .fin (mkRat 1530251 10000) }

/-- A reference point whose latitude is `NaN`. -/
def nanReference : LatLng := { lat := .nan, lng := .fin (mkRat 1530251 10000) }

/-- A reference point whose latitude, 200, is not a latitude. -/
def farReference : LatLng := { lat := .fin 200, lng := .fin (mkRat 1530251 10000) }

/-- The names of the parks of a ranked list. -/
def rankedNames (B : Builtins) (l : List RankedPark) : List String :=
  l.map (fun a => toStr B a.park.name)

/-- Two of the sample parks, 'City Botanic Gardens' then 'South Bank Parklands'. -/
def botanicThenSouthBank : List Park := loadSampleData.drop 4 ++ loadSampleData.take 1

/-! ## Notions and records for the mapped fields -/

/-- Evidence of a facility in the words of the specification: the key of the field contains
the keyword ignoring case, or the value of the field is a string that contains the keyword
and `yes`, both ignoring case. -/
def isEvidence (B : Builtins) (key : String) (value : JsVal) (keyword : String) : Prop :=
  includes (B.toLowerCase key) keyword = true ∨
  ∃ s, value = .str s ∧ includes (B.toLowerCase s) keyword = true ∧
    includes (B.toLowerCase s) "yes" = true

/-- The text that the text scan of `extractFacilities` reads in the value of a field. -/
def scannedText (B : Builtins) (v : JsVal) : String :=
  match v with
  | .str s => B.toLowerCase s
  | .arr xs => B.toLowerCase (joinStr B " " xs)
  | _ => ""

/-- A mention of a keyword in a field bag, as the two scans of `extractFacilities` see it:
some field is evidence of the keyword, or one of the five text fields is present and its
text contains the keyword. -/
def mentionsKeyword (B : Builtins) (fields : JsVal) (keyword : String) : Prop :=
  (∃ key ∈ objectKeys fields, isEvidence B key (fields.get key) keyword) ∨
  (∃ fieldName ∈ ["description", "facilities", "amenities", "features", "park_name_list"],
    truthy (fields.get fieldName) = true ∧
    includes (scannedText B (fields.get fieldName)) keyword = true)

/-- A record inside the region with one more field, `key`, holding `value`. -/
def flagRecord (key : String) (value : JsVal) : JsVal :=
  .obj [("name", .str "Riverside Park"),
    ("geopoint", .arr [.num (.fin (mkRat (-275) 10)), .num (.fin 153)]),
    (key, value)]

/-- A record inside the region whose `park_name` is an empty array and whose `name` is a
text. -/
def arrayNameRecord : JsVal :=
  .obj [("park_name", .arr []), ("name", .str "Riverside Park"),
    ("geopoint", .arr [.num (.fin (mkRat (-275) 10)), .num (.fin 153)])]

/-- The park that `extractParkData` returns for a record (`demoPark` when it returns none). -/
def parkOf (B : Builtins) (item : JsVal) (index : Nat) (type : String) (isOffLeash : Bool) :
    Park :=
  ((extractParkData B item index type isOffLeash).toOption.join).getD demoPark

/-- A filter set whose only active flag is `nightLighting`. -/
def nightLightingOnly : FilterSet :=
  { nightLighting := some true, fenced := none, offLeash := none, smallDogEnclosure := none,
    agility := none, waterFountain := none }

/-! ## Theorems -/

/-! ### `getFilteredParks` -/

theorem flagOn_eq_true_iff (o : Option Bool) : flagOn o = true ↔ o = some true := by
  cases o with
  | none => simp [flagOn]
  | some b => cases b <;> simp [flagOn]

theorem flagIsTrue_eq_true_iff (o : Option Bool) : flagIsTrue o = true ↔ o = some true := by
  cases o with
  | none => simp [flagIsTrue]
  | some b => cases b <;> simp [flagIsTrue]

theorem passesFilters_iff (f : FilterSet) (p : Park) :
    passesFilters f p = true ↔ satisfiesActiveFlags f p := by
  unfold passesFilters satisfiesActiveFlags
  simp only [← flagOn_eq_true_iff, ← flagIsTrue_eq_true_iff f.offLeash]
  cases flagOn f.nightLighting <;> cases flagOn f.fenced <;> cases flagIsTrue f.offLeash <;>
    cases flagOn f.smallDogEnclosure <;> cases flagOn f.agility <;>
    cases flagOn f.waterFountain <;> cases p.isOffLeash <;>
    simp

/-- C1: `getFilteredParks` returns exactly the parks of the input, in input order, that
satisfy every active flag (the required tag for the five tag flags, `isOffLeash` for
`offLeash`); a flag that is false or absent imposes no constraint. -/
theorem getFilteredParks_eq_filter (allParks : List Park) (f : FilterSet) :
    getFilteredParks allParks f
      = allParks.filter (fun p => decide (satisfiesActiveFlags f p)) := by
  unfold getFilteredParks
  split
  · rename_i h
    rw [List.length_eq_zero.mp h]
    rfl
  · congr 1
    funext p
    rw [Bool.eq_iff_iff, passesFilters_iff]
    simp

theorem passesFilters_of_noActiveFlag (f : FilterSet) (h : noActiveFlag f) (p : Park) :
    passesFilters f p = true := by
  rw [passesFilters_iff]
  obtain ⟨h1, h2, h3, h4, h5, h6⟩ := h
  exact ⟨fun e => absurd e h1, fun e => absurd e h2, fun e => absurd e h3,
    fun e => absurd e h4, fun e => absurd e h5, fun e => absurd e h6⟩

/-- C2: with no flag active, `getFilteredParks` returns its input unchanged. -/
theorem getFilteredParks_no_flag (allParks : List Park) (f : FilterSet)
    (h : noActiveFlag f) : getFilteredParks allParks f = allParks := by
  unfold getFilteredParks
  split
  · rename_i h0
    exact (List.length_eq_zero.mp h0).symm
  · rw [List.filter_eq_self]
    intro p _
    exact passesFilters_of_noActiveFlag f h p

/-- Witness of C2: the empty filter set `{}` and a filter set with false flags leave a
two-park list unchanged. -/
theorem getFilteredParks_no_flag_witness :
    noActiveFlag ⟨none, some false, some false, none, none, some false⟩ ∧
    getFilteredParks [demoPark, { demoPark with isOffLeash := false, facilities := [] }]
        ⟨none, some false, some false, none, none, some false⟩
      = [demoPark, { demoPark with isOffLeash := false, facilities := [] }] :=
  ⟨by simp [noActiveFlag],
   getFilteredParks_no_flag _ _ (by simp [noActiveFlag])⟩

/-! ### `extractFacilities` -/

theorem foldl_preserves {α β : Type} (P : β → Prop) (f : β → α → β)
    (hf : ∀ acc x, P acc → P (f acc x)) (l : List α) (init : β) (h : P init) :
    P (l.foldl f init) := by
  induction l generalizing init with
  | nil => exact h
  | cons x xs ih => exact ih _ (hf _ _ h)

theorem spreadSet_step_nodup (set : List String) (x : String) (h : set.Nodup) :
    (if set.contains x then set else set ++ [x]).Nodup := by
  split
  · exact h
  · rename_i hx
    have hx' : x ∉ set := by simpa using hx
    rw [List.nodup_append]
    refine ⟨h, List.nodup_singleton x, ?_⟩
    intro a ha hb
    rw [List.mem_singleton] at hb
    exact hx' (hb ▸ ha)

theorem spreadSet_nodup (l : List String) : (spreadSet l).Nodup :=
  foldl_preserves List.Nodup _ spreadSet_step_nodup l [] List.nodup_nil

theorem head?_append_singleton (d : String) (acc : List String) (y : String)
    (h : acc.head? = some d) : (acc ++ [y]).head? = some d := by
  cases acc with
  | nil => simp at h
  | cons a as => simpa using h

theorem spreadSet_head? (d : String) (l : List String) :
    (spreadSet (d :: l)).head? = some d := by
  unfold spreadSet
  rw [List.foldl_cons]
  refine foldl_preserves (fun acc : List String => acc.head? = some d) _ ?_ l _ (by simp)
  intro acc x h
  split
  · exact h
  · exact head?_append_singleton d acc x h

theorem scanField_head? (B : Builtins) (fields : JsVal) (d : String) (acc : List String)
    (key : String) (h : acc.head? = some d) : (scanField B fields acc key).head? = some d := by
  unfold scanField
  refine foldl_preserves (fun acc : List String => acc.head? = some d) _ ?_ _ _ h
  intro acc e h
  unfold scanKeyword
  split
  · split
    · exact head?_append_singleton d acc _ h
    · exact h
  · exact h

theorem scanTextField_head? (B : Builtins) (fields : JsVal) (d : String) (acc : List String)
    (fieldName : String) (h : acc.head? = some d) :
    (scanTextField B fields acc fieldName).head? = some d := by
  unfold scanTextField
  split
  · dsimp only
    split
    · refine foldl_preserves (fun acc : List String => acc.head? = some d) _ ?_ _ _ h
      intro acc e h
      split
      · exact head?_append_singleton d acc _ h
      · exact h
    · exact h
  · exact h

/-- C6: the list returned by `extractFacilities` never holds a tag twice, and for an
object field bag its first element is the default tag `Dog Friendly`. -/
theorem extractFacilities_nodup_head (B : Builtins) :
    (∀ fields : JsVal, (extractFacilities B fields).Nodup) ∧
    (∀ props : List (String × JsVal),
      (extractFacilities B (.obj props)).head? = some "Dog Friendly") := by
  constructor
  · intro fields
    unfold extractFacilities
    split
    · exact List.nodup_nil
    · exact spreadSet_nodup _
  · intro props
    unfold extractFacilities
    rw [if_neg (by simp [truthy, isObjectType])]
    dsimp only
    have h1 : ((objectKeys (.obj props)).foldl (scanField B (.obj props))
        ["Dog Friendly"]).head? = some "Dog Friendly" :=
      foldl_preserves (fun acc : List String => acc.head? = some "Dog Friendly") _
        (fun acc x h => scanField_head? B _ _ acc x h) _ _ rfl
    have h2 := foldl_preserves (fun acc : List String => acc.head? = some "Dog Friendly") _
        (fun acc x h => scanTextField_head? B (.obj props) _ acc x h)
        ["description", "facilities", "amenities", "features", "park_name_list"] _ h1
    generalize (["description", "facilities", "amenities", "features",
      "park_name_list"].foldl (scanTextField B (.obj props))
      ((objectKeys (.obj props)).foldl (scanField B (.obj props)) ["Dog Friendly"])) = l at h2
    cases l with
    | nil => simp at h2
    | cons a as =>
      simp only [List.head?_cons, Option.some.injEq] at h2
      rw [h2]
      exact spreadSet_head? _ _

/-! ### `extractParkData` -/

/-- C5 (failing input): for the record `litRecord`, whose key `LIGHTING` is found by the
keyword scan and whose value `Y` is affirmed, `extractParkData` returns a park that carries
the tag `Night Lighting` twice. -/
theorem extractParkData_duplicate_tag :
    ((extractParkData refBuiltins litRecord 0 "regular" false).toOption.join.map
        (fun p => p.facilities)
      = some ["Dog Friendly", "Night Lighting", "Night Lighting"]) ∧
    ((processParkData refBuiltins [litRecord] [] (.arr [])).allParks.map
        (fun p => decide p.facilities.Nodup) = [false]) := by
  decide

/-! ### Region validation -/

theorem south_eq : BRISBANE_BOUNDS.south = -27.7 := by
  unfold BRISBANE_BOUNDS.south
  rw [Rat.mkRat_eq_div]
  norm_num

theorem north_eq : BRISBANE_BOUNDS.north = -27.2 := by
  unfold BRISBANE_BOUNDS.north
  rw [Rat.mkRat_eq_div]
  norm_num

theorem west_eq : BRISBANE_BOUNDS.west = 152.8 := by
  unfold BRISBANE_BOUNDS.west
  rw [Rat.mkRat_eq_div]
  norm_num

theorem east_eq : BRISBANE_BOUNDS.east = 153.3 := by
  unfold BRISBANE_BOUNDS.east
  rw [Rat.mkRat_eq_div]
  norm_num

theorem isWithinBrisbane_iff (lat lng : JsNum) :
    isWithinBrisbane lat lng = true ↔
      ∃ a b : ℚ, lat = .fin a ∧ lng = .fin b ∧
        -27.7 ≤ a ∧ a ≤ -27.2 ∧ 152.8 ≤ b ∧ b ≤ 153.3 := by
  unfold isWithinBrisbane
  rw [south_eq, north_eq, west_eq, east_eq]
  cases lat with
  | nan => simp [JsNum.ge, JsNum.le]
  | inf n => cases n <;> simp [JsNum.ge, JsNum.le]
  | fin a =>
    cases lng with
    | nan => simp [JsNum.ge, JsNum.le]
    | inf n => cases n <;> simp [JsNum.ge, JsNum.le]
    | fin b =>
      simp only [JsNum.ge, JsNum.le, Bool.and_eq_true, decide_eq_true_eq, JsNum.fin.injEq]
      constructor
      · rintro ⟨⟨⟨h1, h2⟩, h3⟩, h4⟩
        exact ⟨a, b, rfl, rfl, h1, h2, h3, h4⟩
      · rintro ⟨a', b', rfl, rfl, h1, h2, h3, h4⟩
        exact ⟨⟨⟨h1, h2⟩, h3⟩, h4⟩

theorem extractParkData_ok_some (B : Builtins) (item : JsVal) (index : Nat) (type : String)
    (isOffLeash : Bool) (p : Park)
    (h : extractParkData B item index type isOffLeash = .ok (some p)) :
    isNullish item = false ∧
    ∃ c, extractCoordinates B (fieldBag item) = some c ∧
      isWithinBrisbane (parseFloat B (c.get "1")) (parseFloat B (c.get "0")) = true ∧
      p.coordinates = (parseFloat B (c.get "0"), parseFloat B (c.get "1")) ∧
      p.type = type ∧ p.isOffLeash = isOffLeash := by
  unfold extractParkData at h
  split at h
  · cases h
  · rename_i hn
    refine ⟨by simpa using hn, ?_⟩
    dsimp only at h
    split at h
    · cases h
    · rename_i c hc
      refine ⟨c, hc, ?_⟩
      split at h
      · cases h
      · rename_i hw
        simp only [Except.ok.injEq, Option.some.injEq] at h
        subst h
        exact ⟨by simpa using hw, rfl, rfl, rfl⟩

theorem tagWaterFountain_coordinates (B : Builtins) (names : List String) (p : Park) :
    (tagWaterFountain B names p).coordinates = p.coordinates := by
  unfold tagWaterFountain
  dsimp only
  split <;> rfl

theorem processRecords_forall (B : Builtins) (names : List String) (type : String)
    (isOffLeash : Bool) (P : Park → Prop) (items : List JsVal) :
    ∀ (index : Nat) (allParks : List Park),
      (∀ item ∈ items, ∀ i p, extractParkData B item i type isOffLeash = .ok (some p) →
        P (tagWaterFountain B names p)) →
      (∀ p ∈ allParks, P p) →
      ∀ p ∈ (processRecords B names type isOffLeash index items allParks).allParks, P p := by
  induction items with
  | nil =>
    intro index allParks _ hacc p hp
    exact hacc p hp
  | cons item rest ih =>
    intro index allParks hP hacc
    unfold processRecords
    split
    · exact hacc
    · exact ih _ _ (fun it hit => hP it (List.mem_cons_of_mem _ hit)) hacc
    · rename_i parkData hpd
      refine ih _ _ (fun it hit => hP it (List.mem_cons_of_mem _ hit)) ?_
      intro q hq
      rw [List.mem_append, List.mem_singleton] at hq
      rcases hq with hq | hq
      · exact hacc q hq
      · rw [hq]
        exact hP item (List.mem_cons_self _ _) _ _ hpd

/-- C3: every park of the collection built by `processParkData` has coordinates
`[longitude, latitude]` with -27.7 <= latitude <= -27.2 and 152.8 <= longitude <= 153.3,
and they are the parsed coordinates of one of the input records, stored unchanged (a record
is never admitted with other coordinates than its own). -/
theorem processParkData_in_region (B : Builtins) (parks offLeashAreas : List JsVal)
    (waterFountains : JsVal) :
    ∀ p ∈ (processParkData B parks offLeashAreas waterFountains).allParks,
      (∃ lat lng : ℚ, p.coordinates = (.fin lng, .fin lat) ∧
        -27.7 ≤ lat ∧ lat ≤ -27.2 ∧ 152.8 ≤ lng ∧ lng ≤ 153.3) ∧
      (∃ item ∈ parks ++ offLeashAreas, ∃ c,
        extractCoordinates B (fieldBag item) = some c ∧
        p.coordinates = (parseFloat B (c.get "0"), parseFloat B (c.get "1"))) := by
  have step : ∀ (names : List String) (type : String) (isOffLeash : Bool),
      ∀ item ∈ parks ++ offLeashAreas, ∀ i p,
        extractParkData B item i type isOffLeash = .ok (some p) →
        (∃ lat lng : ℚ, (tagWaterFountain B names p).coordinates = (.fin lng, .fin lat) ∧
          -27.7 ≤ lat ∧ lat ≤ -27.2 ∧ 152.8 ≤ lng ∧ lng ≤ 153.3) ∧
        (∃ item ∈ parks ++ offLeashAreas, ∃ c,
          extractCoordinates B (fieldBag item) = some c ∧
          (tagWaterFountain B names p).coordinates
            = (parseFloat B (c.get "0"), parseFloat B (c.get "1"))) := by
    intro names type isOffLeash item hitem i p hp
    obtain ⟨_, c, hc, hw, hcoord, _, _⟩ := extractParkData_ok_some B item i type isOffLeash p hp
    rw [tagWaterFountain_coordinates, hcoord]
    obtain ⟨a, b, ha, hb, h1, h2, h3, h4⟩ := (isWithinBrisbane_iff _ _).mp hw
    exact ⟨⟨a, b, by rw [ha, hb], h1, h2, h3, h4⟩, item, hitem, c, hc, rfl⟩
  unfold processParkData
  split
  · intro p hp
    simp at hp
  · rename_i names _
    dsimp only
    have h1 := processRecords_forall B names "regular" false
      (fun p => (∃ lat lng : ℚ, p.coordinates = (.fin lng, .fin lat) ∧
          -27.7 ≤ lat ∧ lat ≤ -27.2 ∧ 152.8 ≤ lng ∧ lng ≤ 153.3) ∧
        (∃ item ∈ parks ++ offLeashAreas, ∃ c,
          extractCoordinates B (fieldBag item) = some c ∧
          p.coordinates = (parseFloat B (c.get "0"), parseFloat B (c.get "1"))))
      parks 0 []
      (fun item hitem => step names "regular" false item (List.mem_append_left _ hitem))
      (by simp)
    split
    · exact h1
    · exact processRecords_forall B names "off-leash" true _ offLeashAreas 0 _
        (fun item hitem => step names "off-leash" true item (List.mem_append_right _ hitem)) h1

/-- C4: a record whose extracted coordinates parse to a latitude and longitude outside the
bounding box is rejected by `extractParkData` (the result is `null`); the bounds are
inclusive, so a record whose coordinates lie in the closed box is accepted with these
coordinates. -/
theorem extractParkData_region (B : Builtins) (item : JsVal) (index : Nat) (type : String)
    (isOffLeash : Bool) (c : JsVal) (lat lng : ℚ)
    (hitem : isNullish item = false)
    (hc : extractCoordinates B (fieldBag item) = some c)
    (hlat : parseFloat B (c.get "1") = .fin lat)
    (hlng : parseFloat B (c.get "0") = .fin lng) :
    ((lat < -27.7 ∨ -27.2 < lat ∨ lng < 152.8 ∨ 153.3 < lng) →
      extractParkData B item index type isOffLeash = .ok none) ∧
    ((-27.7 ≤ lat ∧ lat ≤ -27.2 ∧ 152.8 ≤ lng ∧ lng ≤ 153.3) →
      ∃ p, extractParkData B item index type isOffLeash = .ok (some p) ∧
        p.coordinates = (.fin lng, .fin lat)) := by
  have hw : isWithinBrisbane (.fin lat) (.fin lng) = true ↔
      (-27.7 ≤ lat ∧ lat ≤ -27.2 ∧ 152.8 ≤ lng ∧ lng ≤ 153.3) := by
    rw [isWithinBrisbane_iff]
    constructor
    · rintro ⟨a, b, ha, hb, h⟩
      cases ha
      cases hb
      exact h
    · intro h
      exact ⟨lat, lng, rfl, rfl, h⟩
  constructor
  · intro hout
    have hf : isWithinBrisbane (.fin lat) (.fin lng) = false := by
      rw [Bool.eq_false_iff]
      intro ht
      obtain ⟨h1, h2, h3, h4⟩ := hw.mp ht
      rcases hout with h | h | h | h
      · exact absurd h1 (not_le.mpr h)
      · exact absurd h2 (not_le.mpr h)
      · exact absurd h3 (not_le.mpr h)
      · exact absurd h4 (not_le.mpr h)
    unfold extractParkData
    rw [hitem]
    simp only [Bool.false_eq_true, if_false, hc, hlat, hlng, hf, Bool.not_false, if_true]
  · intro hin
    have ht := hw.mpr hin
    unfold extractParkData
    rw [hitem]
    simp only [Bool.false_eq_true, if_false, hc, hlat, hlng, ht, Bool.not_true]
    exact ⟨_, rfl, rfl⟩

/-- Witness of C4: the record at latitude -33 is rejected, and the record on the
south-west corner of the box (latitude -27.7, longitude 152.8) is accepted. -/
theorem extractParkData_region_witness :
    extractParkData refBuiltins sydneyRecord 0 "regular" false = .ok none ∧
    ∃ p, extractParkData refBuiltins cornerRecord 0 "off-leash" true = .ok (some p) ∧
      p.coordinates = (.fin (mkRat 1528 10), .fin (mkRat (-277) 10)) :=
  ⟨(extractParkData_region refBuiltins sydneyRecord 0 "regular" false
      (.arr [.num (.fin 151), .num (.fin (-33))]) (-33) 151
      (by decide) (by rfl) (by decide) (by decide)).1 (Or.inl (by norm_num)),
   (extractParkData_region refBuiltins cornerRecord 0 "off-leash" true
      (.arr [.num (.fin (mkRat 1528 10)), .num (.fin (mkRat (-277) 10))])
      (mkRat (-277) 10) (mkRat 1528 10)
      (by decide) (by rfl) (by decide) (by decide)).2
      (by simp only [Rat.mkRat_eq_div]; norm_num)⟩

theorem riverside_allParks :
    (processParkData refBuiltins [riversideRecord] [] (.arr [riversideFountain])).allParks
      = [riversidePark] := by
  rfl

/-- Witness of C3: the park built from `riversideRecord` belongs to the fused collection and
has in-region coordinates, which are those of the record. -/
theorem processParkData_in_region_witness :
    riversidePark ∈
      (processParkData refBuiltins [riversideRecord] [] (.arr [riversideFountain])).allParks ∧
    ((∃ lat lng : ℚ, riversidePark.coordinates = (.fin lng, .fin lat) ∧
        -27.7 ≤ lat ∧ lat ≤ -27.2 ∧ 152.8 ≤ lng ∧ lng ≤ 153.3) ∧
      (∃ item ∈ [riversideRecord] ++ [], ∃ c,
        extractCoordinates refBuiltins (fieldBag item) = some c ∧
        riversidePark.coordinates
          = (parseFloat refBuiltins (c.get "0"), parseFloat refBuiltins (c.get "1")))) :=
  ⟨riverside_allParks ▸ List.mem_singleton.mpr rfl,
   processParkData_in_region refBuiltins [riversideRecord] [] (.arr [riversideFountain])
     riversidePark (riverside_allParks ▸ List.mem_singleton.mpr rfl)⟩

/-! ### Fusion with the water-fountain dataset -/

theorem extractParkData_ok_of_not_nullish (B : Builtins) (item : JsVal) (index : Nat)
    (type : String) (isOffLeash : Bool) (h : isNullish item = false) :
    ∃ r, extractParkData B item index type isOffLeash = .ok r := by
  unfold extractParkData
  rw [h]
  simp only [Bool.false_eq_true, if_false]
  split
  · exact ⟨_, rfl⟩
  · split
    · exact ⟨_, rfl⟩
    · exact ⟨_, rfl⟩

theorem processRecords_of_not_nullish (B : Builtins) (names : List String) (type : String)
    (isOffLeash : Bool) (items : List JsVal) :
    ∀ (index : Nat) (allParks : List Park),
      (∀ item ∈ items, isNullish item = false) →
      processRecords B names type isOffLeash index items allParks =
        { allParks := allParks ++
            ((items.enumFrom index).filterMap
              (fun ix => (extractParkData B ix.2 ix.1 type isOffLeash).toOption.join)).map
              (tagWaterFountain B names),
          threw := false } := by
  induction items with
  | nil =>
    intro index allParks _
    simp [processRecords]
  | cons item rest ih =>
    intro index allParks h
    have hrest : ∀ it ∈ rest, isNullish it = false :=
      fun it hit => h it (List.mem_cons_of_mem _ hit)
    obtain ⟨r, hr⟩ := extractParkData_ok_of_not_nullish B item index type isOffLeash
      (h item (List.mem_cons_self _ _))
    unfold processRecords
    rw [List.enumFrom_cons]
    cases r with
    | none =>
      rw [List.filterMap_cons_none (by simp only [hr]; rfl)]
      simp only [hr]
      exact ih _ _ hrest
    | some parkData =>
      rw [List.filterMap_cons_some (b := parkData) (by simp only [hr]; rfl)]
      simp only [hr]
      rw [ih _ _ hrest]
      simp

theorem collectFountainNames_ok (B : Builtins) (items : List JsVal) :
    ∀ set names : List String, collectFountainNames B set items = .ok names →
      ∀ k, k ∈ names ↔ k ∈ set ∨
        (k ≠ "" ∧ ∃ item ∈ items, normalizeParkName B (fountainRawName item) = k) := by
  induction items with
  | nil =>
    intro set names h k
    simp only [collectFountainNames, Except.ok.injEq] at h
    subst h
    simp
  | cons item rest ih =>
    intro set names h k
    unfold collectFountainNames addFountainName at h
    cases hitem : isNullish item with
    | true => simp [hitem] at h
    | false =>
      rw [hitem] at h
      simp only [Bool.false_eq_true, if_false] at h
      by_cases hn : normalizeParkName B (fountainRawName item) = ""
      · simp only [hn, ne_eq, not_true_eq_false, if_false] at h
        rw [ih set names h k]
        constructor
        · rintro (hk | ⟨hk, it, hit, hkn⟩)
          · exact Or.inl hk
          · exact Or.inr ⟨hk, it, List.mem_cons_of_mem _ hit, hkn⟩
        · rintro (hk | ⟨hk, it, hit, hkn⟩)
          · exact Or.inl hk
          · rw [List.mem_cons] at hit
            rcases hit with rfl | hit
            · exact absurd (hkn ▸ hn) hk
            · exact Or.inr ⟨hk, it, hit, hkn⟩
      · simp only [ne_eq, hn, not_false_eq_true, if_true] at h
        rw [ih _ names h k]
        have hset : k ∈ (if set.contains (normalizeParkName B (fountainRawName item)) then set
            else set ++ [normalizeParkName B (fountainRawName item)]) ↔
            k ∈ set ∨ k = normalizeParkName B (fountainRawName item) := by
          split
          · rename_i hc
            have hc' : normalizeParkName B (fountainRawName item) ∈ set := by simpa using hc
            constructor
            · exact Or.inl
            · rintro (hk | hk)
              · exact hk
              · exact hk ▸ hc'
          · simp
        rw [hset]
        constructor
        · rintro ((hk | hk) | ⟨hk, it, hit, hkn⟩)
          · exact Or.inl hk
          · exact Or.inr ⟨hk ▸ hn, item, List.mem_cons_self _ _, hk.symm⟩
          · exact Or.inr ⟨hk, it, List.mem_cons_of_mem _ hit, hkn⟩
        · rintro (hk | ⟨hk, it, hit, hkn⟩)
          · exact Or.inl (Or.inl hk)
          · rw [List.mem_cons] at hit
            rcases hit with rfl | hit
            · exact Or.inl (Or.inr hkn.symm)
            · exact Or.inr ⟨hk, it, hit, hkn⟩

theorem collectFountainNames_of_not_nullish (B : Builtins) (items : List JsVal) :
    ∀ set : List String, (∀ item ∈ items, isNullish item = false) →
      ∃ names, collectFountainNames B set items = .ok names := by
  induction items with
  | nil =>
    intro set _
    exact ⟨set, rfl⟩
  | cons item rest ih =>
    intro set h
    have hitem := h item (List.mem_cons_self _ _)
    have hrest : ∀ it ∈ rest, isNullish it = false :=
      fun it hit => h it (List.mem_cons_of_mem _ hit)
    unfold collectFountainNames addFountainName
    rw [hitem]
    simp only [Bool.false_eq_true, if_false]
    by_cases hn : normalizeParkName B (fountainRawName item) = ""
    · simp only [hn, ne_eq, not_true_eq_false, if_false]
      exact ih _ hrest
    · simp only [ne_eq, hn, not_false_eq_true, if_true]
      exact ih _ hrest

theorem normalizeParkName_jsOr_empty (B : Builtins) (v : JsVal) :
    normalizeParkName B (jsOr v (.str "")) = normalizeParkName B v := by
  unfold jsOr
  split
  · rfl
  · rename_i h
    cases v with
    | str s =>
      have hs : s = "" := by simpa [truthy] using h
      rw [hs]
    | _ => simp [normalizeParkName]

theorem tagWaterFountain_eq_fusedPark (B : Builtins) (names : List String)
    (waterFountains : List JsVal) (p : Park)
    (hnames : ∀ k, k ∈ names ↔
      (k ≠ "" ∧ ∃ item ∈ waterFountains, normalizeParkName B (fountainRawName item) = k)) :
    tagWaterFountain B names p = fusedPark B waterFountains p := by
  unfold tagWaterFountain fusedPark
  dsimp only
  rw [normalizeParkName_jsOr_empty]
  by_cases hj : joinsFountain B waterFountains p
  · rw [if_pos hj]
    obtain ⟨h1, h2, h3⟩ := hj
    have hm : normalizeParkName B p.name ∈ names := (hnames _).mpr ⟨h1, h2⟩
    rw [if_pos]
    simp [h1, hm, h3]
  · rw [if_neg hj, if_neg]
    intro hc
    simp only [Bool.and_eq_true] at hc
    apply hj
    obtain ⟨⟨h1, h2⟩, h3⟩ := hc
    have h2' : normalizeParkName B p.name ∈ names := by simpa using h2
    have h3' : "Water Fountain" ∉ p.facilities := by simpa using h3
    exact ⟨by simpa using h1, ((hnames _).mp h2').2, h3'⟩

/-- C7: every park of the collection built by `processParkData` is a park accepted by
`extractParkData` with the tag `Water Fountain` appended once exactly when its normalized
name is not empty, is the normalized name of some record of the water-fountain dataset, and
the tag is not yet present, and nothing else changed; when no input record is `null` or
`undefined` the collection is the list of all accepted parks so fused.  In particular one
in-region parks record named `Riverside Park` and one fountain record named
`RIVERSIDE PARK!!` give exactly one fused park, which carries `Water Fountain`. -/
theorem processParkData_water_fountain (B : Builtins)
    (parks offLeashAreas waterFountains : List JsVal) :
    (∀ q ∈ (processParkData B parks offLeashAreas (.arr waterFountains)).allParks,
      ∃ item ∈ parks ++ offLeashAreas, ∃ (index : Nat) (type : String) (isOffLeash : Bool)
        (p : Park), extractParkData B item index type isOffLeash = .ok (some p) ∧
          q = fusedPark B waterFountains p) ∧
    ((∀ item ∈ parks ++ offLeashAreas ++ waterFountains, isNullish item = false) →
      (processParkData B parks offLeashAreas (.arr waterFountains)).allParks
        = (accepted B "regular" false parks ++ accepted B "off-leash" true offLeashAreas).map
            (fusedPark B waterFountains)) ∧
    (processParkData refBuiltins [riversideRecord] [] (.arr [riversideFountain])).allParks.map
        (fun p => p.facilities) = [["Dog Friendly", "Water Fountain"]] := by
  have htag : ∀ names, collectFountainNames B [] waterFountains = .ok names →
      tagWaterFountain B names = fusedPark B waterFountains := by
    intro names hnames
    have hmem := collectFountainNames_ok B waterFountains [] names hnames
    refine funext fun p => tagWaterFountain_eq_fusedPark B names waterFountains p ?_
    intro k
    rw [hmem k]
    simp
  refine ⟨?_, ?_, by decide⟩
  · unfold processParkData fountainNames
    split
    · intro q hq
      simp at hq
    · rename_i names hnames
      dsimp only
      have step : ∀ (type : String) (isOffLeash : Bool),
          ∀ item ∈ parks ++ offLeashAreas, ∀ i p,
            extractParkData B item i type isOffLeash = .ok (some p) →
            ∃ item ∈ parks ++ offLeashAreas, ∃ (index : Nat) (type : String)
              (isOffLeash : Bool) (p' : Park),
              extractParkData B item index type isOffLeash = .ok (some p') ∧
              tagWaterFountain B names p = fusedPark B waterFountains p' := by
        intro type isOffLeash item hitem i p hp
        exact ⟨item, hitem, i, type, isOffLeash, p, hp, by rw [htag names hnames]⟩
      have h1 := processRecords_forall B names "regular" false
        (fun q => ∃ item ∈ parks ++ offLeashAreas, ∃ (index : Nat) (type : String)
          (isOffLeash : Bool) (p : Park),
          extractParkData B item index type isOffLeash = .ok (some p) ∧
          q = fusedPark B waterFountains p)
        parks 0 []
        (fun item hitem => step "regular" false item (List.mem_append_left _ hitem))
        (by simp)
      split
      · exact h1
      · exact processRecords_forall B names "off-leash" true _ offLeashAreas 0 _
          (fun item hitem => step "off-leash" true item (List.mem_append_right _ hitem)) h1
  · intro h
    have hp : ∀ item ∈ parks, isNullish item = false :=
      fun item hi => h item (List.mem_append_left _ (List.mem_append_left _ hi))
    have ho : ∀ item ∈ offLeashAreas, isNullish item = false :=
      fun item hi => h item (List.mem_append_left _ (List.mem_append_right _ hi))
    have hw : ∀ item ∈ waterFountains, isNullish item = false :=
      fun item hi => h item (List.mem_append_right _ hi)
    obtain ⟨names, hnames⟩ := collectFountainNames_of_not_nullish B waterFountains [] hw
    unfold processParkData fountainNames
    simp only [hnames]
    rw [processRecords_of_not_nullish B names "regular" false parks 0 [] hp]
    simp only [Bool.false_eq_true, if_false]
    rw [processRecords_of_not_nullish B names "off-leash" true offLeashAreas 0 _ ho]
    simp only [List.nil_append, htag names hnames, List.map_append]
    rfl

/-- Witness of C7: one in-region parks record named `Riverside Park` and one fountain
record named `RIVERSIDE PARK!!` give exactly one fused park, and it carries the tag
`Water Fountain`. -/
theorem processParkData_water_fountain_witness :
    (processParkData refBuiltins [riversideRecord] [] (.arr [riversideFountain])).allParks
        = (accepted refBuiltins "regular" false [riversideRecord]
            ++ accepted refBuiltins "off-leash" true []).map
            (fusedPark refBuiltins [riversideFountain]) ∧
    ((accepted refBuiltins "regular" false [riversideRecord]
        ++ accepted refBuiltins "off-leash" true []).map
        (fusedPark refBuiltins [riversideFountain])).map (fun p => p.facilities)
      = [["Dog Friendly", "Water Fountain"]] :=
  ⟨(processParkData_water_fountain refBuiltins [riversideRecord] [] [riversideFountain]).2.1
      (by decide),
   by decide⟩

/-! ### `normalizeParkName`: shape of the key -/

theorem deleteMatches_sublist (m : Matcher) (s : List Char) :
    ∀ (prev : Option Char) (skip : Nat), (deleteMatches m prev skip s).Sublist s := by
  induction s with
  | nil =>
    intro prev skip
    simp [deleteMatches]
  | cons c cs ih =>
    intro prev skip
    cases skip with
    | succ k =>
      rw [deleteMatches]
      exact (ih _ _).trans (List.sublist_cons_self c cs)
    | zero =>
      rw [deleteMatches]
      split
      · exact (ih _ _).trans (List.sublist_cons_self c cs)
      · exact (ih _ _).cons₂ c

theorem mem_replacePunct (c : Char) (s : List Char) (h : c ∈ replacePunct s) :
    isPunctChar c = false ∧ (c = ' ' ∨ c ∈ s) := by
  unfold replacePunct at h
  rw [List.mem_map] at h
  obtain ⟨a, ha, hc⟩ := h
  by_cases hp : isPunctChar a = true
  · rw [if_pos hp] at hc
    subst hc
    exact ⟨by decide, Or.inl rfl⟩
  · rw [if_neg hp] at hc
    subst hc
    exact ⟨by simpa using hp, Or.inr ha⟩

theorem mem_collapseSpaces (c : Char) (s : List Char) :
    ∀ inRun : Bool, c ∈ collapseSpaces inRun s →
      c = ' ' ∨ (isSpaceChar c = false ∧ c ∈ s) := by
  induction s with
  | nil =>
    intro inRun h
    simp [collapseSpaces] at h
  | cons a as ih =>
    intro inRun h
    rw [collapseSpaces] at h
    by_cases ha : isSpaceChar a = true
    · rw [if_pos ha] at h
      cases inRun with
      | true =>
        simp only [if_true] at h
        rcases ih true h with h' | ⟨h1, h2⟩
        · exact Or.inl h'
        · exact Or.inr ⟨h1, List.mem_cons_of_mem _ h2⟩
      | false =>
        simp only [Bool.false_eq_true, if_false, List.mem_cons] at h
        rcases h with h | h
        · exact Or.inl h
        · rcases ih true h with h' | ⟨h1, h2⟩
          · exact Or.inl h'
          · exact Or.inr ⟨h1, List.mem_cons_of_mem _ h2⟩
    · rw [if_neg ha, List.mem_cons] at h
      rcases h with h | h
      · subst h
        exact Or.inr ⟨by simpa using ha, List.mem_cons_self _ _⟩
      · rcases ih false h with h' | ⟨h1, h2⟩
        · exact Or.inl h'
        · exact Or.inr ⟨h1, List.mem_cons_of_mem _ h2⟩

theorem collapseSpaces_chain (s : List Char) :
    ∀ inRun : Bool,
      (collapseSpaces inRun s).Chain'
          (fun a b => ¬(isSpaceChar a = true ∧ isSpaceChar b = true)) ∧
      (inRun = true → ∀ c, (collapseSpaces inRun s).head? = some c → isSpaceChar c = false) := by
  induction s with
  | nil =>
    intro inRun
    simp [collapseSpaces]
  | cons a as ih =>
    intro inRun
    rw [collapseSpaces]
    by_cases ha : isSpaceChar a = true
    · rw [if_pos ha]
      cases inRun with
      | true =>
        rw [if_pos rfl]
        exact ih true
      | false =>
        simp only [Bool.false_eq_true, if_false, false_implies, and_true]
        rw [List.chain'_cons']
        refine ⟨?_, (ih true).1⟩
        intro y hy
        rintro ⟨_, h2⟩
        have := (ih true).2 rfl y (by simpa using hy)
        rw [this] at h2
        exact Bool.false_ne_true h2
    · rw [if_neg ha]
      constructor
      · rw [List.chain'_cons']
        refine ⟨?_, (ih false).1⟩
        rintro y _ ⟨h1, _⟩
        exact ha h1
      · intro _ c hc
        simp only [List.head?_cons, Option.some.injEq] at hc
        subst hc
        simpa using ha

theorem trimChars_eq (s : List Char) :
    trimChars s = List.rdropWhile isSpaceChar (s.dropWhile isSpaceChar) := rfl

theorem trimChars_inside (s : List Char) : trimChars s <:+: s := by
  rw [trimChars_eq]
  exact (List.rdropWhile_prefix _ _).isInfix.trans (List.dropWhile_suffix _).isInfix

theorem trimChars_head? (s : List Char) (c : Char) (h : (trimChars s).head? = some c) :
    isSpaceChar c = false := by
  rw [trimChars_eq] at h
  obtain ⟨t, ht⟩ := List.rdropWhile_prefix isSpaceChar (s.dropWhile isSpaceChar)
  have hne : List.rdropWhile isSpaceChar (s.dropWhile isSpaceChar) ≠ [] := by
    intro he
    rw [he] at h
    simp at h
  have h2 := List.head?_dropWhile_not isSpaceChar s
  rw [← ht, List.head?_append_of_ne_nil _ hne, h] at h2
  exact h2

theorem trimChars_getLast? (s : List Char) (c : Char) (h : (trimChars s).getLast? = some c) :
    isSpaceChar c = false := by
  unfold trimChars at h
  rw [List.getLast?_reverse] at h
  have h2 := List.head?_dropWhile_not isSpaceChar (s.dropWhile isSpaceChar).reverse
  rw [h] at h2
  exact h2

theorem mem_normalizeChars (c : Char) (s : List Char) (h : c ∈ normalizeChars s) :
    isPunctChar c = false ∧ (c = ' ' ∨ (isSpaceChar c = false ∧ c ∈ s)) := by
  unfold normalizeChars at h
  dsimp only at h
  have h1 := (trimChars_inside _).subset h
  rcases mem_collapseSpaces c _ false h1 with h2 | ⟨h2, h3⟩
  · subst h2
    exact ⟨by decide, Or.inl rfl⟩
  · obtain ⟨h4, h5⟩ := mem_replacePunct c _ h3
    refine ⟨h4, ?_⟩
    rcases h5 with h5 | h5
    · exact Or.inl h5
    · refine Or.inr ⟨h2, ?_⟩
      have h6 := (deleteMatches_sublist _ _ _ _).subset h5
      have h7 := (deleteMatches_sublist _ _ _ _).subset h6
      have h8 := (deleteMatches_sublist _ _ _ _).subset h7
      have h9 := (deleteMatches_sublist _ _ _ _).subset h8
      exact (deleteMatches_sublist _ _ _ _).subset h9

theorem normalizeParkName_str_data (B : Builtins) (n : String) :
    (normalizeParkName B (.str n)).data = [] ∨
    (normalizeParkName B (.str n)).data = normalizeChars (B.toLowerCase n).data := by
  unfold normalizeParkName
  dsimp only
  split
  · exact Or.inl rfl
  · exact Or.inr rfl

/-- C10 (amended): for every input string the key is made of single spaces and of
characters of the lower-cased name that are not white space; it contains none of the 21
characters of the punctuation class of the source (other punctuation is kept), has no
leading or trailing white space, and no two neighbouring white-space characters. -/
theorem normalizeParkName_shape (B : Builtins) (n : String) :
    (∀ c ∈ (normalizeParkName B (.str n)).data, isPunctChar c = false) ∧
    (∀ c ∈ (normalizeParkName B (.str n)).data,
      c = ' ' ∨ (isSpaceChar c = false ∧ c ∈ (B.toLowerCase n).data)) ∧
    (∀ c, (normalizeParkName B (.str n)).data.head? = some c → isSpaceChar c = false) ∧
    (∀ c, (normalizeParkName B (.str n)).data.getLast? = some c → isSpaceChar c = false) ∧
    (normalizeParkName B (.str n)).data.Chain'
      (fun a b => ¬(isSpaceChar a = true ∧ isSpaceChar b = true)) := by
  rcases normalizeParkName_str_data B n with h | h
  · rw [h]
    simp
  · rw [h]
    refine ⟨fun c hc => (mem_normalizeChars c _ hc).1, fun c hc => (mem_normalizeChars c _ hc).2,
      ?_, ?_, ?_⟩
    · exact fun c hc => trimChars_head? _ c hc
    · exact fun c hc => trimChars_getLast? _ c hc
    · exact List.Chain'.infix (collapseSpaces_chain _ false).1 (trimChars_inside _)

/-- C10 (counterexample): the key of the ASCII name `Mt Coot-tha Park` is `mt coot-tha`; it
contains the punctuation character `-`, which is neither a letter, a digit nor a space. -/
theorem normalizeParkName_keeps_hyphen :
    normalizeParkName refBuiltins (.str "Mt Coot-tha Park") = "mt coot-tha" ∧
    '-' ∈ (normalizeParkName refBuiltins (.str "Mt Coot-tha Park")).data ∧
    '-'.isAlphanum = false ∧ '-' ≠ ' ' := by
  decide

/-! ### `normalizeParkName`: a text followed by a suffix -/

theorem isPrefixOf_append_stable (b : List Char) :
    ∀ (w : List Char), (∀ k, k < w.length → (w.drop k).isPrefixOf b = false) →
      ∀ t : List Char, w.isPrefixOf (t ++ b) = w.isPrefixOf t := by
  intro w h t
  induction t generalizing w with
  | nil =>
    cases w with
    | nil => simp
    | cons x w' =>
      have := h 0 (by simp)
      simpa using this
  | cons c t' ih =>
    cases w with
    | nil => rfl
    | cons x w' =>
      rw [List.cons_append, List.isPrefixOf_cons₂, List.isPrefixOf_cons₂]
      rw [ih w' (fun k hk => by simpa using h (k + 1) (by simpa using hk))]

theorem lit_append (w : String) (b : List Char)
    (h : ∀ k, k < w.data.length → (w.data.drop k).isPrefixOf b = false) (t : List Char) :
    lit w (t ++ b) = (lit w t).map (fun r => r ++ b) := by
  unfold lit
  rw [isPrefixOf_append_stable b w.data h t]
  by_cases hp : w.data.isPrefixOf t = true
  · rw [if_pos hp, if_pos hp]
    have hle : w.data.length ≤ t.length := (List.isPrefixOf_iff_prefix.mp hp).length_le
    rw [List.drop_append_of_le_length hle]
    rfl
  · rw [if_neg hp, if_neg hp]
    rfl

theorem optSep_append (k : List Char → Option (List Char)) (b : List Char)
    (hk : ∀ t, k (t ++ b) = (k t).map (fun r => r ++ b))
    (hb : optSep k b = k b) (t : List Char) :
    optSep k (t ++ b) = (optSep k t).map (fun r => r ++ b) := by
  cases t with
  | nil =>
    have h0 := hk []
    simp only [List.nil_append] at h0
    rw [List.nil_append, hb, h0]
    rfl
  | cons c r =>
    rw [List.cons_append]
    unfold optSep
    dsimp only
    by_cases hc : (c == '-' || c == ' ') = true
    · rw [if_pos hc, if_pos hc, hk r]
      cases hr : k r with
      | some rest => rfl
      | none =>
        have := hk (c :: r)
        rw [List.cons_append] at this
        simpa using this
    · rw [if_neg hc, if_neg hc]
      have := hk (c :: r)
      rw [List.cons_append] at this
      exact this

theorem bind_append (k1 k2 : List Char → Option (List Char)) (b : List Char)
    (h1 : ∀ t, k1 (t ++ b) = (k1 t).map (fun r => r ++ b))
    (h2 : ∀ t, k2 (t ++ b) = (k2 t).map (fun r => r ++ b)) (t : List Char) :
    (k1 (t ++ b)).bind k2 = ((k1 t).bind k2).map (fun r => r ++ b) := by
  rw [h1 t]
  cases k1 t with
  | none => rfl
  | some r => exact h2 r

theorem consumed_append (t b : List Char) (x : Option (List Char)) :
    consumed (t ++ b) (x.map (fun r => r ++ b)) = consumed t x := by
  cases x with
  | none => rfl
  | some r =>
    simp only [consumed, Option.map_some', List.length_append, Option.some.injEq]
    omega

theorem consumed_le (t : List Char) (x : Option (List Char)) (k : Nat)
    (h : consumed t x = some k) : k ≤ t.length := by
  cases x with
  | none => simp [consumed] at h
  | some r =>
    simp only [consumed, Option.map_some', Option.some.injEq] at h
    omega

theorem deleteMatches_append (m : Matcher) (b : List Char)
    (hstab : ∀ p t, m p (t ++ b) = m p t)
    (hlen : ∀ p t k, m p t = some k → k ≤ t.length) (a : List Char) :
    ∀ (prev : Option Char) (skip : Nat), skip ≤ a.length →
      deleteMatches m prev skip (a ++ b)
        = deleteMatches m prev skip a ++ deleteMatches m (prevAfter prev a) 0 b := by
  induction a with
  | nil =>
    intro prev skip hs
    have : skip = 0 := by simpa using hs
    subst this
    simp [deleteMatches, prevAfter]
  | cons c cs ih =>
    intro prev skip hs
    have hprev : ∀ q, prevAfter q (c :: cs) = prevAfter (some c) cs := by
      intro q
      unfold prevAfter
      cases cs with
      | nil => rfl
      | cons d ds =>
        rw [List.getLast?_cons_cons]
        cases hl : (d :: ds).getLast? with
        | none => simp at hl
        | some x => rfl
    rw [hprev, List.cons_append]
    cases skip with
    | succ k =>
      rw [deleteMatches, deleteMatches]
      exact ih _ _ (by simpa using hs)
    | zero =>
      rw [deleteMatches, deleteMatches]
      have hm := hstab prev (c :: cs)
      rw [List.cons_append] at hm
      rw [hm]
      cases hmc : m prev (c :: cs) with
      | none =>
        dsimp only
        rw [ih _ _ (Nat.zero_le _)]
        rfl
      | some j =>
        cases j with
        | zero =>
          dsimp only
          rw [ih _ _ (Nat.zero_le _)]
          rfl
        | succ j =>
          dsimp only
          have := hlen _ _ _ hmc
          exact ih _ _ (by simpa using this)

theorem reOffLeash_append (b : List Char)
    (h1 : ∀ k, k < "off".data.length → ("off".data.drop k).isPrefixOf b = false)
    (h2 : ∀ k, k < "leash".data.length → ("leash".data.drop k).isPrefixOf b = false)
    (hb : optSep (lit "leash") b = lit "leash" b) (p : Option Char) (t : List Char) :
    reOffLeash p (t ++ b) = reOffLeash p t := by
  unfold reOffLeash
  rw [bind_append (lit "off") (optSep (lit "leash")) b (lit_append "off" b h1)
    (optSep_append (lit "leash") b (lit_append "leash" b h2) hb) t]
  exact consumed_append t b _

theorem reDogOffLeash_append (b : List Char)
    (h0 : ∀ k, k < "dog".data.length → ("dog".data.drop k).isPrefixOf b = false)
    (h1 : ∀ k, k < "off".data.length → ("off".data.drop k).isPrefixOf b = false)
    (h2 : ∀ k, k < "leash".data.length → ("leash".data.drop k).isPrefixOf b = false)
    (hb : optSep (lit "leash") b = lit "leash" b)
    (hb' : optSep (fun r => (lit "off" r).bind (optSep (lit "leash"))) b
      = (lit "off" b).bind (optSep (lit "leash")))
    (p : Option Char) (t : List Char) :
    reDogOffLeash p (t ++ b) = reDogOffLeash p t := by
  unfold reDogOffLeash
  have hk : ∀ t, (fun r => (lit "off" r).bind (optSep (lit "leash"))) (t ++ b)
      = ((fun r => (lit "off" r).bind (optSep (lit "leash"))) t).map (fun r => r ++ b) :=
    bind_append (lit "off") (optSep (lit "leash")) b (lit_append "off" b h1)
      (optSep_append (lit "leash") b (lit_append "leash" b h2) hb)
  rw [bind_append (lit "dog") (optSep (fun r => (lit "off" r).bind (optSep (lit "leash")))) b
    (lit_append "dog" b h0) (optSep_append _ b hk hb') t]
  exact consumed_append t b _

theorem reWholeWord_append (w : String) (c : Char) (b' : List Char)
    (hc : isWordChar c = false)
    (hw : ∀ k, k < w.data.length → (w.data.drop k).isPrefixOf (c :: b') = false)
    (p : Option Char) (t : List Char) :
    reWholeWord w p (t ++ c :: b') = reWholeWord w p t := by
  unfold reWholeWord
  rw [isPrefixOf_append_stable (c :: b') w.data hw t]
  have h1 : wordBoundary p (t ++ c :: b').head? = wordBoundary p t.head? := by
    cases t <;> simp [wordBoundary, hc]
  rw [h1]
  by_cases hp : w.data.isPrefixOf t = true
  · have hle : w.data.length ≤ t.length := (List.isPrefixOf_iff_prefix.mp hp).length_le
    rw [List.drop_append_of_le_length hle]
    have h2 : wordBoundary w.data.getLast? (List.drop w.data.length t ++ c :: b').head?
        = wordBoundary w.data.getLast? (List.drop w.data.length t).head? := by
      cases (List.drop w.data.length t) <;> simp [wordBoundary, hc]
    rw [h2]
  · simp [hp]

theorem reWholeWord_le (w : String) (p : Option Char) (t : List Char) (k : Nat)
    (h : reWholeWord w p t = some k) : k ≤ t.length := by
  unfold reWholeWord at h
  split at h
  · rename_i hc
    simp only [Bool.and_eq_true] at hc
    simp only [Option.some.injEq] at h
    rw [← h]
    exact (List.isPrefixOf_iff_prefix.mp hc.1.2).length_le
  · cases h

theorem reWholeWord_none (w : String) (p : Option Char) (t : List Char)
    (h : w.data.isPrefixOf t = false) : reWholeWord w p t = none := by
  unfold reWholeWord
  simp [h]

theorem dropWhile_append_all (p : Char → Bool) (a b : List Char) (h : ∀ c ∈ a, p c = true) :
    (a ++ b).dropWhile p = b.dropWhile p := by
  induction a with
  | nil => rfl
  | cons x xs ih =>
    rw [List.cons_append, List.dropWhile_cons_of_pos (h x (List.mem_cons_self _ _))]
    exact ih (fun c hc => h c (List.mem_cons_of_mem _ hc))

theorem trimChars_append_spaces (z tail : List Char)
    (h : ∀ c ∈ tail, isSpaceChar c = true) : trimChars (z ++ tail) = trimChars z := by
  have hall : tail.dropWhile isSpaceChar = [] := by
    have := dropWhile_append_all isSpaceChar tail [] h
    simpa using this
  unfold trimChars
  rw [List.dropWhile_append]
  by_cases he : (List.dropWhile isSpaceChar z).isEmpty = true
  · rw [if_pos he, hall]
    have : List.dropWhile isSpaceChar z = [] := by simpa using he
    rw [this]
  · rw [if_neg he, List.reverse_append,
      dropWhile_append_all isSpaceChar tail.reverse _ (fun c hc => h c (List.mem_reverse.mp hc))]

theorem collapseSpaces_append_spaces (ws : List Char) (h : ∀ c ∈ ws, isSpaceChar c = true)
    (z : List Char) :
    ∀ inRun : Bool, ∃ tail, (∀ c ∈ tail, isSpaceChar c = true) ∧
      collapseSpaces inRun (z ++ ws) = collapseSpaces inRun z ++ tail := by
  induction z with
  | nil =>
    intro inRun
    refine ⟨collapseSpaces inRun ws, ?_, by simp [collapseSpaces]⟩
    intro c hc
    rcases mem_collapseSpaces c ws inRun hc with h1 | ⟨h1, h2⟩
    · subst h1
      decide
    · rw [h c h2] at h1
      cases h1
  | cons a as ih =>
    intro inRun
    rw [List.cons_append, collapseSpaces, collapseSpaces]
    by_cases ha : isSpaceChar a = true
    · rw [if_pos ha, if_pos ha]
      obtain ⟨tail, ht, he⟩ := ih true
      refine ⟨tail, ht, ?_⟩
      cases inRun with
      | true => simpa using he
      | false => simpa using he
    · rw [if_neg ha, if_neg ha]
      obtain ⟨tail, ht, he⟩ := ih false
      exact ⟨tail, ht, by rw [he]; rfl⟩

theorem normalizeChars_suffix (x : List Char) :
    normalizeChars (x ++ " park off-leash area".data) = normalizeChars x := by
  unfold normalizeChars
  dsimp only
  rw [deleteMatches_append reOffLeash " park off-leash area".data
    (reOffLeash_append _ (by decide) (by decide) (by rfl))
    (fun p t k h => consumed_le t _ k h) x none 0 (Nat.zero_le _)]
  have e1 : ∀ q, deleteMatches reOffLeash q 0 " park off-leash area".data = " park  area".data :=
    fun q => rfl
  rw [e1]
  rw [deleteMatches_append reDogOffLeash " park  area".data
    (reDogOffLeash_append _ (by decide) (by decide) (by decide) (by rfl) (by rfl))
    (fun p t k h => consumed_le t _ k h) _ none 0 (Nat.zero_le _)]
  have e2 : ∀ q, deleteMatches reDogOffLeash q 0 " park  area".data = " park  area".data :=
    fun q => rfl
  rw [e2]
  rw [deleteMatches_append (reWholeWord "area") " park  area".data
    (reWholeWord_append "area" ' ' "park  area".data (by decide) (by decide))
    (reWholeWord_le "area") _ none 0 (Nat.zero_le _)]
  have e3 : ∀ q, deleteMatches (reWholeWord "area") q 0 " park  area".data = " park  ".data := by
    intro q
    show deleteMatches (reWholeWord "area") q 0 (' ' :: "park  area".data) = _
    rw [deleteMatches, reWholeWord_none "area" q _ (by decide)]
    decide
  rw [e3]
  rw [deleteMatches_append (reWholeWord "park") " park  ".data
    (reWholeWord_append "park" ' ' "park  ".data (by decide) (by decide))
    (reWholeWord_le "park") _ none 0 (Nat.zero_le _)]
  have e4 : ∀ q, deleteMatches (reWholeWord "park") q 0 " park  ".data = "   ".data := by
    intro q
    show deleteMatches (reWholeWord "park") q 0 (' ' :: "park  ".data) = _
    rw [deleteMatches, reWholeWord_none "park" q _ (by decide)]
    decide
  rw [e4]
  rw [deleteMatches_append (reWholeWord "reserve") "   ".data
    (reWholeWord_append "reserve" ' ' "  ".data (by decide) (by decide))
    (reWholeWord_le "reserve") _ none 0 (Nat.zero_le _)]
  have e5 : ∀ q, deleteMatches (reWholeWord "reserve") q 0 "   ".data = "   ".data := by
    intro q
    show deleteMatches (reWholeWord "reserve") q 0 (' ' :: "  ".data) = _
    rw [deleteMatches, reWholeWord_none "reserve" q _ (by decide)]
    decide
  rw [e5]
  have e6 : ∀ y, replacePunct (y ++ "   ".data) = replacePunct y ++ "   ".data := by
    intro y
    unfold replacePunct
    rw [List.map_append]
    rfl
  rw [e6]
  obtain ⟨tail, ht, he⟩ := collapseSpaces_append_spaces "   ".data (by decide)
    (replacePunct (deleteMatches (reWholeWord "reserve") none 0
      (deleteMatches (reWholeWord "park") none 0
        (deleteMatches (reWholeWord "area") none 0
          (deleteMatches reDogOffLeash none 0 (deleteMatches reOffLeash none 0 x)))))) false
  rw [he]
  exact trimChars_append_spaces _ tail ht

/-- C8: `normalizeParkName` gives the same key to a name and to that name followed by
` Park Off-Leash Area`, for every name on which `toLowerCase` acts on the name and on the
suffix separately (as it does in the host; it maps the empty string to itself); the keys of
`New Farm Park Off-Leash Area` and of `New Farm` are both `new farm`. -/
theorem normalizeParkName_off_leash_suffix (B : Builtins) (n : String)
    (h0 : B.toLowerCase "" = "")
    (h1 : B.toLowerCase (n ++ " Park Off-Leash Area")
      = B.toLowerCase n ++ " park off-leash area") :
    normalizeParkName B (.str (n ++ " Park Off-Leash Area")) = normalizeParkName B (.str n) ∧
    normalizeParkName refBuiltins (.str "New Farm Park Off-Leash Area") = "new farm" ∧
    normalizeParkName refBuiltins (.str "New Farm") = "new farm" := by
  refine ⟨?_, by decide, by decide⟩
  have hne : n ++ " Park Off-Leash Area" ≠ "" := by
    intro he
    have := congrArg String.length he
    rw [String.length_append] at this
    have h20 : " Park Off-Leash Area".length = 20 := by decide
    rw [h20] at this
    have h00 : "".length = 0 := rfl
    omega
  unfold normalizeParkName
  dsimp only
  rw [if_neg hne, h1, String.data_append, normalizeChars_suffix]
  by_cases hn : n = ""
  · rw [if_pos hn, hn, h0]
    rfl
  · rw [if_neg hn]

/-- Witness of C8: the name `New Farm` with the reference builtins. -/
theorem normalizeParkName_off_leash_suffix_witness :
    refBuiltins.toLowerCase "" = "" ∧
    refBuiltins.toLowerCase ("New Farm" ++ " Park Off-Leash Area")
      = refBuiltins.toLowerCase "New Farm" ++ " park off-leash area" ∧
    normalizeParkName refBuiltins (.str ("New Farm" ++ " Park Off-Leash Area"))
      = normalizeParkName refBuiltins (.str "New Farm") :=
  ⟨by decide, by decide,
   (normalizeParkName_off_leash_suffix refBuiltins "New Farm" (by decide) (by decide)).1⟩

/-! ### `normalizeParkName`: whole words -/

theorem isWordChar_iff (c : Char) : isWordChar c = true ↔
    (97 ≤ c.toNat ∧ c.toNat ≤ 122) ∨ (65 ≤ c.toNat ∧ c.toNat ≤ 90) ∨
    (48 ≤ c.toNat ∧ c.toNat ≤ 57) ∨ c.toNat = 95 := by
  unfold isWordChar
  simp only [Bool.or_eq_true, Bool.and_eq_true, decide_eq_true_eq, beq_iff_eq, Char.le_def]
  have e : c = '_' ↔ c.toNat = 95 := by
    constructor
    · rintro rfl
      rfl
    · intro h
      apply Char.ext
      apply UInt32.ext
      simpa [Char.toNat, UInt32.toNat] using h
  rw [e]
  simp only [UInt32.le_def, Char.toNat, UInt32.toNat]
  tauto

theorem not_word_of_space (c : Char) (h : isSpaceChar c = true) : isWordChar c = false := by
  rw [Bool.eq_false_iff, Ne, isWordChar_iff]
  unfold isSpaceChar at h
  simp only [Bool.or_eq_true, Bool.and_eq_true, decide_eq_true_eq, beq_iff_eq] at h
  omega

theorem not_word_of_punct (c : Char) (h : isPunctChar c = true) (hc : c ≠ '_') :
    isWordChar c = false := by
  unfold isPunctChar at h
  simp only [List.contains_cons, List.contains_nil, Bool.or_false, Bool.or_eq_true,
    beq_iff_eq] at h
  rcases h with h | h | h | h | h | h | h | h | h | h | h | h | h | h | h | h | h | h | h | h | h <;>
    first
    | exact absurd h hc
    | (subst h; decide)

theorem takeWhile_append_all (p : Char → Bool) (a b : List Char) (h : ∀ c ∈ a, p c = true) :
    (a ++ b).takeWhile p = a ++ b.takeWhile p := by
  induction a with
  | nil => rfl
  | cons x xs ih =>
    rw [List.cons_append, List.takeWhile_cons_of_pos (h x (List.mem_cons_self _ _)),
      ih (fun c hc => h c (List.mem_cons_of_mem _ hc))]
    rfl

theorem takeWhile_eq_nil_iff_head (p : Char → Bool) (r : List Char) :
    r.takeWhile p = [] ↔ r.head?.any p = false := by
  cases r with
  | nil => simp
  | cons x xs =>
    by_cases hx : p x = true
    · simp [List.takeWhile_cons_of_pos hx, hx]
    · simp [List.takeWhile_cons_of_neg hx, hx]

theorem reWholeWord_eq_run (w : String) (hne : w.data ≠ [])
    (hw : ∀ c ∈ w.data, isWordChar c = true) (p : Option Char) (t : List Char) :
    reWholeWord w p t =
      if p.any isWordChar = false ∧ t.takeWhile isWordChar = w.data then some w.data.length
      else none := by
  unfold reWholeWord
  by_cases hp : w.data.isPrefixOf t = true
  · obtain ⟨r, hr⟩ := List.isPrefixOf_iff_prefix.mp hp
    subst hr
    have hhead : ∃ x, (w.data ++ r).head? = some x ∧ isWordChar x = true := by
      cases hd : w.data with
      | nil => exact absurd hd hne
      | cons x xs => exact ⟨x, rfl, hw x (by rw [hd]; exact List.mem_cons_self _ _)⟩
    have hlast : ∃ y, w.data.getLast? = some y ∧ isWordChar y = true := by
      refine ⟨w.data.getLast hne, List.getLast?_eq_getLast _ hne, hw _ (List.getLast_mem hne)⟩
    obtain ⟨x, hx1, hx2⟩ := hhead
    obtain ⟨y, hy1, hy2⟩ := hlast
    rw [hx1, hy1, hp, List.drop_left, takeWhile_append_all _ _ _ hw]
    have e : (w.data ++ List.takeWhile isWordChar r = w.data) ↔ r.head?.any isWordChar = false := by
      rw [← takeWhile_eq_nil_iff_head]
      constructor
      · intro h
        simpa using h
      · intro h
        rw [h, List.append_nil]
    simp only [e, wordBoundary, Option.any_some, hx2, hy2, Bool.and_true]
    cases p.any isWordChar <;> cases r.head?.any isWordChar <;> simp
  · have hnot : ¬ (List.takeWhile isWordChar t = w.data) := by
      intro h
      apply hp
      rw [List.isPrefixOf_iff_prefix, ← h]
      exact List.takeWhile_prefix _
    have hpf : w.data.isPrefixOf t = false := Bool.eq_false_iff.mpr hp
    rw [hpf]
    simp [hnot]

theorem reWholeWord_prev_congr (w : String) (p q : Option Char) (t : List Char)
    (h : p.any isWordChar = q.any isWordChar) : reWholeWord w p t = reWholeWord w q t := by
  unfold reWholeWord wordBoundary
  rw [h]

theorem reWholeWord_nonword_head (w : String) (hne : w.data ≠ [])
    (hw : ∀ c ∈ w.data, isWordChar c = true) (p : Option Char) (t : List Char)
    (h : t.head?.any isWordChar = false) : reWholeWord w p t = none := by
  rw [reWholeWord_eq_run w hne hw, if_neg]
  rintro ⟨_, h2⟩
  rw [(takeWhile_eq_nil_iff_head _ _).mpr h] at h2
  exact hne h2.symm

theorem deleteMatches_prev_congr (w : String) (p q : Option Char) (s : List Char)
    (h : p.any isWordChar = q.any isWordChar) :
    deleteMatches (reWholeWord w) p 0 s = deleteMatches (reWholeWord w) q 0 s := by
  cases s with
  | nil => simp [deleteMatches]
  | cons c cs => rw [deleteMatches, deleteMatches, reWholeWord_prev_congr w p q _ h]

theorem deleteMatches_nonword_head (w : String) (hne : w.data ≠ [])
    (hw : ∀ c ∈ w.data, isWordChar c = true) (p q : Option Char) (s : List Char)
    (h : s.head?.any isWordChar = false) :
    deleteMatches (reWholeWord w) p 0 s = deleteMatches (reWholeWord w) q 0 s := by
  cases s with
  | nil => simp [deleteMatches]
  | cons c cs =>
    rw [deleteMatches, deleteMatches, reWholeWord_nonword_head w hne hw p _ h,
      reWholeWord_nonword_head w hne hw q _ h]

theorem hasMatch_prev_congr (w : String) (p q : Option Char) (s : List Char)
    (h : p.any isWordChar = q.any isWordChar) :
    hasMatch (reWholeWord w) p s = hasMatch (reWholeWord w) q s := by
  cases s with
  | nil => simp [hasMatch]
  | cons c cs => rw [hasMatch, hasMatch, reWholeWord_prev_congr w p q _ h]

theorem hasMatch_nonword_head (w : String) (hne : w.data ≠ [])
    (hw : ∀ c ∈ w.data, isWordChar c = true) (p q : Option Char) (s : List Char)
    (h : s.head?.any isWordChar = false) :
    hasMatch (reWholeWord w) p s = hasMatch (reWholeWord w) q s := by
  cases s with
  | nil => simp [hasMatch]
  | cons c cs =>
    rw [hasMatch, hasMatch, reWholeWord_nonword_head w hne hw p _ h,
      reWholeWord_nonword_head w hne hw q _ h]

theorem prevAfter_cons (q : Option Char) (c : Char) (cs : List Char) :
    prevAfter q (c :: cs) = prevAfter (some c) cs := by
  unfold prevAfter
  cases cs with
  | nil => rfl
  | cons d ds =>
    rw [List.getLast?_cons_cons]
    cases hl : (d :: ds).getLast? with
    | none => simp at hl
    | some x => rfl

theorem hasMatch_append_right (m : Matcher) (b : List Char) (a : List Char) :
    ∀ p : Option Char, hasMatch m (prevAfter p a) b = true → hasMatch m p (a ++ b) = true := by
  induction a with
  | nil =>
    intro p h
    simpa [prevAfter] using h
  | cons c cs ih =>
    intro p h
    rw [prevAfter_cons] at h
    rw [List.cons_append, hasMatch, Bool.or_eq_true]
    exact Or.inr (ih _ h)

theorem deleteMatches_skip (m : Matcher) (s : List Char) :
    ∀ (p : Option Char) (k : Nat), k ≤ s.length →
      deleteMatches m p k s = deleteMatches m (prevAfter p (s.take k)) 0 (s.drop k) := by
  induction s with
  | nil =>
    intro p k hk
    have : k = 0 := by simpa using hk
    subst this
    simp [deleteMatches, prevAfter]
  | cons c cs ih =>
    intro p k hk
    cases k with
    | zero => simp [prevAfter]
    | succ k =>
      rw [deleteMatches, List.take_succ_cons, List.drop_succ_cons, prevAfter_cons]
      exact ih _ _ (by simpa using hk)

theorem reWholeWord_word_prev (w : String) (hne : w.data ≠ [])
    (hw : ∀ c ∈ w.data, isWordChar c = true) (c : Char) (hc : isWordChar c = true)
    (t : List Char) : reWholeWord w (some c) t = none := by
  rw [reWholeWord_eq_run w hne hw, if_neg]
  rintro ⟨h1, _⟩
  rw [Option.any_some, hc] at h1
  cases h1

theorem takeWhile_deleteMatches (w : String) (hne : w.data ≠ [])
    (hw : ∀ c ∈ w.data, isWordChar c = true) (cs : List Char) :
    ∀ c : Char, isWordChar c = true →
      (deleteMatches (reWholeWord w) (some c) 0 cs).takeWhile isWordChar
        = cs.takeWhile isWordChar := by
  induction cs with
  | nil =>
    intro c _
    simp [deleteMatches]
  | cons d ds ih =>
    intro c hc
    rw [deleteMatches, reWholeWord_word_prev w hne hw c hc]
    dsimp only
    by_cases hd : isWordChar d = true
    · rw [List.takeWhile_cons_of_pos hd, List.takeWhile_cons_of_pos hd, ih d hd]
    · rw [List.takeWhile_cons_of_neg hd, List.takeWhile_cons_of_neg hd]

/-- Deleting the whole-word matches of `w` never creates a whole-word match of `u`, and
leaves none when `u` is `w`. -/
theorem hasMatch_deleteMatches (u w : String) (hune : u.data ≠ [])
    (hu : ∀ c ∈ u.data, isWordChar c = true) (hwne : w.data ≠ [])
    (hw : ∀ c ∈ w.data, isWordChar c = true) (n : Nat) :
    ∀ (s : List Char), s.length ≤ n → ∀ (p q : Option Char),
      p.any isWordChar = q.any isWordChar →
      hasMatch (reWholeWord u) q (deleteMatches (reWholeWord w) p 0 s) = true →
      hasMatch (reWholeWord u) p s = true ∧ u.data ≠ w.data := by
  induction n with
  | zero =>
    intro s hs p q _ h
    have : s = [] := List.length_eq_zero.mp (Nat.le_zero.mp hs)
    subst this
    simp [deleteMatches, hasMatch] at h
  | succ n ih =>
    intro s hs p q hpq h
    cases s with
    | nil => simp [deleteMatches, hasMatch] at h
    | cons c cs =>
      have hcs : cs.length ≤ n := by simpa using hs
      rw [deleteMatches] at h
      rw [reWholeWord_eq_run w hwne hw] at h
      by_cases hm : p.any isWordChar = false ∧ (c :: cs).takeWhile isWordChar = w.data
      · -- the word `w` is matched here and deleted
        rw [if_pos hm] at h
        obtain ⟨j, hj⟩ : ∃ j, w.data.length = j + 1 :=
          Nat.exists_eq_succ_of_ne_zero (fun h0 => hwne (List.length_eq_zero.mp h0))
        rw [hj] at h
        dsimp only at h
        have hsplit : c :: cs = w.data ++ (c :: cs).dropWhile isWordChar := by
          rw [← hm.2]
          exact (List.takeWhile_append_dropWhile _ _).symm
        have hdrop : cs.drop j = (c :: cs).dropWhile isWordChar := by
          have : (c :: cs).drop (j + 1) = (c :: cs).dropWhile isWordChar := by
            conv_lhs => rw [hsplit, ← hj]
            exact List.drop_left _ _
          simpa using this
        have hjle : j ≤ cs.length := by
          have := congrArg List.length hsplit
          rw [List.length_append, hj, List.length_cons] at this
          omega
        have hhead : ((c :: cs).dropWhile isWordChar).head?.any isWordChar = false := by
          have := List.head?_dropWhile_not isWordChar (c :: cs)
          cases hd : ((c :: cs).dropWhile isWordChar).head? with
          | none => rfl
          | some x =>
            rw [hd] at this
            simpa using this
        rw [deleteMatches_skip _ _ _ _ hjle, hdrop,
          deleteMatches_nonword_head w hwne hw _ q _ hhead] at h
        have hlen : ((c :: cs).dropWhile isWordChar).length ≤ n := by
          rw [← hdrop, List.length_drop]
          omega
        obtain ⟨h1, h2⟩ := ih _ hlen q q rfl h
        have h3 : hasMatch (reWholeWord u) p
            (w.data ++ (c :: cs).dropWhile isWordChar) = true := by
          apply hasMatch_append_right
          rw [hasMatch_nonword_head u hune hu _ q _ hhead]
          exact h1
        rw [← hsplit] at h3
        exact ⟨h3, h2⟩
      · -- no match of `w` here: the character is kept
        rw [if_neg hm] at h
        dsimp only at h
        rw [hasMatch, Bool.or_eq_true] at h
        rw [hasMatch, Bool.or_eq_true]
        rcases h with h | h
        · rw [reWholeWord_eq_run u hune hu] at h
          by_cases hq : q.any isWordChar = false ∧
              (c :: deleteMatches (reWholeWord w) (some c) 0 cs).takeWhile isWordChar = u.data
          · have hc : isWordChar c = true := by
              by_contra hc
              apply hune
              rw [← hq.2, List.takeWhile_cons_of_neg hc]
            have hrun : (c :: cs).takeWhile isWordChar = u.data := by
              rw [← hq.2, List.takeWhile_cons_of_pos hc, List.takeWhile_cons_of_pos hc,
                takeWhile_deleteMatches w hwne hw cs c hc]
            have hp : p.any isWordChar = false := hpq ▸ hq.1
            refine ⟨Or.inl ?_, ?_⟩
            · rw [reWholeWord_eq_run u hune hu, if_pos ⟨hp, hrun⟩]
              rfl
            · intro huw
              exact hm ⟨hp, huw ▸ hrun⟩
          · rw [if_neg hq] at h
            cases h
        · obtain ⟨h1, h2⟩ := ih cs hcs (some c) (some c) rfl h
          exact ⟨Or.inr h1, h2⟩

theorem takeWhile_replacePunct (s : List Char) (h : '_' ∉ s) :
    (replacePunct s).takeWhile isWordChar = s.takeWhile isWordChar := by
  induction s with
  | nil => rfl
  | cons c cs ih =>
    have hc : c ≠ '_' := fun e => h (e ▸ List.mem_cons_self _ _)
    have hcs : '_' ∉ cs := fun e => h (List.mem_cons_of_mem _ e)
    unfold replacePunct at ih ⊢
    rw [List.map_cons]
    by_cases hp : isPunctChar c = true
    · rw [if_pos hp, List.takeWhile_cons_of_neg (by decide),
        List.takeWhile_cons_of_neg (by rw [not_word_of_punct c hp hc]; decide)]
    · rw [if_neg hp]
      by_cases hw : isWordChar c = true
      · rw [List.takeWhile_cons_of_pos hw, List.takeWhile_cons_of_pos hw, ih hcs]
      · rw [List.takeWhile_cons_of_neg hw, List.takeWhile_cons_of_neg hw]

theorem hasMatch_replacePunct (u : String) (hune : u.data ≠ [])
    (hu : ∀ c ∈ u.data, isWordChar c = true) (s : List Char) :
    '_' ∉ s → ∀ (p q : Option Char), p.any isWordChar = q.any isWordChar →
      hasMatch (reWholeWord u) q (replacePunct s) = hasMatch (reWholeWord u) p s := by
  induction s with
  | nil =>
    intro _ p q _
    rfl
  | cons c cs ih =>
    intro h p q hpq
    have hc : c ≠ '_' := fun e => h (e ▸ List.mem_cons_self _ _)
    have hcs : '_' ∉ cs := fun e => h (List.mem_cons_of_mem _ e)
    have hrun := takeWhile_replacePunct (c :: cs) h
    have hcons : replacePunct (c :: cs)
        = (if isPunctChar c = true then ' ' else c) :: replacePunct cs := rfl
    rw [hcons] at hrun ⊢
    rw [hasMatch, hasMatch, reWholeWord_eq_run u hune hu, reWholeWord_eq_run u hune hu,
      hrun, hpq]
    congr 1
    apply ih hcs
    by_cases hp : isPunctChar c = true
    · rw [if_pos hp, Option.any_some, Option.any_some, not_word_of_punct c hp hc]
      decide
    · rw [if_neg hp]

theorem takeWhile_collapseSpaces (s : List Char) :
    (collapseSpaces false s).takeWhile isWordChar = s.takeWhile isWordChar := by
  induction s with
  | nil => rfl
  | cons c cs ih =>
    rw [collapseSpaces]
    by_cases hs : isSpaceChar c = true
    · rw [if_pos hs]
      simp only [Bool.false_eq_true, if_false]
      rw [List.takeWhile_cons_of_neg (by decide),
        List.takeWhile_cons_of_neg (by rw [not_word_of_space c hs]; decide)]
    · rw [if_neg hs]
      by_cases hw : isWordChar c = true
      · rw [List.takeWhile_cons_of_pos hw, List.takeWhile_cons_of_pos hw, ih]
      · rw [List.takeWhile_cons_of_neg hw, List.takeWhile_cons_of_neg hw]

theorem hasMatch_collapseSpaces (u : String) (hune : u.data ≠ [])
    (hu : ∀ c ∈ u.data, isWordChar c = true) (s : List Char) :
    ∀ (inRun : Bool) (p q : Option Char), p.any isWordChar = q.any isWordChar →
      (inRun = true → p.any isWordChar = false) →
      hasMatch (reWholeWord u) q (collapseSpaces inRun s) = true →
      hasMatch (reWholeWord u) p s = true := by
  induction s with
  | nil =>
    intro inRun p q _ _ h
    simp [collapseSpaces, hasMatch] at h
  | cons c cs ih =>
    intro inRun p q hpq hrun h
    rw [hasMatch, Bool.or_eq_true]
    by_cases hs : isSpaceChar c = true
    · have hcw : (some c).any isWordChar = false := by
        rw [Option.any_some]
        exact not_word_of_space c hs
      rw [collapseSpaces, if_pos hs] at h
      cases inRun with
      | true =>
        rw [if_pos rfl] at h
        refine Or.inr (ih true (some c) q ?_ (fun _ => hcw) h)
        rw [hcw, ← hpq, hrun rfl]
      | false =>
        simp only [Bool.false_eq_true, if_false] at h
        rw [hasMatch, Bool.or_eq_true] at h
        rcases h with h | h
        · rw [reWholeWord_nonword_head u hune hu q _ (by rw [List.head?_cons]; decide)] at h
          cases h
        · exact Or.inr (ih true (some c) (some ' ') (by rw [hcw]; decide) (fun _ => hcw) h)
    · have hcons : collapseSpaces inRun (c :: cs) = c :: collapseSpaces false cs := by
        rw [collapseSpaces, if_neg hs]
      have hrun' : (collapseSpaces false (c :: cs)).takeWhile isWordChar
          = (c :: cs).takeWhile isWordChar := takeWhile_collapseSpaces (c :: cs)
      have hcons' : collapseSpaces false (c :: cs) = c :: collapseSpaces false cs := by
        rw [collapseSpaces, if_neg hs]
      rw [hcons'] at hrun'
      rw [hcons, hasMatch, Bool.or_eq_true] at h
      rcases h with h | h
      · left
        rw [reWholeWord_eq_run u hune hu, hrun', ← hpq] at h
        rw [reWholeWord_eq_run u hune hu]
        exact h
      · exact Or.inr (ih false (some c) (some c) rfl (fun e => by cases e) h)

theorem takeWhile_append_nonword (t tail : List Char)
    (h : tail.head?.any isWordChar = false) (ht : t ≠ []) :
    (t ++ tail).takeWhile isWordChar = t.takeWhile isWordChar := by
  induction t with
  | nil => exact absurd rfl ht
  | cons x xs ih =>
    rw [List.cons_append]
    by_cases hx : isWordChar x = true
    · rw [List.takeWhile_cons_of_pos hx, List.takeWhile_cons_of_pos hx]
      cases xs with
      | nil =>
        rw [List.nil_append, (takeWhile_eq_nil_iff_head _ _).mpr h]
        rfl
      | cons y ys => rw [ih (by simp)]
    · rw [List.takeWhile_cons_of_neg hx, List.takeWhile_cons_of_neg hx]

theorem hasMatch_append_nonword (u : String) (hune : u.data ≠ [])
    (hu : ∀ c ∈ u.data, isWordChar c = true) (tail : List Char)
    (h : tail.head?.any isWordChar = false) (a : List Char) :
    ∀ p : Option Char, hasMatch (reWholeWord u) p a = true →
      hasMatch (reWholeWord u) p (a ++ tail) = true := by
  induction a with
  | nil =>
    intro p hp
    simp [hasMatch] at hp
  | cons c cs ih =>
    intro p hp
    rw [hasMatch, Bool.or_eq_true] at hp
    have hrun := takeWhile_append_nonword (c :: cs) tail h (by simp)
    rw [List.cons_append] at hrun ⊢
    rw [hasMatch, Bool.or_eq_true]
    rcases hp with hp | hp
    · left
      rw [reWholeWord_eq_run u hune hu] at hp ⊢
      rw [hrun]
      exact hp
    · exact Or.inr (ih _ hp)

theorem hasMatch_rdropWhile (u : String) (hune : u.data ≠ [])
    (hu : ∀ c ∈ u.data, isWordChar c = true) (p : Option Char) (l : List Char) :
    hasMatch (reWholeWord u) p (l.rdropWhile isSpaceChar) = true →
      hasMatch (reWholeWord u) p l = true := by
  induction l using List.reverseRecOn with
  | nil =>
    intro h
    simpa using h
  | append_singleton l x ih =>
    intro h
    by_cases hx : isSpaceChar x = true
    · rw [List.rdropWhile_concat_pos _ _ _ hx] at h
      refine hasMatch_append_nonword u hune hu [x] ?_ l p (ih h)
      simp [not_word_of_space x hx]
    · rw [List.rdropWhile_concat_neg _ _ _ hx] at h
      exact h

theorem hasMatch_trimChars (u : String) (hune : u.data ≠ [])
    (hu : ∀ c ∈ u.data, isWordChar c = true) (s : List Char)
    (h : hasMatch (reWholeWord u) none (trimChars s) = true) :
    hasMatch (reWholeWord u) none s = true := by
  rw [trimChars_eq] at h
  have h1 := hasMatch_rdropWhile u hune hu none _ h
  rw [← List.takeWhile_append_dropWhile isSpaceChar s]
  apply hasMatch_append_right
  rw [hasMatch_prev_congr u _ none _ ?_]
  · exact h1
  · unfold prevAfter
    cases hl : (s.takeWhile isSpaceChar).getLast? with
    | none => rfl
    | some x =>
      have hmem : x ∈ s.takeWhile isSpaceChar := List.mem_of_getLast?_eq_some hl
      have := List.mem_takeWhile_imp hmem
      simp [not_word_of_space x this]

theorem normalizeChars_whole_word (u : String) (hune : u.data ≠ [])
    (hu : ∀ c ∈ u.data, isWordChar c = true) (s : List Char) (hs : '_' ∉ s)
    (h : hasMatch (reWholeWord u) none (normalizeChars s) = true) :
    u.data ≠ "area".data ∧ u.data ≠ "park".data ∧ u.data ≠ "reserve".data := by
  unfold normalizeChars at h
  dsimp only at h
  have h1 := hasMatch_trimChars u hune hu _ h
  have h2 := hasMatch_collapseSpaces u hune hu _ false none none rfl (fun e => by cases e) h1
  have hsub : '_' ∉ deleteMatches (reWholeWord "reserve") none 0
      (deleteMatches (reWholeWord "park") none 0
        (deleteMatches (reWholeWord "area") none 0
          (deleteMatches reDogOffLeash none 0 (deleteMatches reOffLeash none 0 s)))) := by
    intro hm
    have h6 := (deleteMatches_sublist _ _ _ _).subset hm
    have h7 := (deleteMatches_sublist _ _ _ _).subset h6
    have h8 := (deleteMatches_sublist _ _ _ _).subset h7
    have h9 := (deleteMatches_sublist _ _ _ _).subset h8
    exact hs ((deleteMatches_sublist _ _ _ _).subset h9)
  rw [hasMatch_replacePunct u hune hu _ hsub none none rfl] at h2
  obtain ⟨h3, e3⟩ := hasMatch_deleteMatches u "reserve" hune hu (by decide) (by decide)
    _ _ (Nat.le_refl _) none none rfl h2
  obtain ⟨h4, e4⟩ := hasMatch_deleteMatches u "park" hune hu (by decide) (by decide)
    _ _ (Nat.le_refl _) none none rfl h3
  obtain ⟨_, e5⟩ := hasMatch_deleteMatches u "area" hune hu (by decide) (by decide)
    _ _ (Nat.le_refl _) none none rfl h4
  exact ⟨e5, e4, e3⟩

theorem normalizeChars_of_first_pass (x y : List Char)
    (h : deleteMatches reOffLeash none 0 x = deleteMatches reOffLeash none 0 y ++ " ".data) :
    normalizeChars x = normalizeChars y := by
  unfold normalizeChars
  dsimp only
  rw [h]
  rw [deleteMatches_append reDogOffLeash " ".data
    (reDogOffLeash_append _ (by decide) (by decide) (by decide) (by rfl) (by rfl))
    (fun p t k h => consumed_le t _ k h) _ none 0 (Nat.zero_le _)]
  have e2 : ∀ q, deleteMatches reDogOffLeash q 0 " ".data = " ".data := fun q => rfl
  rw [e2]
  rw [deleteMatches_append (reWholeWord "area") " ".data
    (reWholeWord_append "area" ' ' [] (by decide) (by decide))
    (reWholeWord_le "area") _ none 0 (Nat.zero_le _)]
  have e3 : ∀ q, deleteMatches (reWholeWord "area") q 0 " ".data = " ".data := by
    intro q
    show deleteMatches (reWholeWord "area") q 0 [' '] = _
    rw [deleteMatches, reWholeWord_none "area" q _ (by decide)]
    rfl
  rw [e3]
  rw [deleteMatches_append (reWholeWord "park") " ".data
    (reWholeWord_append "park" ' ' [] (by decide) (by decide))
    (reWholeWord_le "park") _ none 0 (Nat.zero_le _)]
  have e4 : ∀ q, deleteMatches (reWholeWord "park") q 0 " ".data = " ".data := by
    intro q
    show deleteMatches (reWholeWord "park") q 0 [' '] = _
    rw [deleteMatches, reWholeWord_none "park" q _ (by decide)]
    rfl
  rw [e4]
  rw [deleteMatches_append (reWholeWord "reserve") " ".data
    (reWholeWord_append "reserve" ' ' [] (by decide) (by decide))
    (reWholeWord_le "reserve") _ none 0 (Nat.zero_le _)]
  have e5 : ∀ q, deleteMatches (reWholeWord "reserve") q 0 " ".data = " ".data := by
    intro q
    show deleteMatches (reWholeWord "reserve") q 0 [' '] = _
    rw [deleteMatches, reWholeWord_none "reserve" q _ (by decide)]
    rfl
  rw [e5]
  have e6 : ∀ z, replacePunct (z ++ " ".data) = replacePunct z ++ " ".data := by
    intro z
    unfold replacePunct
    rw [List.map_append]
    rfl
  rw [e6]
  obtain ⟨tail, ht, he⟩ := collapseSpaces_append_spaces " ".data (by decide)
    (replacePunct (deleteMatches (reWholeWord "reserve") none 0
      (deleteMatches (reWholeWord "park") none 0
        (deleteMatches (reWholeWord "area") none 0
          (deleteMatches reDogOffLeash none 0 (deleteMatches reOffLeash none 0 y)))))) false
  rw [he]
  exact trimChars_append_spaces _ tail ht

theorem first_pass_off_leash (x : List Char) :
    deleteMatches reOffLeash none 0 (x ++ " off leash".data)
      = deleteMatches reOffLeash none 0 x ++ " ".data := by
  rw [deleteMatches_append reOffLeash " off leash".data
    (reOffLeash_append _ (by decide) (by decide) (by rfl))
    (fun p t k h => consumed_le t _ k h) x none 0 (Nat.zero_le _)]
  rfl

theorem first_pass_off_hyphen_leash (x : List Char) :
    deleteMatches reOffLeash none 0 (x ++ " off-leash".data)
      = deleteMatches reOffLeash none 0 x ++ " ".data := by
  rw [deleteMatches_append reOffLeash " off-leash".data
    (reOffLeash_append _ (by decide) (by decide) (by rfl))
    (fun p t k h => consumed_le t _ k h) x none 0 (Nat.zero_le _)]
  rfl

theorem first_pass_offleash (x : List Char) :
    deleteMatches reOffLeash none 0 (x ++ " offleash".data)
      = deleteMatches reOffLeash none 0 x ++ " ".data := by
  rw [deleteMatches_append reOffLeash " offleash".data
    (reOffLeash_append _ (by decide) (by decide) (by rfl))
    (fun p t k h => consumed_le t _ k h) x none 0 (Nat.zero_le _)]
  rfl

theorem normalizeChars_of_first_pass_area (x y : List Char)
    (h : deleteMatches reOffLeash none 0 x
      = deleteMatches reOffLeash none 0 y ++ "  area".data) :
    normalizeChars x = normalizeChars y := by
  unfold normalizeChars
  dsimp only
  rw [h]
  rw [deleteMatches_append reDogOffLeash "  area".data
    (reDogOffLeash_append _ (by decide) (by decide) (by decide) (by rfl) (by rfl))
    (fun p t k h => consumed_le t _ k h) _ none 0 (Nat.zero_le _)]
  have e2 : ∀ q, deleteMatches reDogOffLeash q 0 "  area".data = "  area".data := fun q => rfl
  rw [e2]
  rw [deleteMatches_append (reWholeWord "area") "  area".data
    (reWholeWord_append "area" ' ' " area".data (by decide) (by decide))
    (reWholeWord_le "area") _ none 0 (Nat.zero_le _)]
  have e3 : ∀ q, deleteMatches (reWholeWord "area") q 0 "  area".data = "  ".data := by
    intro q
    show deleteMatches (reWholeWord "area") q 0 (' ' :: " area".data) = _
    rw [deleteMatches, reWholeWord_none "area" q _ (by decide)]
    decide
  rw [e3]
  rw [deleteMatches_append (reWholeWord "park") "  ".data
    (reWholeWord_append "park" ' ' " ".data (by decide) (by decide))
    (reWholeWord_le "park") _ none 0 (Nat.zero_le _)]
  have e4 : ∀ q, deleteMatches (reWholeWord "park") q 0 "  ".data = "  ".data := by
    intro q
    show deleteMatches (reWholeWord "park") q 0 (' ' :: " ".data) = _
    rw [deleteMatches, reWholeWord_none "park" q _ (by decide)]
    decide
  rw [e4]
  rw [deleteMatches_append (reWholeWord "reserve") "  ".data
    (reWholeWord_append "reserve" ' ' " ".data (by decide) (by decide))
    (reWholeWord_le "reserve") _ none 0 (Nat.zero_le _)]
  have e5 : ∀ q, deleteMatches (reWholeWord "reserve") q 0 "  ".data = "  ".data := by
    intro q
    show deleteMatches (reWholeWord "reserve") q 0 (' ' :: " ".data) = _
    rw [deleteMatches, reWholeWord_none "reserve" q _ (by decide)]
    decide
  rw [e5]
  have e6 : ∀ z, replacePunct (z ++ "  ".data) = replacePunct z ++ "  ".data := by
    intro z
    unfold replacePunct
    rw [List.map_append]
    rfl
  rw [e6]
  obtain ⟨tail, ht, he⟩ := collapseSpaces_append_spaces "  ".data (by decide)
    (replacePunct (deleteMatches (reWholeWord "reserve") none 0
      (deleteMatches (reWholeWord "park") none 0
        (deleteMatches (reWholeWord "area") none 0
          (deleteMatches reDogOffLeash none 0 (deleteMatches reOffLeash none 0 y)))))) false
  rw [he]
  exact trimChars_append_spaces _ tail ht

theorem first_pass_marker_area (x : List Char) (sfx : String)
    (hs : sfx ∈ [" off leash area", " off-leash area", " offleash area"]) :
    deleteMatches reOffLeash none 0 (x ++ sfx.data)
      = deleteMatches reOffLeash none 0 x ++ "  area".data := by
  simp only [List.mem_cons, List.mem_singleton, List.not_mem_nil, or_false] at hs
  rcases hs with rfl | rfl | rfl
  · rw [deleteMatches_append reOffLeash " off leash area".data
      (reOffLeash_append _ (by decide) (by decide) (by rfl))
      (fun p t k h => consumed_le t _ k h) x none 0 (Nat.zero_le _)]
    rfl
  · rw [deleteMatches_append reOffLeash " off-leash area".data
      (reOffLeash_append _ (by decide) (by decide) (by rfl))
      (fun p t k h => consumed_le t _ k h) x none 0 (Nat.zero_le _)]
    rfl
  · rw [deleteMatches_append reOffLeash " offleash area".data
      (reOffLeash_append _ (by decide) (by decide) (by rfl))
      (fun p t k h => consumed_le t _ k h) x none 0 (Nat.zero_le _)]
    rfl

theorem normalizeChars_marker (x : List Char) (sfx : String)
    (hs : sfx ∈ [" off leash", " off-leash", " offleash", " off leash area", " off-leash area",
      " offleash area"]) :
    normalizeChars (x ++ sfx.data) = normalizeChars x := by
  simp only [List.mem_cons, List.mem_singleton, List.not_mem_nil, or_false] at hs
  rcases hs with rfl | rfl | rfl | rfl | rfl | rfl
  · exact normalizeChars_of_first_pass _ _ (first_pass_off_leash x)
  · exact normalizeChars_of_first_pass _ _ (first_pass_off_hyphen_leash x)
  · exact normalizeChars_of_first_pass _ _ (first_pass_offleash x)
  · exact normalizeChars_of_first_pass_area _ _ (first_pass_marker_area x _ (by decide))
  · exact normalizeChars_of_first_pass_area _ _ (first_pass_marker_area x _ (by decide))
  · exact normalizeChars_of_first_pass_area _ _ (first_pass_marker_area x _ (by decide))

theorem normalizeParkName_marker (B : Builtins) (h0 : B.toLowerCase "" = "") (n m : String)
    (sfx : String)
    (hs : sfx ∈ [" off leash", " off-leash", " offleash", " off leash area", " off-leash area",
      " offleash area"])
    (hm : B.toLowerCase m = B.toLowerCase n ++ sfx) :
    normalizeParkName B (.str m) = normalizeParkName B (.str n) := by
  have hne : m ≠ "" := by
    rintro rfl
    rw [h0] at hm
    have := congrArg String.length hm
    rw [String.length_append] at this
    have hl : 0 < sfx.length := by
      simp only [List.mem_cons, List.mem_singleton, List.not_mem_nil, or_false] at hs
      rcases hs with rfl | rfl | rfl | rfl | rfl | rfl <;> decide
    have h00 : "".length = 0 := rfl
    omega
  unfold normalizeParkName
  dsimp only
  rw [if_neg hne, hm, String.data_append, normalizeChars_marker _ sfx hs]
  by_cases hn : n = ""
  · rw [if_pos hn, hn, h0]
    rfl
  · rw [if_neg hn]

/-- C9 (amended): for every input string whose lower-cased form contains no underscore,
the key returned by `normalizeParkName` contains none of the whole words `area`, `park`,
`reserve` (none of the expressions `\barea\b`, `\bpark\b`, `\breserve\b` matches in it);
and an off-leash marker that ends a name is removed in each of its spellings: a name whose
lower-cased form is that of `n` followed by ` off leash`, ` off-leash` or ` offleash`, alone
or followed by ` area`, has the key of `n`.  The pass `dog[- ]?off[- ]?leash` deletes the
marker that the first pass leaves behind in `Dog Ofoffleashf Leash`. -/
theorem normalizeParkName_no_whole_word (B : Builtins) (n : String) :
    ('_' ∉ (B.toLowerCase n).data →
      hasMatch (reWholeWord "area") none (normalizeParkName B (.str n)).data = false ∧
      hasMatch (reWholeWord "park") none (normalizeParkName B (.str n)).data = false ∧
      hasMatch (reWholeWord "reserve") none (normalizeParkName B (.str n)).data = false) ∧
    (B.toLowerCase "" = "" →
      ∀ m : String,
        ∀ sfx ∈ [" off leash", " off-leash", " offleash", " off leash area",
          " off-leash area", " offleash area"],
        B.toLowerCase m = B.toLowerCase n ++ sfx →
        normalizeParkName B (.str m) = normalizeParkName B (.str n)) ∧
    normalizeParkName refBuiltins (.str "New Farm Off Leash") = "new farm" ∧
    normalizeParkName refBuiltins (.str "New Farm Offleash Area") = "new farm" ∧
    normalizeParkName refBuiltins (.str "New Farm Off-Leash") = "new farm" ∧
    normalizeParkName refBuiltins (.str "New Farm OFFLEASH") = "new farm" ∧
    normalizeParkName refBuiltins (.str "Dog Ofoffleashf Leash") = "" := by
  refine ⟨?_, ?_, by decide, by decide, by decide, by decide, by decide⟩
  · intro h
    rcases normalizeParkName_str_data B n with he | he
    · rw [he]
      exact ⟨rfl, rfl, rfl⟩
    · rw [he]
      refine ⟨?_, ?_, ?_⟩
      · rw [Bool.eq_false_iff]
        intro hm
        exact (normalizeChars_whole_word "area" (by decide) (by decide) _ h hm).1 rfl
      · rw [Bool.eq_false_iff]
        intro hm
        exact (normalizeChars_whole_word "park" (by decide) (by decide) _ h hm).2.1 rfl
      · rw [Bool.eq_false_iff]
        intro hm
        exact (normalizeChars_whole_word "reserve" (by decide) (by decide) _ h hm).2.2 rfl
  · intro h0 m sfx hs hm
    exact normalizeParkName_marker B h0 n m sfx hs hm

/-- Witness of C9 (amended): the name `Kalinga Park Reserve Area` has no underscore, and
its key `kalinga` contains none of the three words; `Kalinga Off Leash` has the key of
`Kalinga`. -/
theorem normalizeParkName_no_whole_word_witness :
    '_' ∉ (refBuiltins.toLowerCase "Kalinga Park Reserve Area").data ∧
    normalizeParkName refBuiltins (.str "Kalinga Park Reserve Area") = "kalinga" ∧
    (hasMatch (reWholeWord "area") none
        (normalizeParkName refBuiltins (.str "Kalinga Park Reserve Area")).data = false ∧
      hasMatch (reWholeWord "park") none
        (normalizeParkName refBuiltins (.str "Kalinga Park Reserve Area")).data = false ∧
      hasMatch (reWholeWord "reserve") none
        (normalizeParkName refBuiltins (.str "Kalinga Park Reserve Area")).data = false) ∧
    refBuiltins.toLowerCase "Kalinga Off Leash"
      = refBuiltins.toLowerCase "Kalinga" ++ " off leash" ∧
    normalizeParkName refBuiltins (.str "Kalinga Off Leash")
      = normalizeParkName refBuiltins (.str "Kalinga") :=
  ⟨by decide, by decide,
   (normalizeParkName_no_whole_word refBuiltins "Kalinga Park Reserve Area").1 (by decide),
   by decide,
   (normalizeParkName_no_whole_word refBuiltins "Kalinga").2.1 (by decide)
     "Kalinga Off Leash" " off leash" (by decide) (by decide)⟩

/-- C9 (counterexample): the key of `Dog Off  Leash Area` (two spaces) is `dog off leash`,
which contains the substring `off leash`; the key of `Ofoffleashfleash` is `offleash`; and
the key of `Car_Park` is `car park`, which contains the whole word `park`. -/
theorem normalizeParkName_keeps_terms :
    normalizeParkName refBuiltins (.str "Dog Off  Leash Area") = "dog off leash" ∧
    includes (normalizeParkName refBuiltins (.str "Dog Off  Leash Area")) "off leash" = true ∧
    normalizeParkName refBuiltins (.str "Ofoffleashfleash") = "offleash" ∧
    normalizeParkName refBuiltins (.str "Car_Park") = "car park" ∧
    hasMatch (reWholeWord "park") none
      (normalizeParkName refBuiltins (.str "Car_Park")).data = true := by
  decide

/-! ### The empty key -/

theorem tagWaterFountain_of_empty_key (B : Builtins) (names : List String) (p : Park)
    (h : normalizeParkName B p.name = "") : tagWaterFountain B names p = p := by
  unfold tagWaterFountain
  dsimp only
  rw [normalizeParkName_jsOr_empty, h]
  simp

theorem tagWaterFountain_name (B : Builtins) (names : List String) (p : Park) :
    (tagWaterFountain B names p).name = p.name := by
  unfold tagWaterFountain
  dsimp only
  split <;> rfl

/-- C11: `normalizeParkName` returns the empty key for the empty string and for every value
that is not a string, and the empty key never matches: a fountain record whose name has the
empty key leaves the fountain-name set as it is, and a park whose name has the empty key
(such as a park named `Park`) is left without the pushed tag by the join, whatever the
fountain dataset holds. -/
theorem normalizeParkName_empty_key (B : Builtins) :
    normalizeParkName B (.str "") = "" ∧
    (∀ v : JsVal, (∀ s, v ≠ .str s) → normalizeParkName B v = "") ∧
    (∀ (set : List String) (item : JsVal), isNullish item = false →
      normalizeParkName B (fountainRawName item) = "" →
      addFountainName B set item = .ok set) ∧
    (∀ (names : List String) (p : Park), normalizeParkName B p.name = "" →
      tagWaterFountain B names p = p) ∧
    (∀ (parks offLeashAreas : List JsVal) (waterFountains : JsVal),
      ∀ q ∈ (processParkData B parks offLeashAreas waterFountains).allParks,
        normalizeParkName B q.name = "" →
        ∃ item ∈ parks ++ offLeashAreas, ∃ (index : Nat) (type : String) (isOffLeash : Bool),
          extractParkData B item index type isOffLeash = .ok (some q)) ∧
    normalizeParkName refBuiltins (.str "Park") = "" ∧
    (processParkData refBuiltins [parkNamedPark] []
        (.arr [fountainNamedPark, riversideFountain])).allParks.map
      (fun p => p.facilities) = [["Dog Friendly"]] := by
  refine ⟨rfl, ?_, ?_, ?_, ?_, by decide, by decide⟩
  · intro v hv
    cases v with
    | str s => exact absurd rfl (hv s)
    | _ => rfl
  · intro set item hitem hn
    unfold addFountainName
    rw [hitem]
    simp [hn]
  · exact fun names p h => tagWaterFountain_of_empty_key B names p h
  · intro parks offLeashAreas waterFountains
    have step : ∀ (names : List String) (type : String) (isOffLeash : Bool),
        ∀ item ∈ parks ++ offLeashAreas, ∀ i p,
          extractParkData B item i type isOffLeash = .ok (some p) →
          (normalizeParkName B (tagWaterFountain B names p).name = "" →
            ∃ item ∈ parks ++ offLeashAreas, ∃ (index : Nat) (type : String)
              (isOffLeash : Bool),
              extractParkData B item index type isOffLeash
                = .ok (some (tagWaterFountain B names p))) := by
      intro names type isOffLeash item hitem i p hp hkey
      rw [tagWaterFountain_name] at hkey
      rw [tagWaterFountain_of_empty_key B names p hkey]
      exact ⟨item, hitem, i, type, isOffLeash, hp⟩
    unfold processParkData
    split
    · intro q hq
      simp at hq
    · rename_i names _
      dsimp only
      have h1 := processRecords_forall B names "regular" false
        (fun q => normalizeParkName B q.name = "" →
          ∃ item ∈ parks ++ offLeashAreas, ∃ (index : Nat) (type : String)
            (isOffLeash : Bool),
            extractParkData B item index type isOffLeash = .ok (some q))
        parks 0 []
        (fun item hitem => step names "regular" false item (List.mem_append_left _ hitem))
        (by simp)
      split
      · exact h1
      · exact processRecords_forall B names "off-leash" true _ offLeashAreas 0 _
          (fun item hitem => step names "off-leash" true item (List.mem_append_right _ hitem))
          h1

/-- Witness of C11: the fountain record named `Park` leaves a fountain-name set unchanged,
and a park named `Park` is returned by the tagging step as it was given, although the set
holds a name. -/
theorem normalizeParkName_empty_key_witness :
    addFountainName refBuiltins ["riverside"] fountainNamedPark = .ok ["riverside"] ∧
    tagWaterFountain refBuiltins ["riverside"] { demoPark with name := .str "Park" }
      = { demoPark with name := .str "Park" } :=
  ⟨(normalizeParkName_empty_key refBuiltins).2.2.1 ["riverside"] fountainNamedPark
      (by decide) (by decide),
   (normalizeParkName_empty_key refBuiltins).2.2.2.1 ["riverside"]
      { demoPark with name := .str "Park" } (by decide)⟩

/-! ### Order of the fused collection -/

theorem processParkData_of_not_nullish (B : Builtins)
    (parks offLeashAreas waterFountains : List JsVal)
    (h : ∀ item ∈ parks ++ offLeashAreas ++ waterFountains, isNullish item = false) :
    ∃ names, fountainNames B (.arr waterFountains) = .ok names ∧
      processParkData B parks offLeashAreas (.arr waterFountains) =
        { allParks := (accepted B "regular" false parks).map (tagWaterFountain B names)
            ++ (accepted B "off-leash" true offLeashAreas).map (tagWaterFountain B names),
          threw := false } := by
  have hp : ∀ item ∈ parks, isNullish item = false :=
    fun item hi => h item (List.mem_append_left _ (List.mem_append_left _ hi))
  have ho : ∀ item ∈ offLeashAreas, isNullish item = false :=
    fun item hi => h item (List.mem_append_left _ (List.mem_append_right _ hi))
  have hw : ∀ item ∈ waterFountains, isNullish item = false :=
    fun item hi => h item (List.mem_append_right _ hi)
  obtain ⟨names, hnames⟩ := collectFountainNames_of_not_nullish B waterFountains [] hw
  refine ⟨names, hnames, ?_⟩
  unfold processParkData fountainNames
  simp only [hnames]
  rw [processRecords_of_not_nullish B names "regular" false parks 0 [] hp]
  simp only [Bool.false_eq_true, if_false]
  rw [processRecords_of_not_nullish B names "off-leash" true offLeashAreas 0 _ ho]
  simp only [List.nil_append]
  rfl

theorem tagWaterFountain_type (B : Builtins) (names : List String) (p : Park) :
    (tagWaterFountain B names p).type = p.type ∧
    (tagWaterFountain B names p).isOffLeash = p.isOffLeash := by
  unfold tagWaterFountain
  dsimp only
  split <;> exact ⟨rfl, rfl⟩

theorem processParkData_from_records (B : Builtins) (parks offLeashAreas : List JsVal)
    (waterFountains : JsVal) :
    ∀ q ∈ (processParkData B parks offLeashAreas waterFountains).allParks,
      ∃ item ∈ parks ++ offLeashAreas, ∃ (index : Nat) (type : String) (isOffLeash : Bool)
        (p : Park) (names : List String),
        extractParkData B item index type isOffLeash = .ok (some p) ∧
        q = tagWaterFountain B names p := by
  unfold processParkData
  split
  · intro q hq
    simp at hq
  · rename_i names _
    dsimp only
    have step : ∀ (type : String) (isOffLeash : Bool),
        ∀ item ∈ parks ++ offLeashAreas, ∀ i p,
          extractParkData B item i type isOffLeash = .ok (some p) →
          ∃ item ∈ parks ++ offLeashAreas, ∃ (index : Nat) (type : String)
            (isOffLeash : Bool) (p' : Park) (names' : List String),
            extractParkData B item index type isOffLeash = .ok (some p') ∧
            tagWaterFountain B names p = tagWaterFountain B names' p' :=
      fun type isOffLeash item hitem i p hp =>
        ⟨item, hitem, i, type, isOffLeash, p, names, hp, rfl⟩
    have h1 := processRecords_forall B names "regular" false
      (fun q => ∃ item ∈ parks ++ offLeashAreas, ∃ (index : Nat) (type : String)
        (isOffLeash : Bool) (p : Park) (names' : List String),
        extractParkData B item index type isOffLeash = .ok (some p) ∧
        q = tagWaterFountain B names' p)
      parks 0 []
      (fun item hitem => step "regular" false item (List.mem_append_left _ hitem))
      (by simp)
    split
    · exact h1
    · exact processRecords_forall B names "off-leash" true _ offLeashAreas 0 _
        (fun item hitem => step "off-leash" true item (List.mem_append_right _ hitem)) h1

/-- C12 (failing input): the parks dataset `[riversideRecord, null, cornerRecord]`.  Both
records are accepted by `extractParkData`, but for the `null` between them the read
`item.record` throws, the loop is abandoned, and the collection holds the first park only:
one park for two accepted records.  The same happens in the off-leash loop.  In every run a
park of the collection is built from a record of the parks or of the off-leash dataset,
never from a record of the water-fountain dataset. -/
theorem processParkData_order (B : Builtins) :
    (accepted refBuiltins "regular" false [riversideRecord, .null, cornerRecord]).map
        (fun p => toStr refBuiltins p.name)
      = ["Riverside Park", "regular 3"] ∧
    (processParkData refBuiltins [riversideRecord, .null, cornerRecord] [] (.arr [])).allParks.map
        (fun p => toStr refBuiltins p.name)
      = ["Riverside Park"] ∧
    (processParkData refBuiltins [riversideRecord, .null, cornerRecord] [] (.arr [])).threw
      = true ∧
    (accepted refBuiltins "off-leash" true [.null, cornerRecord]).map
        (fun p => toStr refBuiltins p.name)
      = ["off-leash 2"] ∧
    (processParkData refBuiltins [riversideRecord] [.null, cornerRecord] (.arr [])).allParks.map
        (fun p => toStr refBuiltins p.name)
      = ["Riverside Park"] ∧
    (∀ (parks offLeashAreas waterFountains : List JsVal),
      ∀ q ∈ (processParkData B parks offLeashAreas (.arr waterFountains)).allParks,
        ∃ item ∈ parks ++ offLeashAreas, ∃ (index : Nat) (type : String) (isOffLeash : Bool)
          (p : Park) (names : List String),
          extractParkData B item index type isOffLeash = .ok (some p) ∧
          q = tagWaterFountain B names p) := by
  refine ⟨by decide, by decide, by decide, by decide, by decide, ?_⟩
  intro parks offLeashAreas waterFountains
  exact processParkData_from_records B parks offLeashAreas (.arr waterFountains)

/-! ### Fallback to the sample data -/

/-- C13 (failing input): the parks dataset `[riversideRecord, null]`.  `processParkData`
builds one park and is then ended by the throw on `null`; the collection is not empty, yet
the `catch` of `loadParkData` replaces it by the sample data.  With three empty input
collections the collection is empty and `loadParkData` falls back to the sample data, which
are exactly 5 parks, some of type `regular` and some of type `off-leash`; with
`[riversideRecord]` alone the park is kept. -/
theorem loadParkData_fallback (B : Builtins) :
    (processParkData B [] [] (.arr [])).allParks = [] ∧
    loadParkData B [] [] (.arr []) = loadSampleData ∧
    loadSampleData.length = 5 ∧
    (∃ p ∈ loadSampleData, p.type = "regular") ∧
    (∃ p ∈ loadSampleData, p.type = "off-leash") ∧
    (processParkData refBuiltins [riversideRecord, .null] [] (.arr [])).allParks.map
        (fun p => toStr refBuiltins p.name)
      = ["Riverside Park"] ∧
    (processParkData refBuiltins [riversideRecord, .null] [] (.arr [])).threw = true ∧
    (loadParkData refBuiltins [riversideRecord, .null] [] (.arr [])).map
        (fun p => toStr refBuiltins p.name)
      = ["South Bank Parklands", "New Farm Park Off-Leash Area", "Roma Street Parkland",
         "Kangaroo Point Cliffs Park", "City Botanic Gardens"] ∧
    (loadParkData refBuiltins [riversideRecord] [] (.arr [])).map
        (fun p => toStr refBuiltins p.name)
      = ["Riverside Park"] := by
  refine ⟨rfl, rfl, rfl, ?_, ?_, by decide, by decide, by decide, by decide⟩
  · exact ⟨_, List.mem_cons_self _ _, rfl⟩
  · exact ⟨_, List.mem_cons_of_mem _ (List.mem_cons_self _ _), rfl⟩

/-! ### `extractCoordinates` -/

theorem truthy_of_isPair_get (fields : JsVal) (k : String)
    (h : isPair (fields.get k) = true) : truthy fields = true := by
  cases fields with
  | str s =>
    by_cases hs : s = ""
    · subst hs
      exfalso
      revert h
      unfold JsVal.get
      dsimp only
      split
      · simp [isPair]
      · have : keyIndex k "".length = none := rfl
        rw [this]
        simp [isPair]
    · simp [truthy, hs]
  | arr xs => rfl
  | obj ps => rfl
  | undefined => simp [JsVal.get, isPair] at h
  | null => simp [JsVal.get, isPair] at h
  | bool b => simp [JsVal.get, isPair] at h
  | num n => simp [JsVal.get, isPair] at h

theorem truthy_of_isPair (v : JsVal) (h : isPair v = true) : truthy v = true := by
  cases v with
  | arr xs => rfl
  | _ => simp [isPair] at h

/-- C19: for every field bag whose `geopoint` field is a pair (an array of at least two
elements, read as latitude then longitude), `extractCoordinates` answers from `geopoint`
only: the result is the pair flipped to longitude then latitude, whatever the other
coordinate fields hold. -/
theorem extractCoordinates_geopoint (B : Builtins) (fields : JsVal)
    (h : isPair (fields.get "geopoint") = true) :
    extractCoordinates B fields
      = some (.arr [.num (parseFloat B ((fields.get "geopoint").get "1")),
          .num (parseFloat B ((fields.get "geopoint").get "0"))]) := by
  unfold extractCoordinates
  rw [truthy_of_isPair_get fields "geopoint" h, truthy_of_isPair _ h, h]
  rfl

/-- Witness of C19: in `mixedFields` the pair `geopoint` is `[-27.5, 153]`; the result is
`[153, -27.5]` although `latitude`, `longitude` and `geometry` say otherwise. -/
theorem extractCoordinates_geopoint_witness :
    isPair (mixedFields.get "geopoint") = true ∧
    (extractCoordinates refBuiltins mixedFields).map (toStr refBuiltins) = some "153,-27.5" ∧
    extractCoordinates refBuiltins mixedFields
      = some (.arr [.num (parseFloat refBuiltins ((mixedFields.get "geopoint").get "1")),
          .num (parseFloat refBuiltins ((mixedFields.get "geopoint").get "0"))]) :=
  ⟨by decide, by decide, extractCoordinates_geopoint refBuiltins mixedFields (by decide)⟩

/-- C20 (failing input): a record whose `location` is a polygon and which has `lat` and
`long`.  `extractCoordinates` returns the polygon ring instead of going on to `lat` and
`long`, and `extractParkData` then rejects the record; with the same polygon under
`geo_shape` or `geometry` the object is skipped and the record is accepted at
`[153, -27.5]`. -/
theorem extractCoordinates_location_polygon :
    (extractCoordinates refBuiltins (polygonRecord "location")).map (toStr refBuiltins)
      = some "153,-27.5,153.1,-27.5,153.1,-27.4,153,-27.5" ∧
    (extractParkData refBuiltins (polygonRecord "location") 0 "regular" false).toOption
      = some none ∧
    (extractCoordinates refBuiltins (polygonRecord "geo_shape")).map (toStr refBuiltins)
      = some "153,-27.5" ∧
    (extractCoordinates refBuiltins (polygonRecord "geometry")).map (toStr refBuiltins)
      = some "153,-27.5" ∧
    ((extractParkData refBuiltins (polygonRecord "geo_shape") 0 "regular"
      false).toOption.join.map (fun p => p.coordinates))
      = some (.fin 153, .fin (mkRat (-275) 10)) := by
  refine ⟨by decide, by rfl, by decide, by decide, by decide⟩

/-! ### `getNearestParks` -/

theorem isPositive_sub (a b : JsNum) (ha : a ≠ .nan) (hb : b ≠ .nan) :
    (a - b).isPositive = !(a.le b) := by
  show (JsNum.sub a b).isPositive = !(JsNum.le a b)
  cases a with
  | nan => exact absurd rfl ha
  | fin x =>
    cases b with
    | nan => exact absurd rfl hb
    | fin y =>
      simp only [JsNum.sub, JsNum.neg, JsNum.add, JsNum.isPositive, JsNum.le, JsNum.ge]
      by_cases h : x ≤ y
      · simp [h]
      · simp only [h, decide_False, Bool.not_false, decide_eq_true_eq]
        linarith [not_le.mp h]
    | inf n => cases n <;> simp [JsNum.sub, JsNum.neg, JsNum.add, JsNum.isPositive, JsNum.le,
        JsNum.ge]
  | inf m =>
    cases b with
    | nan => exact absurd rfl hb
    | fin y => cases m <;> simp [JsNum.sub, JsNum.neg, JsNum.add, JsNum.isPositive, JsNum.le,
        JsNum.ge]
    | inf n => cases m <;> cases n <;>
        simp [JsNum.sub, JsNum.neg, JsNum.add, JsNum.isPositive, JsNum.le, JsNum.ge]

theorem JsNum.le_total_of_ne_nan (a b : JsNum) (ha : a ≠ .nan) (hb : b ≠ .nan) :
    a.le b = true ∨ b.le a = true := by
  cases a with
  | nan => exact absurd rfl ha
  | fin x =>
    cases b with
    | nan => exact absurd rfl hb
    | fin y =>
      simp only [JsNum.le, JsNum.ge, decide_eq_true_eq]
      exact le_total x y
    | inf n => cases n <;> simp [JsNum.le, JsNum.ge]
  | inf m =>
    cases b with
    | nan => exact absurd rfl hb
    | fin y => cases m <;> simp [JsNum.le, JsNum.ge]
    | inf n => cases m <;> cases n <;> simp [JsNum.le, JsNum.ge]

theorem JsNum.le_trans_of_le (a b c : JsNum) (h1 : a.le b = true) (h2 : b.le c = true) :
    a.le c = true := by
  cases a with
  | nan => cases b <;> simp [JsNum.le, JsNum.ge] at h1
  | fin x =>
    cases b with
    | nan => simp [JsNum.le, JsNum.ge] at h1
    | fin y =>
      cases c with
      | nan => simp [JsNum.le, JsNum.ge] at h2
      | fin z =>
        simp only [JsNum.le, JsNum.ge, decide_eq_true_eq] at h1 h2 ⊢
        exact le_trans h1 h2
      | inf k => cases k <;> simp_all [JsNum.le, JsNum.ge]
    | inf n =>
      cases c with
      | nan => simp [JsNum.le, JsNum.ge] at h2
      | fin z => cases n <;> simp_all [JsNum.le, JsNum.ge]
      | inf k => cases n <;> cases k <;> simp_all [JsNum.le, JsNum.ge]
  | inf m =>
    cases b with
    | nan => simp [JsNum.le, JsNum.ge] at h1
    | fin y =>
      cases c with
      | nan => simp [JsNum.le, JsNum.ge] at h2
      | fin z => cases m <;> simp_all [JsNum.le, JsNum.ge]
      | inf k => cases m <;> cases k <;> simp_all [JsNum.le, JsNum.ge]
    | inf n =>
      cases c with
      | nan => simp [JsNum.le, JsNum.ge] at h2
      | fin z => cases m <;> cases n <;> simp_all [JsNum.le, JsNum.ge]
      | inf k => cases m <;> cases n <;> cases k <;> simp_all [JsNum.le, JsNum.ge]

theorem insertByDistance_perm (x : RankedPark) (l : List RankedPark) :
    (insertByDistance x l).Perm (x :: l) := by
  induction l with
  | nil => exact List.Perm.refl _
  | cons y ys ih =>
    rw [insertByDistance]
    split
    · exact ((List.Perm.cons y ih).trans (List.Perm.swap x y ys))
    · exact List.Perm.refl _

theorem sortByDistance_perm (l : List RankedPark) : (sortByDistance l).Perm l := by
  induction l with
  | nil => exact List.Perm.refl _
  | cons x xs ih =>
    rw [sortByDistance]
    exact (insertByDistance_perm x _).trans (List.Perm.cons x ih)

theorem insertByDistance_pairwise (x : RankedPark) (hx : x.key ≠ .nan)
    (l : List RankedPark) (hl : ∀ y ∈ l, y.key ≠ .nan)
    (hs : l.Pairwise (fun a b => a.key.le b.key = true)) :
    (insertByDistance x l).Pairwise (fun a b => a.key.le b.key = true) := by
  induction l with
  | nil => simp [insertByDistance]
  | cons y ys ih =>
    have hy : y.key ≠ .nan := hl y (List.mem_cons_self _ _)
    have hys : ∀ z ∈ ys, z.key ≠ .nan := fun z hz => hl z (List.mem_cons_of_mem _ hz)
    rw [List.pairwise_cons] at hs
    rw [insertByDistance, isPositive_sub x.key y.key hx hy]
    by_cases hxy : x.key.le y.key = true
    · rw [hxy]
      simp only [Bool.not_true, Bool.false_eq_true, if_false]
      rw [List.pairwise_cons]
      refine ⟨?_, List.pairwise_cons.mpr hs⟩
      intro z hz
      rw [List.mem_cons] at hz
      rcases hz with rfl | hz
      · exact hxy
      · exact JsNum.le_trans_of_le _ _ _ hxy (hs.1 z hz)
    · have hxy' : x.key.le y.key = false := by simpa using hxy
      rw [hxy']
      simp only [Bool.not_false, if_true]
      rw [List.pairwise_cons]
      refine ⟨?_, ih hys hs.2⟩
      intro z hz
      have hz' := (insertByDistance_perm x ys).mem_iff.mp hz
      rw [List.mem_cons] at hz'
      rcases hz' with rfl | hz'
      · rcases JsNum.le_total_of_ne_nan z.key y.key hx hy with h | h
        · exact absurd h hxy
        · exact h
      · exact hs.1 z hz'

theorem sortByDistance_pairwise (l : List RankedPark) (hl : ∀ y ∈ l, y.key ≠ .nan) :
    (sortByDistance l).Pairwise (fun a b => a.key.le b.key = true) := by
  induction l with
  | nil => simp [sortByDistance]
  | cons x xs ih =>
    rw [sortByDistance]
    have hxs : ∀ y ∈ xs, y.key ≠ .nan := fun y hy => hl y (List.mem_cons_of_mem _ hy)
    exact insertByDistance_pairwise x (hl x (List.mem_cons_self _ _)) _
      (fun y hy => hxs y ((sortByDistance_perm xs).mem_iff.mp hy)) (ih hxs)

theorem sortByDistance_of_nan (l : List RankedPark) (hl : ∀ y ∈ l, y.key = .nan) :
    sortByDistance l = l := by
  induction l with
  | nil => rfl
  | cons x xs ih =>
    rw [sortByDistance, ih (fun y hy => hl y (List.mem_cons_of_mem _ hy))]
    cases xs with
    | nil => rfl
    | cons y ys =>
      rw [insertByDistance, hl x (List.mem_cons_self _ _)]
      have h : (JsNum.nan - y.key).isPositive = false := by
        show (JsNum.sub .nan y.key).isPositive = false
        simp [JsNum.sub, JsNum.add, JsNum.isPositive]
      rw [h]
      rfl

theorem getNearestParks_some (M : MathFns) (B : Builtins) (loc : LatLng)
    (parks : List Park) (limit : Nat) :
    getNearestParks M B (some loc) parks limit
      = (sortByDistance (parks.map
          (fun park => { park := park, distance := some (distanceTo M B loc park) }))).take
          limit := by
  cases parks with
  | nil => simp [getNearestParks, sortByDistance]
  | cons p ps => simp [getNearestParks]

theorem map_park_withDistance (f : Park → Option JsNum) (parks : List Park) :
    (parks.map (fun park => ({ park := park, distance := f park } : RankedPark))).map
      RankedPark.park = parks := by
  induction parks with
  | nil => rfl
  | cons p ps ih => simpa using ih

theorem getNearestParks_parks_subperm (M : MathFns) (B : Builtins)
    (userLocation : Option LatLng) (parks : List Park) (limit : Nat) :
    ((getNearestParks M B userLocation parks limit).map RankedPark.park).Subperm parks := by
  cases userLocation with
  | none =>
    have h : (getNearestParks M B none parks limit).map RankedPark.park = parks.take limit := by
      simp only [getNearestParks]
      exact map_park_withDistance (fun _ => none) _
    rw [h]
    exact (List.take_sublist _ _).subperm
  | some loc =>
    rw [getNearestParks_some, List.map_take]
    refine (List.take_sublist _ _).subperm.trans (List.Perm.subperm ?_)
    have h := (sortByDistance_perm (parks.map
      (fun park => { park := park, distance := some (distanceTo M B loc park) }))).map
      RankedPark.park
    rwa [map_park_withDistance] at h

/-- C16: without a reference point `getNearestParks` returns the first `limit` parks of its
input in input order and writes no distance on any of them; the card of such a park, when
the park has no property `distance` of its own, reads 'Distance unknown'. -/
theorem getNearestParks_no_location (M : MathFns) (B : Builtins) (parks : List Park)
    (limit : Nat) :
    (getNearestParks M B none parks limit).map RankedPark.park = parks.take limit ∧
    (∀ rp ∈ getNearestParks M B none parks limit, rp.distance = none) ∧
    (∀ rp ∈ getNearestParks M B none parks limit,
      lookupProp "distance" rp.park.spread = .undefined →
        distanceLine B rp = .ok "Distance unknown") := by
  have hd : ∀ rp ∈ getNearestParks M B none parks limit, rp.distance = none := by
    intro rp hrp
    simp only [getNearestParks, List.mem_map] at hrp
    obtain ⟨p, -, rfl⟩ := hrp
    rfl
  refine ⟨?_, hd, ?_⟩
  · simp only [getNearestParks]
    exact map_park_withDistance (fun _ => none) _
  · intro rp hrp hu
    simp only [distanceLine, RankedPark.distanceProp, hd rp hrp, hu]

theorem getNearestParks_no_location_witness :
    (getNearestParks refMath refBuiltins none loadSampleData 2).map
        (fun a => distanceLine refBuiltins a)
      = [.ok "Distance unknown", .ok "Distance unknown"] ∧
    rankedNames refBuiltins (getNearestParks refMath refBuiltins none loadSampleData 2)
      = ["South Bank Parklands", "New Farm Park Off-Leash Area"] := by
  refine ⟨?_, by decide⟩
  have h := (getNearestParks_no_location refMath refBuiltins loadSampleData 2).2.2
  have h0 := h { park := loadSampleData.get ⟨0, by decide⟩, distance := none }
    (by simp [getNearestParks, loadSampleData]) (by rfl)
  have h1 := h { park := loadSampleData.get ⟨1, by decide⟩, distance := none }
    (by simp [getNearestParks, loadSampleData]) (by rfl)
  show [distanceLine refBuiltins { park := loadSampleData.get ⟨0, by decide⟩, distance := none },
    distanceLine refBuiltins { park := loadSampleData.get ⟨1, by decide⟩, distance := none }]
      = _
  rw [h0, h1]

/-- C15: with the reference `Math`, `getNearestParks` applied to the five parks of
`loadSampleData`, the reference point lat -27.4698, lng 153.0251 and the limit 1 returns
one park, 'South Bank Parklands' (at 0.6 km). -/
theorem getNearestParks_sample_nearest :
    (getNearestParks refMath refBuiltins (some brisbaneCentre) loadSampleData 1).length = 1 ∧
    rankedNames refBuiltins
        (getNearestParks refMath refBuiltins (some brisbaneCentre) loadSampleData 1)
      = ["South Bank Parklands"] ∧
    (getNearestParks refMath refBuiltins (some brisbaneCentre) loadSampleData 1).map
        RankedPark.distance
      = [some (.fin (mkRat 6 10))] := by
  decide!

/-- C18: `getNearestParks` leaves the array `parks` as it was, and the parks it returns are
distinct elements of `parks`, each unchanged: the list of returned parks, the distance
written on them set aside, is a sublist of a permutation of the input. -/
theorem getNearestParks_frame (M : MathFns) (B : Builtins) (userLocation : Option LatLng)
    (parks : List Park) (limit : Nat) :
    (getNearestParksRun M B userLocation parks limit).1.parks = parks ∧
    (getNearestParksRun M B userLocation parks limit).2
      = getNearestParks M B userLocation parks limit ∧
    ((getNearestParks M B userLocation parks limit).map RankedPark.park).Subperm parks ∧
    (∀ rp ∈ getNearestParks M B userLocation parks limit, rp.park ∈ parks) := by
  have hs := getNearestParks_parks_subperm M B userLocation parks limit
  refine ⟨?_, ?_, hs, ?_⟩
  · cases userLocation with
    | none => rfl
    | some loc =>
      simp only [getNearestParksRun]
      split <;> rfl
  · cases userLocation with
    | none => rfl
    | some loc =>
      simp only [getNearestParksRun, getNearestParks]
      split <;> rfl
  · intro rp hrp
    exact hs.subset (List.mem_map_of_mem _ hrp)

theorem JsNum.sub_not_finite (x y : JsNum) (h : y.isFinite = false) :
    (x - y).isFinite = false := by
  show (JsNum.sub x y).isFinite = false
  cases x with
  | nan => cases y <;> simp [JsNum.sub, JsNum.neg, JsNum.add, JsNum.isFinite]
  | fin a => cases y <;> simp_all [JsNum.sub, JsNum.neg, JsNum.add, JsNum.isFinite]
  | inf m =>
    cases y with
    | nan => simp [JsNum.sub, JsNum.neg, JsNum.add, JsNum.isFinite]
    | fin b => simp [JsNum.isFinite] at h
    | inf n =>
      simp only [JsNum.sub, JsNum.neg, JsNum.add]
      split <;> rfl

theorem JsNum.mul_not_finite (x y : JsNum) (h : x.isFinite = false) :
    (x * y).isFinite = false := by
  show (JsNum.mul x y).isFinite = false
  cases x with
  | nan => cases y <;> simp [JsNum.mul, JsNum.isFinite]
  | fin a => simp [JsNum.isFinite] at h
  | inf m =>
    cases y with
    | nan => simp [JsNum.mul, JsNum.isFinite]
    | fin b =>
      simp only [JsNum.mul]
      split <;> rfl
    | inf n => simp [JsNum.mul, JsNum.isFinite]

theorem JsNum.div_not_finite (x : JsNum) (n : Nat) (h : x.isFinite = false) :
    (x / (OfNat.ofNat n : JsNum)).isFinite = false := by
  show (JsNum.div x (.fin n)).isFinite = false
  cases x with
  | nan => simp [JsNum.div, JsNum.isFinite]
  | fin a => simp [JsNum.isFinite] at h
  | inf m => simp [JsNum.div, JsNum.isFinite]

theorem JsNum.mul_nan (x : JsNum) : x * JsNum.nan = JsNum.nan := by
  show JsNum.mul x .nan = .nan
  cases x <;> rfl

theorem JsNum.nan_mul (x : JsNum) : JsNum.nan * x = JsNum.nan := by
  show JsNum.mul .nan x = .nan
  cases x <;> rfl

theorem JsNum.add_nan (x : JsNum) : x + JsNum.nan = JsNum.nan := by
  show JsNum.add x .nan = .nan
  cases x <;> rfl

theorem JsNum.nan_add (x : JsNum) : JsNum.nan + x = JsNum.nan := by
  show JsNum.add .nan x = .nan
  cases x <;> rfl

theorem haversineKm_of_not_finite (M : MathFns) (pos1 pos2 : LatLng)
    (hsin : ∀ x : JsNum, x.isFinite = false → M.sin x = .nan)
    (hsqrt : M.sqrt .nan = .nan) (hatan : ∀ x, M.atan2 .nan x = .nan)
    (hloc : pos1.lat.isFinite = false ∨ pos1.lng.isFinite = false) :
    haversineKm M pos1 pos2 = .nan := by
  have ha : M.sin ((pos2.lat - pos1.lat) * M.PI / 180 / 2) * M.sin ((pos2.lat - pos1.lat) * M.PI / 180 / 2) +
      M.cos (pos1.lat * M.PI / 180) * M.cos (pos2.lat * M.PI / 180) *
        M.sin ((pos2.lng - pos1.lng) * M.PI / 180 / 2) * M.sin ((pos2.lng - pos1.lng) * M.PI / 180 / 2) = .nan := by
    rcases hloc with h | h
    · rw [hsin _ (JsNum.div_not_finite _ 2 (JsNum.div_not_finite _ 180
        (JsNum.mul_not_finite _ _ (JsNum.sub_not_finite _ _ h))))]
      rw [JsNum.nan_mul, JsNum.nan_add]
    · rw [hsin ((pos2.lng - pos1.lng) * M.PI / 180 / 2) (JsNum.div_not_finite _ 2
        (JsNum.div_not_finite _ 180 (JsNum.mul_not_finite _ _ (JsNum.sub_not_finite _ _ h))))]
      rw [JsNum.mul_nan, JsNum.add_nan]
  simp only [haversineKm]
  rw [ha, hsqrt, hatan, JsNum.mul_nan, JsNum.mul_nan]

theorem distanceTo_of_not_finite (M : MathFns) (B : Builtins) (loc : LatLng) (park : Park)
    (hsin : ∀ x : JsNum, x.isFinite = false → M.sin x = .nan)
    (hsqrt : M.sqrt .nan = .nan) (hatan : ∀ x, M.atan2 .nan x = .nan)
    (hparse : B.parseFloatStr "NaN" = .nan)
    (hloc : loc.lat.isFinite = false ∨ loc.lng.isFinite = false) :
    distanceTo M B loc park = .nan := by
  simp only [distanceTo, calculateDistance,
    haversineKm_of_not_finite M loc (parkLocation park) hsin hsqrt hatan hloc, toFixed1,
    parseFloat, toStr, hparse]

theorem take_map_comm {α β : Type} (f : α → β) (l : List α) (n : Nat) :
    (l.map f).take n = (l.take n).map f := (List.map_take f l n).symm

/-- C17, a run of the code: a reference point whose latitude is `NaN` is not rejected, the
returned parks carry the distance `NaN`; a reference point of latitude 200 is ranked like
any other, the park returned for the limit 1 is not the first of the input. -/
theorem getNearestParks_invalid_reference :
    (getNearestParks refMath refBuiltins (some nanReference) loadSampleData 2).map
        RankedPark.distance
      = [some .nan, some .nan] ∧
    rankedNames refBuiltins
        (getNearestParks refMath refBuiltins (some farReference) loadSampleData 1)
      = ["Kangaroo Point Cliffs Park"] ∧
    rankedNames refBuiltins (getNearestParks refMath refBuiltins none loadSampleData 1)
      = ["South Bank Parklands"] := by
  decide!

/-- C17, amended: when the latitude or the longitude of the reference point is not finite
and `Math` and `parseFloat` let `NaN` through as the language prescribes, `getNearestParks`
returns the first `limit` parks in input order, each with the distance `NaN`. -/
theorem getNearestParks_not_finite (M : MathFns) (B : Builtins) (loc : LatLng)
    (parks : List Park) (limit : Nat)
    (hsin : ∀ x : JsNum, x.isFinite = false → M.sin x = .nan)
    (hsqrt : M.sqrt .nan = .nan) (hatan : ∀ x, M.atan2 .nan x = .nan)
    (hparse : B.parseFloatStr "NaN" = .nan)
    (hloc : loc.lat.isFinite = false ∨ loc.lng.isFinite = false) :
    getNearestParks M B (some loc) parks limit
      = (parks.take limit).map (fun park => { park := park, distance := some .nan }) := by
  have hd : ∀ park, distanceTo M B loc park = .nan := fun park =>
    distanceTo_of_not_finite M B loc park hsin hsqrt hatan hparse hloc
  rw [getNearestParks_some]
  simp only [hd]
  rw [sortByDistance_of_nan, take_map_comm]
  intro y hy
  rw [List.mem_map] at hy
  obtain ⟨p, -, rfl⟩ := hy
  rfl

theorem getNearestParks_not_finite_witness :
    nanReference.lat.isFinite = false ∧
    refBuiltins.parseFloatStr "NaN" = .nan ∧
    getNearestParks refMath refBuiltins (some nanReference) loadSampleData 2
      = (loadSampleData.take 2).map (fun park => { park := park, distance := some .nan }) :=
  ⟨by decide, by decide,
   getNearestParks_not_finite refMath refBuiltins nanReference loadSampleData 2
     (fun x hx => by cases x <;> first | rfl | cases hx)
     (by rfl) (fun x => by cases x <;> rfl) (by decide) (Or.inl (by decide))⟩

theorem key_of_distance (a : RankedPark) (d : JsNum) (h : a.distance = some d) :
    a.key = d := by
  simp [RankedPark.key, h]

/-- C14, a run of the code: of two parks at 0.64 km and 0.56 km from the reference point,
in this order, both at the rounded distance 0.6, `getNearestParks` with the limit 1 returns
the first one and omits the closer one. -/
theorem getNearestParks_rounded_tie :
    botanicThenSouthBank.map (fun p => toStr refBuiltins p.name)
      = ["City Botanic Gardens", "South Bank Parklands"] ∧
    botanicThenSouthBank.map (fun p =>
        (JsNum.le (.fin (mkRat 64 100)) (haversineKm refMath brisbaneCentre (parkLocation p)),
          JsNum.le (haversineKm refMath brisbaneCentre (parkLocation p)) (.fin (mkRat 56 100))))
      = [(true, false), (false, true)] ∧
    botanicThenSouthBank.map (distanceTo refMath refBuiltins brisbaneCentre)
      = [.fin (mkRat 6 10), .fin (mkRat 6 10)] ∧
    rankedNames refBuiltins
        (getNearestParks refMath refBuiltins (some brisbaneCentre) botanicThenSouthBank 1)
      = ["City Botanic Gardens"] := by
  decide!

/-- C14, amended: for a reference point from which no distance comes out as `NaN`,
`getNearestParks` returns `min limit parks.length` parks, each with the distance computed
by `calculateDistance` (the haversine distance rounded to one decimal), in ascending order
of that rounded distance, and no omitted park has a smaller rounded distance than a
returned one. -/
theorem getNearestParks_sorted (M : MathFns) (B : Builtins) (loc : LatLng)
    (parks : List Park) (limit : Nat)
    (h : ∀ p ∈ parks, distanceTo M B loc p ≠ .nan) :
    (getNearestParks M B (some loc) parks limit).length = min limit parks.length ∧
    (∀ rp ∈ getNearestParks M B (some loc) parks limit,
      rp.distance = some (distanceTo M B loc rp.park) ∧
      distanceTo M B loc rp.park
        = parseFloat B (.str (toFixed1 B (haversineKm M loc (parkLocation rp.park))))) ∧
    (getNearestParks M B (some loc) parks limit).Pairwise
      (fun a b => (distanceTo M B loc a.park).le (distanceTo M B loc b.park) = true) ∧
    ∃ rest : List Park,
      ((getNearestParks M B (some loc) parks limit).map RankedPark.park ++ rest).Perm parks ∧
      ∀ rp ∈ getNearestParks M B (some loc) parks limit, ∀ p ∈ rest,
        (distanceTo M B loc rp.park).le (distanceTo M B loc p) = true := by
  rw [getNearestParks_some]
  generalize hpwd : parks.map
    (fun park => ({ park := park, distance := some (distanceTo M B loc park) } : RankedPark))
    = pwd
  have hmem : ∀ y ∈ pwd, y.distance = some (distanceTo M B loc y.park) ∧ y.park ∈ parks := by
    intro y hy
    rw [← hpwd, List.mem_map] at hy
    obtain ⟨p, hp, rfl⟩ := hy
    exact ⟨rfl, hp⟩
  have hperm := sortByDistance_perm pwd
  have hkey : ∀ y ∈ sortByDistance pwd, y.key = distanceTo M B loc y.park := fun y hy =>
    key_of_distance y _ (hmem y (hperm.mem_iff.mp hy)).1
  have hsorted : (sortByDistance pwd).Pairwise
      (fun a b => (distanceTo M B loc a.park).le (distanceTo M B loc b.park) = true) := by
    refine (sortByDistance_pairwise pwd ?_).imp_of_mem ?_
    · intro y hy
      rw [key_of_distance y _ (hmem y hy).1]
      exact h _ (hmem y hy).2
    · intro a b ha hb hab
      rwa [hkey a ha, hkey b hb] at hab
  have hmap : ((sortByDistance pwd).map RankedPark.park).Perm parks := by
    have := hperm.map RankedPark.park
    rwa [← hpwd, map_park_withDistance, hpwd] at this
  refine ⟨?_, ?_, ?_, (List.drop limit (sortByDistance pwd)).map RankedPark.park, ?_, ?_⟩
  · rw [List.length_take, hperm.length_eq, ← hpwd, List.length_map]
  · intro rp hrp
    exact ⟨(hmem rp (hperm.mem_iff.mp (List.mem_of_mem_take hrp))).1, rfl⟩
  · exact hsorted.sublist (List.take_sublist _ _)
  · rw [← List.map_append, List.take_append_drop]
    exact hmap
  · intro rp hrp p hp
    rw [List.mem_map] at hp
    obtain ⟨q, hq, rfl⟩ := hp
    have hs := hsorted
    rw [← List.take_append_drop limit (sortByDistance pwd), List.pairwise_append] at hs
    exact hs.2.2 rp hrp q hq

theorem getNearestParks_sorted_witness :
    (∀ p ∈ loadSampleData, distanceTo refMath refBuiltins brisbaneCentre p ≠ .nan) ∧
    (getNearestParks refMath refBuiltins (some brisbaneCentre) loadSampleData 3).length = 3 ∧
    (getNearestParks refMath refBuiltins (some brisbaneCentre) loadSampleData 3).Pairwise
      (fun a b => (distanceTo refMath refBuiltins brisbaneCentre a.park).le
        (distanceTo refMath refBuiltins brisbaneCentre b.park) = true) ∧
    rankedNames refBuiltins
        (getNearestParks refMath refBuiltins (some brisbaneCentre) loadSampleData 3)
      = ["South Bank Parklands", "City Botanic Gardens", "Roma Street Parkland"] :=
  ⟨by decide!,
   (getNearestParks_sorted refMath refBuiltins brisbaneCentre loadSampleData 3
     (by decide!)).1,
   (getNearestParks_sorted refMath refBuiltins brisbaneCentre loadSampleData 3
     (by decide!)).2.2.1,
   by decide!⟩

/-! ### Tags of the mapped fields -/

theorem mem_spreadSet (x : String) (l : List String) : x ∈ spreadSet l ↔ x ∈ l := by
  unfold spreadSet
  suffices h : ∀ (l set : List String),
      x ∈ l.foldl (fun set y => if set.contains y then set else set ++ [y]) set
        ↔ x ∈ set ∨ x ∈ l by
    simpa using h l []
  intro l
  induction l with
  | nil => intro set; simp
  | cons y ys ih =>
    intro set
    rw [List.foldl_cons, ih]
    by_cases hy : set.contains y = true
    · rw [if_pos hy]
      have hy' : y ∈ set := by simpa using hy
      constructor
      · rintro (h | h)
        · exact Or.inl h
        · exact Or.inr (List.mem_cons_of_mem _ h)
      · rintro (h | h)
        · exact Or.inl h
        · rw [List.mem_cons] at h
          rcases h with rfl | h
          · exact Or.inl hy'
          · exact Or.inr h
    · rw [if_neg hy]
      simp only [List.mem_append, List.mem_singleton, List.mem_cons]
      tauto

theorem truthy_of_extractCoordinates (B : Builtins) (fields c : JsVal)
    (h : extractCoordinates B fields = some c) : truthy fields = true := by
  unfold extractCoordinates at h
  split at h
  · cases h
  · rename_i ht
    simpa using ht

theorem extractParkData_some_fields (B : Builtins) (item : JsVal) (index : Nat)
    (type : String) (isOffLeash : Bool) (p : Park)
    (h : extractParkData B item index type isOffLeash = .ok (some p)) :
    truthy (fieldBag item) = true ∧
    p.name = jsOr ((fieldBag item).get "park_name") (jsOr ((fieldBag item).get "name")
      (jsOr ((fieldBag item).get "facility_name") (jsOr ((fieldBag item).get "site_name")
        (jsOr ((fieldBag item).get "title") (.str (type ++ " " ++ toString (index + 1))))))) ∧
    p.facilities
      = augmentFacilities B (fieldBag item) (extractFacilities B (fieldBag item)) := by
  unfold extractParkData at h
  split at h
  · cases h
  · dsimp only at h
    split at h
    · cases h
    · rename_i c hc
      have ht := truthy_of_extractCoordinates B _ c hc
      split at h
      · cases h
      · simp only [Except.ok.injEq, Option.some.injEq] at h
        subst h
        refine ⟨ht, rfl, ?_⟩
        simp only [ht, if_true]

theorem mem_scanKeyword (value : JsVal) (lowerKey lowerValue : String) (acc : List String)
    (entry : String × String) (x : String)
    (h : x ∈ scanKeyword value lowerKey lowerValue acc entry) : x ∈ acc ∨ x = entry.2 := by
  unfold scanKeyword at h
  split at h
  · split at h
    · simpa using h
    · exact Or.inl h
  · exact Or.inl h

theorem foldl_mem_tags {α : Type} (f : List String → α → List String) (T : List String)
    (hf : ∀ acc a x, x ∈ f acc a → x ∈ acc ∨ x ∈ T) (l : List α) (init : List String)
    (x : String) (h : x ∈ l.foldl f init) : x ∈ init ∨ x ∈ T := by
  induction l generalizing init with
  | nil => exact Or.inl h
  | cons a as ih =>
    rw [List.foldl_cons] at h
    rcases ih _ h with h1 | h1
    · exact hf _ _ _ h1
    · exact Or.inr h1

theorem foldl_mem_map {α : Type} (f : List String → α → List String) (g : α → String)
    (hf : ∀ acc a x, x ∈ f acc a → x ∈ acc ∨ x = g a) (l : List α) (init : List String)
    (x : String) (h : x ∈ l.foldl f init) : x ∈ init ∨ x ∈ l.map g := by
  induction l generalizing init with
  | nil => exact Or.inl h
  | cons a as ih =>
    rw [List.foldl_cons] at h
    rcases ih _ h with h1 | h1
    · rcases hf _ _ _ h1 with h2 | h2
      · exact Or.inl h2
      · exact Or.inr (by simp [h2])
    · exact Or.inr (List.mem_cons_of_mem _ h1)

theorem mem_scanField (B : Builtins) (fields : JsVal) (acc : List String) (key x : String)
    (h : x ∈ scanField B fields acc key) :
    x ∈ acc ∨ x ∈ facilityMappings.map Prod.snd := by
  unfold scanField at h
  exact foldl_mem_map _ Prod.snd (fun acc e x hx => mem_scanKeyword _ _ _ acc e x hx) _ _ x h

theorem mem_scanTextField (B : Builtins) (fields : JsVal) (acc : List String)
    (fieldName x : String) (h : x ∈ scanTextField B fields acc fieldName) :
    x ∈ acc ∨ x ∈ facilityMappings.map Prod.snd := by
  unfold scanTextField at h
  split at h
  · dsimp only at h
    split at h
    · refine foldl_mem_map _ Prod.snd ?_ _ _ x h
      intro acc e y hy
      split at hy
      · simpa using hy
      · exact Or.inl hy
    · exact Or.inl h
  · exact Or.inl h

theorem mem_extractFacilities (B : Builtins) (fields : JsVal) (x : String)
    (h : x ∈ extractFacilities B fields) :
    x = "Dog Friendly" ∨ x ∈ facilityMappings.map Prod.snd := by
  unfold extractFacilities at h
  split at h
  · simp at h
  · dsimp only at h
    rw [mem_spreadSet] at h
    rcases foldl_mem_tags _ _ (fun acc a x hx => mem_scanTextField B fields acc a x hx)
      _ _ x h with h1 | h1
    · rcases foldl_mem_tags _ _ (fun acc a x hx => mem_scanField B fields acc a x hx)
        _ _ x h1 with h2 | h2
      · exact Or.inl (by simpa using h2)
      · exact Or.inr h2
    · exact Or.inr h1

theorem mem_augmentFacilities (B : Builtins) (f : JsVal) (l : List String) (x : String) :
    x ∈ augmentFacilities B f l ↔
      x ∈ l ∨
      (x = "Night Lighting" ∧
        (isYes B (f.get "LIGHTING") || isYes B (f.get "lighting")) = true) ∨
      (x = "Fencing" ∧
        ∃ t, (if isUndefined (f.get "FENCING") then f.get "fencing" else f.get "FENCING")
            = .str t ∧ B.toLowerCase (trim t) = "fully fenced") ∨
      (x = "SMALL DOG ENCLOSURE" ∧
        (isYes B (f.get "SMALL_DOG_ENCLOSURE") || isYes B (f.get "small_dog_enclosure"))
          = true) ∨
      (x = "DOG AGILITY EQUIPMENT" ∧
        (isYes B (f.get "DOG_AGILITY_EQUIPMENT") || isYes B (f.get "dog_agility_equipment"))
          = true) := by
  have hfv : (if (!isUndefined (f.get "FENCING")) = true then f.get "FENCING"
      else f.get "fencing")
      = (if isUndefined (f.get "FENCING") then f.get "fencing" else f.get "FENCING") := by
    cases isUndefined (f.get "FENCING") <;> rfl
  unfold augmentFacilities
  simp only [hfv]
  generalize (if isUndefined (f.get "FENCING") then f.get "fencing" else f.get "FENCING") = fv
  generalize (isYes B (f.get "LIGHTING") || isYes B (f.get "lighting")) = b1
  generalize (isYes B (f.get "SMALL_DOG_ENCLOSURE") || isYes B (f.get "small_dog_enclosure"))
    = b3
  generalize (isYes B (f.get "DOG_AGILITY_EQUIPMENT")
    || isYes B (f.get "dog_agility_equipment")) = b4
  cases fv with
  | str t =>
    by_cases ht : B.toLowerCase (trim t) = "fully fenced"
    · cases b1 <;> cases b3 <;> cases b4 <;> simp [ht]
    · cases b1 <;> cases b3 <;> cases b4 <;> simp [ht]
  | _ => cases b1 <;> cases b3 <;> cases b4 <;> simp

/-- C22: the park returned by `extractParkData` carries `Fencing` exactly when the fencing
value (`FENCING`, or `fencing` when `FENCING` is undefined) is a string whose trimmed,
lower-cased form is `fully fenced`; the value `Partially Fenced` gives no tag. -/
theorem extractParkData_fencing (B : Builtins) (item : JsVal) (index : Nat) (type : String)
    (isOffLeash : Bool) (p : Park)
    (h : extractParkData B item index type isOffLeash = .ok (some p)) :
    ("Fencing" ∈ p.facilities ↔
      ∃ t, (if isUndefined ((fieldBag item).get "FENCING") then (fieldBag item).get "fencing"
          else (fieldBag item).get "FENCING") = .str t ∧
        B.toLowerCase (trim t) = "fully fenced") ∧
    (B.toLowerCase "Partially Fenced" ≠ "fully fenced" →
      (if isUndefined ((fieldBag item).get "FENCING") then (fieldBag item).get "fencing"
          else (fieldBag item).get "FENCING") = .str "Partially Fenced" →
      "Fencing" ∉ p.facilities) := by
  have hiff : "Fencing" ∈ p.facilities ↔
      ∃ t, (if isUndefined ((fieldBag item).get "FENCING") then (fieldBag item).get "fencing"
          else (fieldBag item).get "FENCING") = .str t ∧
        B.toLowerCase (trim t) = "fully fenced" := by
    rw [(extractParkData_some_fields B item index type isOffLeash p h).2.2,
      mem_augmentFacilities]
    constructor
    · rintro (h1 | h1 | h1 | h1 | h1)
      · rcases mem_extractFacilities B _ _ h1 with h2 | h2
        · exact absurd h2 (by decide)
        · exact absurd h2 (by decide)
      · exact absurd h1.1 (by decide)
      · exact h1.2
      · exact absurd h1.1 (by decide)
      · exact absurd h1.1 (by decide)
    · intro h1
      exact Or.inr (Or.inr (Or.inl ⟨rfl, h1⟩))
  refine ⟨hiff, ?_⟩
  intro hl hv hmem
  obtain ⟨t, ht, hf⟩ := hiff.mp hmem
  rw [hv] at ht
  cases ht
  exact hl hf

theorem extractParkData_fencing_witness :
    "Fencing" ∉ (parkOf refBuiltins (flagRecord "FENCING" (.str "Partially Fenced")) 0
      "off-leash" true).facilities ∧
    "Fencing" ∈ (parkOf refBuiltins (flagRecord "fencing" (.str " Fully FENCED ")) 0
      "off-leash" true).facilities :=
  ⟨(extractParkData_fencing refBuiltins (flagRecord "FENCING" (.str "Partially Fenced")) 0
      "off-leash" true _ rfl).2 (by decide) rfl,
   (extractParkData_fencing refBuiltins (flagRecord "fencing" (.str " Fully FENCED ")) 0
      "off-leash" true _ rfl).1.mpr ⟨" Fully FENCED ", rfl, by decide⟩⟩

/-- C24: the park returned by `extractParkData` carries `SMALL DOG ENCLOSURE` exactly when
`isYes` holds of the field `SMALL_DOG_ENCLOSURE` or of `small_dog_enclosure`, and
`DOG AGILITY EQUIPMENT` exactly when `isYes` holds of `DOG_AGILITY_EQUIPMENT` or of
`dog_agility_equipment`: the two tags depend on no other field. -/
theorem extractParkData_enclosure_agility (B : Builtins) (item : JsVal) (index : Nat)
    (type : String) (isOffLeash : Bool) (p : Park)
    (h : extractParkData B item index type isOffLeash = .ok (some p)) :
    ("SMALL DOG ENCLOSURE" ∈ p.facilities ↔
      (isYes B ((fieldBag item).get "SMALL_DOG_ENCLOSURE")
        || isYes B ((fieldBag item).get "small_dog_enclosure")) = true) ∧
    ("DOG AGILITY EQUIPMENT" ∈ p.facilities ↔
      (isYes B ((fieldBag item).get "DOG_AGILITY_EQUIPMENT")
        || isYes B ((fieldBag item).get "dog_agility_equipment")) = true) := by
  rw [(extractParkData_some_fields B item index type isOffLeash p h).2.2,
    mem_augmentFacilities, mem_augmentFacilities]
  constructor
  · constructor
    · rintro (h1 | h1 | h1 | h1 | h1)
      · rcases mem_extractFacilities B _ _ h1 with h2 | h2
        · exact absurd h2 (by decide)
        · exact absurd h2 (by decide)
      · exact absurd h1.1 (by decide)
      · exact absurd h1.1 (by decide)
      · exact h1.2
      · exact absurd h1.1 (by decide)
    · intro h1
      exact Or.inr (Or.inr (Or.inr (Or.inl ⟨rfl, h1⟩)))
  · constructor
    · rintro (h1 | h1 | h1 | h1 | h1)
      · rcases mem_extractFacilities B _ _ h1 with h2 | h2
        · exact absurd h2 (by decide)
        · exact absurd h2 (by decide)
      · exact absurd h1.1 (by decide)
      · exact absurd h1.1 (by decide)
      · exact absurd h1.1 (by decide)
      · exact h1.2
    · intro h1
      exact Or.inr (Or.inr (Or.inr (Or.inr ⟨rfl, h1⟩)))

theorem extractParkData_enclosure_agility_witness :
    (parkOf refBuiltins (flagRecord "SMALL_DOG_ENCLOSURE" (.str "Yes")) 0 "off-leash"
      true).facilities = ["Dog Friendly", "SMALL DOG ENCLOSURE"] ∧
    "SMALL DOG ENCLOSURE" ∈ (parkOf refBuiltins (flagRecord "SMALL_DOG_ENCLOSURE" (.str "Yes"))
      0 "off-leash" true).facilities ∧
    "DOG AGILITY EQUIPMENT" ∉ (parkOf refBuiltins
      (flagRecord "SMALL_DOG_ENCLOSURE" (.str "Yes")) 0 "off-leash" true).facilities ∧
    "DOG AGILITY EQUIPMENT" ∈ (parkOf refBuiltins
      (flagRecord "dog_agility_equipment" (.num (.fin 1))) 0 "off-leash" true).facilities ∧
    "DOG AGILITY EQUIPMENT" ∉ (parkOf refBuiltins
      (flagRecord "description" (.str "dog agility equipment and a small dog enclosure")) 0
      "off-leash" true).facilities :=
  ⟨by decide,
   (extractParkData_enclosure_agility refBuiltins
      (flagRecord "SMALL_DOG_ENCLOSURE" (.str "Yes")) 0 "off-leash" true _ rfl).1.mpr
      (by decide),
   fun hm => absurd ((extractParkData_enclosure_agility refBuiltins
      (flagRecord "SMALL_DOG_ENCLOSURE" (.str "Yes")) 0 "off-leash" true _ rfl).2.mp hm)
      (by decide),
   (extractParkData_enclosure_agility refBuiltins
      (flagRecord "dog_agility_equipment" (.num (.fin 1))) 0 "off-leash" true _ rfl).2.mpr
      (by decide),
   fun hm => absurd ((extractParkData_enclosure_agility refBuiltins
      (flagRecord "description" (.str "dog agility equipment and a small dog enclosure")) 0
      "off-leash" true _ rfl).2.mp hm) (by decide)⟩

/-! ### The name of a park -/

theorem jsOr_chain_eq_find (vs : List JsVal) (d : JsVal) :
    vs.foldr jsOr d = (vs.find? truthy).getD d := by
  induction vs with
  | nil => rfl
  | cons v vs ih =>
    rw [List.foldr_cons, List.find?_cons, ih]
    unfold jsOr
    cases truthy v <;> rfl

theorem synthetic_name_ne_empty (type : String) (index : Nat) :
    type ++ " " ++ toString (index + 1) ≠ "" := by
  intro h
  have h1 := congrArg String.length h
  simp only [String.length_append] at h1
  have h2 : " ".length = 1 := by decide
  have h3 : "".length = 0 := by decide
  omega

/-- C21, a run of the code: a record whose `park_name` is the empty array `[]` and whose
`name` is a text.  The empty array is truthy, so it becomes the name of the park: the name
is not a string, its text is empty, and the field `name` is not used. -/
theorem extractParkData_array_name :
    ((extractParkData refBuiltins arrayNameRecord 0 "regular" false).toOption.join.map
        (fun p => (isArray p.name, toStr refBuiltins p.name)))
      = some (true, "") ∧
    toStr refBuiltins ((fieldBag arrayNameRecord).get "name") = "Riverside Park" := by
  decide

/-- C21, amended: the name of the park returned by `extractParkData` is the first truthy
value among the fields `park_name`, `name`, `facility_name`, `site_name`, `title`, taken as
it is, and the text `<type> <index+1>` when none is truthy.  The name is always truthy; it
is a string that is not empty as soon as each of the five fields is a string, `null` or
absent. -/
theorem extractParkData_name (B : Builtins) (item : JsVal) (index : Nat) (type : String)
    (isOffLeash : Bool) (p : Park)
    (h : extractParkData B item index type isOffLeash = .ok (some p)) :
    p.name = ((["park_name", "name", "facility_name", "site_name", "title"].map
        (fieldBag item).get).find? truthy).getD (.str (type ++ " " ++ toString (index + 1))) ∧
    truthy p.name = true ∧
    ((∀ k ∈ ["park_name", "name", "facility_name", "site_name", "title"],
        (∃ s, (fieldBag item).get k = .str s) ∨ isNullish ((fieldBag item).get k) = true) →
      ∃ s, p.name = .str s ∧ s ≠ "") := by
  have hn : p.name = ((["park_name", "name", "facility_name", "site_name", "title"].map
      (fieldBag item).get).find? truthy).getD
        (.str (type ++ " " ++ toString (index + 1))) := by
    rw [(extractParkData_some_fields B item index type isOffLeash p h).2.1,
      ← jsOr_chain_eq_find]
    rfl
  have hs : truthy (JsVal.str (type ++ " " ++ toString (index + 1))) = true := by
    simp only [truthy, decide_eq_true_eq]
    exact synthetic_name_ne_empty type index
  have ht : truthy p.name = true := by
    rw [hn]
    cases hf : (["park_name", "name", "facility_name", "site_name", "title"].map
      (fieldBag item).get).find? truthy with
    | none => exact hs
    | some v => exact List.find?_some hf
  refine ⟨hn, ht, ?_⟩
  intro hk
  have hcases : (∃ s, p.name = .str s) ∨ isNullish p.name = true := by
    rw [hn]
    cases hf : (["park_name", "name", "facility_name", "site_name", "title"].map
      (fieldBag item).get).find? truthy with
    | none => exact Or.inl ⟨_, rfl⟩
    | some v =>
      have hm := List.mem_of_find?_eq_some hf
      rw [List.mem_map] at hm
      obtain ⟨k, hk1, rfl⟩ := hm
      exact hk k hk1
  rcases hcases with ⟨s, hs1⟩ | hnull
  · refine ⟨s, hs1, ?_⟩
    rw [hs1] at ht
    simpa [truthy] using ht
  · cases hp : p.name <;> rw [hp] at ht hnull <;> simp_all [truthy, isNullish]

theorem extractParkData_name_witness :
    (parkOf refBuiltins riversideRecord 0 "regular" false).name = .str "Riverside Park" ∧
    (parkOf refBuiltins cornerRecord 4 "off-leash" true).name = .str "off-leash 5" :=
  ⟨(extractParkData_name refBuiltins riversideRecord 0 "regular" false _ rfl).1,
   (extractParkData_name refBuiltins cornerRecord 4 "off-leash" true _ rfl).1⟩

/-! ### The test `isYes` -/

/-- C23, a run of the code: `isYes` trims the string before comparing it, so it holds of
`' yes '` and of `'Y '`, which are not equal to `yes` or `y` ignoring case. -/
theorem isYes_untrimmed :
    isYes refBuiltins (.str " yes ") = true ∧
    refBuiltins.toLowerCase " yes " ≠ "yes" ∧
    isYes refBuiltins (.str "Y ") = true ∧
    refBuiltins.toLowerCase "Y " ≠ "y" := by
  decide

/-- C23, amended: `isYes` holds exactly of the boolean `true`, of the number 1, and of the
strings whose trimmed, lower-cased form is `y`, `yes`, `true` or `1`; it fails for `false`,
0, 2, `'n'`, `'no'`, `null`, `undefined` and objects. -/
theorem isYes_iff (B : Builtins) (v : JsVal) :
    (isYes B v = true ↔
      v = .bool true ∨ v = .num (.fin 1) ∨
      ∃ t, v = .str t ∧ B.toLowerCase (trim t) ∈ ["y", "yes", "true", "1"]) ∧
    isYes B (.bool false) = false ∧ isYes B (.num (.fin 0)) = false ∧
    isYes B (.num (.fin 2)) = false ∧ isYes B .null = false ∧ isYes B .undefined = false ∧
    isYes B (.obj []) = false ∧ isYes B (.arr [.bool true]) = false ∧
    isYes B (.num .nan) = false ∧
    isYes refBuiltins (.str "n") = false ∧ isYes refBuiltins (.str "no") = false ∧
    isYes refBuiltins (.str "TRUE") = true ∧ isYes refBuiltins (.str "maybe") = false := by
  refine ⟨?_, rfl, by simp [isYes, isTrueOrOne], by simp [isYes, isTrueOrOne], rfl, rfl,
    rfl, rfl, rfl, by decide, by decide, by decide, by decide⟩
  cases v with
  | bool b => cases b <;> simp [isYes, isTrueOrOne]
  | num n =>
    cases n with
    | fin q =>
      by_cases hq : q = 1
      · simp [isYes, isTrueOrOne, hq]
      · simp [isYes, isTrueOrOne, hq]
    | nan => simp [isYes, isTrueOrOne]
    | inf b => simp [isYes, isTrueOrOne]
  | str t => simp [isYes, isTrueOrOne, or_assoc]
  | undefined => simp [isYes, isTrueOrOne]
  | null => simp [isYes, isTrueOrOne]
  | arr xs => simp [isYes, isTrueOrOne]
  | obj ps => simp [isYes, isTrueOrOne]

/-! ### Records that make the run throw -/

/-- C26 (failing input): for the item `null` (and `undefined`) the read `item.record` in
`extractParkData` throws, and so does the same read in the water-fountain loop; a run of
`processParkData` with such an item ends by the throw, and `loadParkData` then drops the
parks already built for the sample data.  Every other item is answered by a park or by
`null`, and a nameless water-fountain record adds nothing. -/
theorem extractParkData_null_throws (B : Builtins) :
    (∀ (index : Nat) (type : String) (isOffLeash : Bool),
      extractParkData B .null index type isOffLeash = .error "TypeError" ∧
      extractParkData B .undefined index type isOffLeash = .error "TypeError") ∧
    (processParkData B [.null] [] (.arr [])).threw = true ∧
    (processParkData B [] [] (.arr [.null])).threw = true ∧
    ((processParkData refBuiltins [riversideRecord, .null] [] (.arr [])).threw = true ∧
      (processParkData refBuiltins [riversideRecord, .null] [] (.arr [])).allParks.length = 1 ∧
      (loadParkData refBuiltins [riversideRecord, .null] [] (.arr [])).map
          (fun p => toStr refBuiltins p.name)
        = loadSampleData.map (fun p => toStr refBuiltins p.name)) ∧
    (∀ (item : JsVal) (index : Nat) (type : String) (isOffLeash : Bool),
      isNullish item = false → ∃ r, extractParkData B item index type isOffLeash = .ok r) ∧
    (∀ set : List String, addFountainName B set (.obj []) = .ok set) := by
  refine ⟨fun _ _ _ => ⟨rfl, rfl⟩, rfl, rfl, by decide, ?_, ?_⟩
  · intro item index type isOffLeash h
    exact extractParkData_ok_of_not_nullish B item index type isOffLeash h
  · intro set
    rfl

/-! ### The lighting flag -/

/-- C27, a run of the code: a record whose only mention of lighting is the field `LIGHTING`
with the value `N` (or `no`, or `false`).  `isYes` fails for the value, but the key itself
contains the keyword `lighting`, so `extractFacilities` gives `Night Lighting`, and the
park passes the `nightLighting` filter. -/
theorem extractParkData_lighting_not_affirmed :
    isYes refBuiltins (.str "N") = false ∧
    (parkOf refBuiltins (flagRecord "LIGHTING" (.str "N")) 0 "off-leash" true).facilities
      = ["Dog Friendly", "Night Lighting"] ∧
    (parkOf refBuiltins (flagRecord "lighting" (.str "no")) 0 "off-leash" true).facilities
      = ["Dog Friendly", "Night Lighting"] ∧
    (parkOf refBuiltins (flagRecord "LIGHTING" (.bool false)) 0 "off-leash" true).facilities
      = ["Dog Friendly", "Night Lighting"] ∧
    extractFacilities refBuiltins (fieldBag (flagRecord "LIGHTING" (.str "N")))
      = ["Dog Friendly", "Night Lighting"] ∧
    (getFilteredParks
        [parkOf refBuiltins (flagRecord "LIGHTING" (.str "N")) 0 "off-leash" true]
        nightLightingOnly).length = 1 := by
  decide

/-! ### The generic scan -/

theorem scanKeyword_of_evidence (B : Builtins) (key : String) (value : JsVal)
    (acc : List String) (entry : String × String) :
    isEvidence B key value entry.1 →
    scanKeyword value (B.toLowerCase key)
        (match value with
          | .str s => B.toLowerCase s
          | _ => "") acc entry
      = acc ++ [entry.2] := by
  intro h
  unfold scanKeyword
  rcases h with h | ⟨s, rfl, h1, h2⟩
  · simp [h]
  · simp [h1, h2]

theorem scanKeyword_of_not_evidence (B : Builtins)
    (hyes : B.toLowerCase "yes" = "yes") (htrue : B.toLowerCase "true" = "true")
    (hone : B.toLowerCase "1" = "1") (key : String) (value : JsVal)
    (acc : List String) (entry : String × String) (he : entry ∈ facilityMappings) :
    ¬ isEvidence B key value entry.1 →
    scanKeyword value (B.toLowerCase key)
        (match value with
          | .str s => B.toLowerCase s
          | _ => "") acc entry
      = acc := by
  intro h
  have hk : includes (B.toLowerCase key) entry.1 = false := by
    cases hc : includes (B.toLowerCase key) entry.1 with
    | false => rfl
    | true => exact absurd (Or.inl hc) h
  have hempty : ∀ e ∈ facilityMappings, includes "" e.1 = false := by decide
  have htrue' : ∀ e ∈ facilityMappings, includes "true" e.1 = false := by decide
  have hone' : ∀ e ∈ facilityMappings, includes "1" e.1 = false := by decide
  unfold scanKeyword
  cases value with
  | str s =>
    dsimp only
    cases hv : includes (B.toLowerCase s) entry.1 with
    | false => simp [hk]
    | true =>
      have hy : includes (B.toLowerCase s) "yes" = false := by
        cases hc : includes (B.toLowerCase s) "yes" with
        | false => rfl
        | true => exact absurd (Or.inr ⟨s, rfl, hv, hc⟩) h
      have h1 : s ≠ "yes" := by
        rintro rfl
        rw [hyes] at hy
        exact absurd hy (by decide)
      have h2 : s ≠ "true" := by
        rintro rfl
        rw [htrue, htrue' entry he] at hv
        exact absurd hv (by decide)
      have h3 : s ≠ "1" := by
        rintro rfl
        rw [hone, hone' entry he] at hv
        exact absurd hv (by decide)
      simp [hk, hy, eqStr, isTrueOrOne, h1, h2, h3]
  | undefined => simp [hk, hempty entry he]
  | null => simp [hk, hempty entry he]
  | bool b => simp [hk, hempty entry he]
  | num n => simp [hk, hempty entry he]
  | arr xs => simp [hk, hempty entry he]
  | obj ps => simp [hk, hempty entry he]

theorem mem_foldl_of_mem {α : Type} (f : List String → α → List String)
    (hf : ∀ acc a x, x ∈ acc → x ∈ f acc a) (l : List α) (init : List String) (x : String)
    (h : x ∈ init) : x ∈ l.foldl f init :=
  foldl_preserves (fun acc => x ∈ acc) f (fun acc a hx => hf acc a x hx) l init h

theorem mem_foldl_of_step {α : Type} (f : List String → α → List String)
    (hf : ∀ acc a x, x ∈ acc → x ∈ f acc a) (l : List α) (init : List String) (x : String)
    (a : α) (ha : a ∈ l) (hstep : ∀ acc, x ∈ f acc a) : x ∈ l.foldl f init := by
  induction l generalizing init with
  | nil => cases ha
  | cons b bs ih =>
    rw [List.foldl_cons]
    rw [List.mem_cons] at ha
    rcases ha with rfl | ha
    · exact mem_foldl_of_mem f hf bs _ x (hstep init)
    · exact ih _ ha

theorem scanKeyword_mono (value : JsVal) (lowerKey lowerValue : String) (acc : List String)
    (entry : String × String) (x : String) (h : x ∈ acc) :
    x ∈ scanKeyword value lowerKey lowerValue acc entry := by
  unfold scanKeyword
  split
  · split
    · exact List.mem_append_left _ h
    · exact h
  · exact h

theorem scanField_mono (B : Builtins) (fields : JsVal) (acc : List String) (key x : String)
    (h : x ∈ acc) : x ∈ scanField B fields acc key := by
  unfold scanField
  exact mem_foldl_of_mem _ (fun acc e x hx => scanKeyword_mono _ _ _ acc e x hx) _ _ x h

theorem scanTextField_mono (B : Builtins) (fields : JsVal) (acc : List String)
    (fieldName x : String) (h : x ∈ acc) : x ∈ scanTextField B fields acc fieldName := by
  unfold scanTextField
  split
  · dsimp only
    split
    · refine mem_foldl_of_mem _ ?_ _ _ x h
      intro acc e y hy
      split
      · exact List.mem_append_left _ hy
      · exact hy
    · exact h
  · exact h

theorem scanField_of_evidence (B : Builtins) (fields : JsVal) (acc : List String)
    (key : String) (entry : String × String) (he : entry ∈ facilityMappings)
    (h : isEvidence B key (fields.get key) entry.1) :
    entry.2 ∈ scanField B fields acc key := by
  unfold scanField
  dsimp only
  refine mem_foldl_of_step _ (fun acc e x hx => scanKeyword_mono _ _ _ acc e x hx) _ _ _
    entry he ?_
  intro acc'
  have e := scanKeyword_of_evidence B key (fields.get key) acc' entry h
  exact (congrArg (fun l => entry.2 ∈ l) e).mpr (by simp)

/-- C25: in the key scan of `extractFacilities`, a field and a keyword of `facilityMappings`
make the scan push the mapped tag exactly when the field is evidence of the facility (its
key contains the keyword ignoring case, whatever its value, or its value is a string that
contains the keyword and `yes`); and when some field of the bag is such evidence, the
mapped tag is in the list that `extractFacilities` returns. -/
theorem extractFacilities_evidence (B : Builtins)
    (hyes : B.toLowerCase "yes" = "yes") (htrue : B.toLowerCase "true" = "true")
    (hone : B.toLowerCase "1" = "1") :
    (∀ (key : String) (value : JsVal) (acc : List String),
      ∀ entry ∈ facilityMappings,
        (isEvidence B key value entry.1 →
          scanKeyword value (B.toLowerCase key)
              (match value with
                | .str s => B.toLowerCase s
                | _ => "") acc entry
            = acc ++ [entry.2]) ∧
        (¬ isEvidence B key value entry.1 →
          scanKeyword value (B.toLowerCase key)
              (match value with
                | .str s => B.toLowerCase s
                | _ => "") acc entry
            = acc)) ∧
    (∀ fields : JsVal, truthy fields = true → isObjectType fields = true →
      ∀ key ∈ objectKeys fields, ∀ entry ∈ facilityMappings,
        isEvidence B key (fields.get key) entry.1 →
        entry.2 ∈ extractFacilities B fields) := by
  constructor
  · intro key value acc entry he
    exact ⟨scanKeyword_of_evidence B key value acc entry,
      scanKeyword_of_not_evidence B hyes htrue hone key value acc entry he⟩
  · intro fields ht ho key hkey entry he hev
    unfold extractFacilities
    rw [if_neg (by simp [ht, ho])]
    dsimp only
    rw [mem_spreadSet]
    refine mem_foldl_of_mem _ (fun acc a x hx => scanTextField_mono B fields acc a x hx) _ _ _ ?_
    exact mem_foldl_of_step _ (fun acc a x hx => scanField_mono B fields acc a x hx) _ _ _
      key hkey (fun acc => scanField_of_evidence B fields acc key entry he hev)

theorem extractFacilities_evidence_witness :
    isEvidence refBuiltins "LIGHTING" (.str "no") "lighting" ∧
    "Night Lighting" ∈ extractFacilities refBuiltins (flagRecord "LIGHTING" (.str "no")) ∧
    "Toilets" ∈ extractFacilities refBuiltins (flagRecord "notes" (.str "Toilet: YES")) ∧
    extractFacilities refBuiltins (flagRecord "notes" (.str "Toilet: no")) = ["Dog Friendly"] :=
  ⟨Or.inl (by decide),
   (extractFacilities_evidence refBuiltins (by decide) (by decide) (by decide)).2
     (flagRecord "LIGHTING" (.str "no")) (by decide) (by decide) "LIGHTING" (by decide)
     ("lighting", "Night Lighting") (by decide) (Or.inl (by decide)),
   (extractFacilities_evidence refBuiltins (by decide) (by decide) (by decide)).2
     (flagRecord "notes" (.str "Toilet: YES")) (by decide) (by decide) "notes" (by decide)
     ("toilet", "Toilets") (by decide) (Or.inr ⟨"Toilet: YES", rfl, by decide, by decide⟩),
   by decide⟩

/-! ### The tag `Night Lighting` -/

theorem isDigit_digitChar (n : Nat) (h : n < 10) : (Nat.digitChar n).isDigit = true := by
  interval_cases n <;> decide

theorem toDigitsCore_all_digits (fuel : Nat) :
    ∀ (n : Nat) (ds : List Char), (∀ c ∈ ds, c.isDigit = true) →
      ∀ c ∈ Nat.toDigitsCore 10 fuel n ds, c.isDigit = true := by
  induction fuel with
  | zero =>
    intro n ds hds c hc
    exact hds c hc
  | succ fuel ih =>
    intro n ds hds c hc
    have hd : ∀ c ∈ Nat.digitChar (n % 10) :: ds, c.isDigit = true := by
      intro c hc
      rw [List.mem_cons] at hc
      rcases hc with rfl | hc
      · exact isDigit_digitChar _ (Nat.mod_lt _ (by decide))
      · exact hds c hc
    simp only [Nat.toDigitsCore] at hc
    split at hc
    · exact hd c hc
    · exact ih _ _ hd c hc

theorem toString_nat_all_digits (i : Nat) : ∀ c ∈ (toString i).data, c.isDigit = true := by
  intro c hc
  exact toDigitsCore_all_digits _ i [] (by simp) c hc

theorem keyIndex_eq_none (k : String) (n : Nat) (c : Char) (hc : c ∈ k.data)
    (hd : c.isDigit = false) : keyIndex k n = none := by
  unfold keyIndex
  rw [List.find?_eq_none]
  intro i _
  simp only [decide_eq_true_eq]
  intro he
  have := toString_nat_all_digits i c (he ▸ hc)
  rw [hd] at this
  cases this

theorem get_str_eq_undefined (s k : String) (hl : k ≠ "length") (c : Char) (hc : c ∈ k.data)
    (hd : c.isDigit = false) : (JsVal.str s).get k = .undefined := by
  unfold JsVal.get
  simp only [hl, if_false, keyIndex_eq_none k s.length c hc hd]

theorem isObjectType_of_extractCoordinates (B : Builtins) (fields c : JsVal)
    (h : extractCoordinates B fields = some c) : isObjectType fields = true := by
  cases fields with
  | undefined => simp [extractCoordinates, truthy] at h
  | null => simp [extractCoordinates, truthy] at h
  | bool b => simp [extractCoordinates, JsVal.get, truthy, isPair, scanCoordFields, eqStr] at h
  | num n => simp [extractCoordinates, JsVal.get, truthy, isPair, scanCoordFields, eqStr] at h
  | str s =>
    have g : ∀ k : String, k ≠ "length" → (∃ c ∈ k.data, c.isDigit = false) →
        (JsVal.str s).get k = .undefined :=
      fun k hl ⟨c, hc, hd⟩ => get_str_eq_undefined s k hl c hc hd
    have g1 := g "geopoint" (by decide) ⟨'g', by decide, by decide⟩
    have g2 := g "geo_shape" (by decide) ⟨'g', by decide, by decide⟩
    have g3 := g "geometry" (by decide) ⟨'g', by decide, by decide⟩
    have g4 := g "location" (by decide) ⟨'l', by decide, by decide⟩
    have g5 := g "lat" (by decide) ⟨'l', by decide, by decide⟩
    have g6 := g "long" (by decide) ⟨'l', by decide, by decide⟩
    have g7 := g "latitude" (by decide) ⟨'l', by decide, by decide⟩
    have g8 := g "longitude" (by decide) ⟨'l', by decide, by decide⟩
    have g9 := g "lng" (by decide) ⟨'l', by decide, by decide⟩
    have g10 := g "coordinates" (by decide) ⟨'c', by decide, by decide⟩
    have g11 := g "coord" (by decide) ⟨'c', by decide, by decide⟩
    have g12 := g "position" (by decide) ⟨'p', by decide, by decide⟩
    have g13 := g "geo" (by decide) ⟨'g', by decide, by decide⟩
    have g14 := g "point" (by decide) ⟨'p', by decide, by decide⟩
    unfold extractCoordinates at h
    simp only [g1, g2, g3, g4, g5, g6, g7, g8, g9, g10, g11, g12, g13, g14, scanCoordFields,
      truthy, isPair, Bool.false_and, Bool.and_false, Bool.false_eq_true, if_false, ite_self]
      at h
    cases h
  | arr xs => rfl
  | obj ps => rfl

theorem mem_foldl_cases {α : Type} (f : List String → α → List String) (l : List α)
    (init : List String) (x : String) (h : x ∈ l.foldl f init) :
    x ∈ init ∨ ∃ a ∈ l, ∃ acc, x ∈ f acc a ∧ x ∉ acc := by
  induction l generalizing init with
  | nil => exact Or.inl h
  | cons a as ih =>
    rw [List.foldl_cons] at h
    rcases ih _ h with h1 | ⟨b, hb, acc, h2, h3⟩
    · by_cases hx : x ∈ init
      · exact Or.inl hx
      · exact Or.inr ⟨a, List.mem_cons_self _ _, init, h1, hx⟩
    · exact Or.inr ⟨b, List.mem_cons_of_mem _ hb, acc, h2, h3⟩

theorem scanField_new_tag (B : Builtins)
    (hyes : B.toLowerCase "yes" = "yes") (htrue : B.toLowerCase "true" = "true")
    (hone : B.toLowerCase "1" = "1") (fields : JsVal) (acc : List String) (key x : String)
    (h : x ∈ scanField B fields acc key) (hx : x ∉ acc) :
    ∃ entry ∈ facilityMappings, entry.2 = x ∧ isEvidence B key (fields.get key) entry.1 := by
  unfold scanField at h
  dsimp only at h
  rcases mem_foldl_cases _ _ _ x h with h1 | ⟨entry, he, acc', h2, h3⟩
  · exact absurd h1 hx
  · refine ⟨entry, he, ?_, ?_⟩
    · rcases mem_scanKeyword _ _ _ _ _ _ h2 with h4 | h4
      · exact absurd h4 h3
      · exact h4.symm
    · by_contra hne
      have e := scanKeyword_of_not_evidence B hyes htrue hone key (fields.get key) acc' entry
        he hne
      exact h3 ((congrArg (fun l => x ∈ l) e).mp h2)

theorem scanTextField_eq (B : Builtins) (fields : JsVal) (acc : List String)
    (fieldName : String) :
    scanTextField B fields acc fieldName
      = if truthy (fields.get fieldName) then
          if scannedText B (fields.get fieldName) ≠ "" then
            facilityMappings.foldl
              (fun acc entry =>
                if includes (scannedText B (fields.get fieldName)) entry.1 then
                  acc ++ [entry.2]
                else acc) acc
          else acc
        else acc := rfl

theorem scanTextField_new_tag (B : Builtins) (fields : JsVal) (acc : List String)
    (fieldName x : String) (h : x ∈ scanTextField B fields acc fieldName) (hx : x ∉ acc) :
    ∃ entry ∈ facilityMappings, entry.2 = x ∧ truthy (fields.get fieldName) = true ∧
      includes (scannedText B (fields.get fieldName)) entry.1 = true := by
  rw [scanTextField_eq] at h
  split at h
  · rename_i ht
    split at h
    · rcases mem_foldl_cases _ _ _ x h with h1 | ⟨entry, he, acc', h2, h3⟩
      · exact absurd h1 hx
      · split at h2
        · rename_i hinc
          refine ⟨entry, he, ?_, ht, hinc⟩
          rw [List.mem_append, List.mem_singleton] at h2
          rcases h2 with h4 | h4
          · exact absurd h4 h3
          · exact h4.symm
        · exact absurd h2 h3
    · exact absurd h hx
  · exact absurd h hx

theorem scanTextField_of_mention (B : Builtins) (fields : JsVal) (acc : List String)
    (fieldName : String) (entry : String × String) (he : entry ∈ facilityMappings)
    (ht : truthy (fields.get fieldName) = true)
    (hi : includes (scannedText B (fields.get fieldName)) entry.1 = true) :
    entry.2 ∈ scanTextField B fields acc fieldName := by
  have hempty : ∀ e ∈ facilityMappings, includes "" e.1 = false := by decide
  have hne : scannedText B (fields.get fieldName) ≠ "" := by
    intro h0
    rw [h0, hempty entry he] at hi
    cases hi
  rw [scanTextField_eq, if_pos ht, if_pos hne]
  refine mem_foldl_of_step _ ?_ _ _ _ entry he ?_
  · intro acc' e y hy
    split
    · exact List.mem_append_left _ hy
    · exact hy
  · intro acc'
    rw [if_pos hi]
    simp

theorem mem_extractFacilities_iff (B : Builtins)
    (hyes : B.toLowerCase "yes" = "yes") (htrue : B.toLowerCase "true" = "true")
    (hone : B.toLowerCase "1" = "1") (fields : JsVal) (ht : truthy fields = true)
    (ho : isObjectType fields = true) (entry : String × String)
    (he : entry ∈ facilityMappings) :
    entry.2 ∈ extractFacilities B fields ↔ mentionsKeyword B fields entry.1 := by
  have hinj : ∀ e ∈ facilityMappings, ∀ e' ∈ facilityMappings, e.2 = e'.2 → e.1 = e'.1 := by
    decide
  have hdog : ∀ e ∈ facilityMappings, e.2 ≠ "Dog Friendly" := by decide
  unfold extractFacilities
  rw [if_neg (by simp [ht, ho])]
  dsimp only
  rw [mem_spreadSet]
  constructor
  · intro h
    rcases mem_foldl_cases _ _ _ _ h with h1 | ⟨fieldName, hf, acc, h2, h3⟩
    · rcases mem_foldl_cases _ _ _ _ h1 with h4 | ⟨key, hk, acc, h5, h6⟩
      · rw [List.mem_singleton] at h4
        exact absurd h4 (hdog entry he)
      · obtain ⟨e', he', h7, h8⟩ := scanField_new_tag B hyes htrue hone fields acc key _ h5 h6
        rw [hinj e' he' entry he h7] at h8
        exact Or.inl ⟨key, hk, h8⟩
    · obtain ⟨e', he', h7, h8, h9⟩ := scanTextField_new_tag B fields acc fieldName _ h2 h3
      rw [hinj e' he' entry he h7] at h9
      exact Or.inr ⟨fieldName, hf, h8, h9⟩
  · rintro (⟨key, hk, hev⟩ | ⟨fieldName, hf, h8, h9⟩)
    · refine mem_foldl_of_mem _ (fun acc a x hx => scanTextField_mono B fields acc a x hx)
        _ _ _ ?_
      exact mem_foldl_of_step _ (fun acc a x hx => scanField_mono B fields acc a x hx) _ _ _
        key hk (fun acc => scanField_of_evidence B fields acc key entry he hev)
    · exact mem_foldl_of_step _ (fun acc a x hx => scanTextField_mono B fields acc a x hx)
        _ _ _ fieldName hf
        (fun acc => scanTextField_of_mention B fields acc fieldName entry he h8 h9)

/-- C27, amended: for every accepted record, the park carries `Night Lighting` exactly when the bag mentions the keyword `lighting` (a key contains it,
whatever the value; or a string value contains it and `yes`; or a text field contains it)
or the lighting flag is affirmed.  So a record with a field whose key contains `lighting`,
such as `LIGHTING`, carries the tag whatever the value of the field, and the
`nightLighting` filter keeps the park exactly when it carries the tag. -/
theorem extractParkData_night_lighting (B : Builtins)
    (hyes : B.toLowerCase "yes" = "yes") (htrue : B.toLowerCase "true" = "true")
    (hone : B.toLowerCase "1" = "1") (item : JsVal) (index : Nat) (type : String)
    (isOffLeash : Bool) (p : Park)
    (h : extractParkData B item index type isOffLeash = .ok (some p)) :
    ("Night Lighting" ∈ p.facilities ↔
      mentionsKeyword B (fieldBag item) "lighting" ∨
      (isYes B ((fieldBag item).get "LIGHTING")
        || isYes B ((fieldBag item).get "lighting")) = true) ∧
    (∀ key ∈ objectKeys (fieldBag item), includes (B.toLowerCase key) "lighting" = true →
      "Night Lighting" ∈ p.facilities) ∧
    (getFilteredParks [p] nightLightingOnly = [p] ↔ "Night Lighting" ∈ p.facilities) := by
  obtain ⟨ht, -, hfac⟩ := extractParkData_some_fields B item index type isOffLeash p h
  obtain ⟨-, c, hc, -⟩ := extractParkData_ok_some B item index type isOffLeash p h
  have ho := isObjectType_of_extractCoordinates B _ c hc
  have hiff : "Night Lighting" ∈ p.facilities ↔
      mentionsKeyword B (fieldBag item) "lighting" ∨
      (isYes B ((fieldBag item).get "LIGHTING")
        || isYes B ((fieldBag item).get "lighting")) = true := by
    rw [hfac, mem_augmentFacilities]
    have hm := mem_extractFacilities_iff B hyes htrue hone (fieldBag item) ht ho
      ("lighting", "Night Lighting") (by decide)
    constructor
    · rintro (h1 | h1 | h1 | h1 | h1)
      · exact Or.inl (hm.mp h1)
      · exact Or.inr h1.2
      · exact absurd h1.1 (by decide)
      · exact absurd h1.1 (by decide)
      · exact absurd h1.1 (by decide)
    · rintro (h1 | h1)
      · exact Or.inl (hm.mpr h1)
      · exact Or.inr (Or.inl ⟨rfl, h1⟩)
  refine ⟨hiff, ?_, ?_⟩
  · intro key hk hinc
    exact hiff.mpr (Or.inl (Or.inl ⟨key, hk, Or.inl hinc⟩))
  · by_cases hmem : "Night Lighting" ∈ p.facilities
    · simp [getFilteredParks, passesFilters, nightLightingOnly, flagOn, flagIsTrue, hmem]
    · simp [getFilteredParks, passesFilters, nightLightingOnly, flagOn, flagIsTrue, hmem]

theorem extractParkData_night_lighting_witness :
    isYes refBuiltins (.str "N") = false ∧
    "Night Lighting" ∈ (parkOf refBuiltins (flagRecord "LIGHTING" (.str "N")) 0 "off-leash"
      true).facilities ∧
    (getFilteredParks [parkOf refBuiltins (flagRecord "LIGHTING" (.str "N")) 0 "off-leash" true]
        nightLightingOnly).length = 1 ∧
    (parkOf refBuiltins (flagRecord "FENCING" (.str "N")) 0 "off-leash" true).facilities
      = ["Dog Friendly"] :=
  ⟨by decide,
   (extractParkData_night_lighting refBuiltins (by decide) (by decide) (by decide)
      (flagRecord "LIGHTING" (.str "N")) 0 "off-leash" true _ rfl).2.1
      "LIGHTING" (by decide) (by decide),
   by decide, by decide⟩

/-! ### Stability of the ranking -/

theorem ne_of_isPositive_sub (a b : JsNum) (h : (a - b).isPositive = true) : a ≠ b := by
  rintro rfl
  revert h
  show (JsNum.sub a a).isPositive = true → False
  cases a with
  | nan => simp [JsNum.sub, JsNum.neg, JsNum.add, JsNum.isPositive]
  | fin q => simp [JsNum.sub, JsNum.neg, JsNum.add, JsNum.isPositive]
  | inf n => cases n <;> simp [JsNum.sub, JsNum.neg, JsNum.add, JsNum.isPositive]

theorem insertByDistance_filter (x : RankedPark) (l : List RankedPark) (d : JsNum) :
    (insertByDistance x l).filter (fun a => decide (a.key = d))
      = (x :: l).filter (fun a => decide (a.key = d)) := by
  induction l with
  | nil => rfl
  | cons y ys ih =>
    rw [insertByDistance]
    split
    · rename_i hpos
      have hne := ne_of_isPositive_sub _ _ hpos
      rw [List.filter_cons, ih]
      by_cases hx : x.key = d
      · have hy : y.key ≠ d := fun hy => hne (hx.trans hy.symm)
        simp [List.filter_cons, hx, hy]
      · simp [List.filter_cons, hx]
    · rfl

theorem sortByDistance_filter (l : List RankedPark) (d : JsNum) :
    (sortByDistance l).filter (fun a => decide (a.key = d))
      = l.filter (fun a => decide (a.key = d)) := by
  induction l with
  | nil => rfl
  | cons x xs ih =>
    rw [sortByDistance, insertByDistance_filter, List.filter_cons, List.filter_cons, ih]

/-- C28, a run of the code: with a reference point whose latitude is `NaN` every attached
distance is `NaN`, and the attached distances of the result are not in non-decreasing
order, since `NaN <= NaN` is false. -/
theorem getNearestParks_nan_not_ordered :
    (getNearestParks refMath refBuiltins (some nanReference) loadSampleData 2).map
        RankedPark.distance
      = [some .nan, some .nan] ∧
    JsNum.le .nan .nan = false ∧
    decide ((getNearestParks refMath refBuiltins (some nanReference) loadSampleData 2).Pairwise
      (fun a b => a.key.le b.key = true)) = false := by
  decide!

/-- C28, amended: with a reference point from which no computed distance is `NaN`, each
returned park carries the distance of `calculateDistance`, which is the haversine distance
rounded to one decimal; the attached distances do not decrease along the result; and the
sort is stable: for each distance value, the returned parks at that distance are the first
ones of the input at that distance, in input order.  Of two parks at 0.64 km and 0.56 km,
both rounded to 0.6, the limit 1 returns the one that comes first in the input. -/
theorem getNearestParks_stable (M : MathFns) (B : Builtins) (loc : LatLng)
    (parks : List Park) (limit : Nat)
    (h : ∀ p ∈ parks, distanceTo M B loc p ≠ .nan) :
    (∀ rp ∈ getNearestParks M B (some loc) parks limit,
      rp.distance = some (parseFloat B
        (.str (toFixed1 B (haversineKm M loc (parkLocation rp.park)))))) ∧
    (getNearestParks M B (some loc) parks limit).Pairwise
      (fun a b => a.key.le b.key = true) ∧
    (∀ d : JsNum, ∃ rest : List Park,
      ((getNearestParks M B (some loc) parks limit).filter
          (fun a => decide (a.key = d))).map RankedPark.park ++ rest
        = parks.filter (fun p => decide (distanceTo M B loc p = d))) ∧
    rankedNames refBuiltins
        (getNearestParks refMath refBuiltins (some brisbaneCentre) botanicThenSouthBank 1)
      = ["City Botanic Gardens"] ∧
    rankedNames refBuiltins
        (getNearestParks refMath refBuiltins (some brisbaneCentre)
          botanicThenSouthBank.reverse 1)
      = ["South Bank Parklands"] := by
  rw [getNearestParks_some]
  generalize hpwd : parks.map
    (fun park => ({ park := park, distance := some (distanceTo M B loc park) } : RankedPark))
    = pwd
  have hmem : ∀ y ∈ pwd, y.distance = some (distanceTo M B loc y.park) ∧ y.park ∈ parks := by
    intro y hy
    rw [← hpwd, List.mem_map] at hy
    obtain ⟨p, hp, rfl⟩ := hy
    exact ⟨rfl, hp⟩
  have hperm := sortByDistance_perm pwd
  refine ⟨?_, ?_, ?_, by decide!, by decide!⟩
  · intro rp hrp
    exact (hmem rp (hperm.mem_iff.mp (List.mem_of_mem_take hrp))).1
  · refine (sortByDistance_pairwise pwd ?_).sublist (List.take_sublist _ _)
    intro y hy
    rw [key_of_distance y _ (hmem y hy).1]
    exact h _ (hmem y hy).2
  · intro d
    refine ⟨((List.drop limit (sortByDistance pwd)).filter
      (fun a => decide (a.key = d))).map RankedPark.park, ?_⟩
    rw [← List.map_append, ← List.filter_append, List.take_append_drop,
      sortByDistance_filter, ← hpwd, List.filter_map, List.map_map]
    have hfun : (RankedPark.park ∘ fun park =>
        ({ park := park, distance := some (distanceTo M B loc park) } : RankedPark)) = id := rfl
    rw [hfun, List.map_id]
    rfl

theorem getNearestParks_stable_witness :
    (∀ p ∈ loadSampleData, distanceTo refMath refBuiltins brisbaneCentre p ≠ .nan) ∧
    (getNearestParks refMath refBuiltins (some brisbaneCentre) loadSampleData 2).Pairwise
      (fun a b => a.key.le b.key = true) ∧
    (getNearestParks refMath refBuiltins (some brisbaneCentre) loadSampleData 2).map
        RankedPark.distance
      = [some (.fin (mkRat 6 10)), some (.fin (mkRat 6 10))] ∧
    rankedNames refBuiltins
        (getNearestParks refMath refBuiltins (some brisbaneCentre) loadSampleData 2)
      = ["South Bank Parklands", "City Botanic Gardens"] :=
  ⟨by decide!,
   (getNearestParks_stable refMath refBuiltins brisbaneCentre loadSampleData 2
     (by decide!)).2.1,
   by decide!, by decide!⟩

end ParkMap
